import Mathlib

/-!
The package ginx: schema inference and the `doc` tag language.

A shallow embedding of `doc.go` of `raymond852/ginx` (the tag parser `parseDocTag`, the
kind extractor `extractOpenAPIType` and its probes, the schema builder `extractSchema`, and the
reference table `Refs` / `DocDefineRef`), followed by theorems about them.

Conventions of the embedding.

* A Go `string` is a Lean `String`.  `parseDocTag` ranges over the runes of its input
  (`for _, char := range tagContent`), which is `String.data` here.  The byte tests
  `val[len(val)-1] == '\\'` and the byte slice `val[:len(val)-1]` of the source act on the
  last rune, because `val` is only ever built from `string(char)` pieces and the backslash is
  a one-byte rune that is no part of a longer encoding.
* A Go `panic` is `Except.error` with the site of the panic; a normal return is `Except.ok`.
* A Go map is an association list with pairwise different keys; `m[k] = v` is `mapSet`.
-/

namespace Ginx

/-! ## Panics -/

/-- The places at which the Go code panics. -/
inductive Panic where
  /-- `panic("invalid doc tag, content=" + tagContent)` in `parseDocTag` -/
  | invalidDocTag
  /-- `panic("prototype=... should has one or more elements in an array")` -/
  | emptyArray
  /-- `panic("prototype=... not supported")` -/
  | notSupported
  /-- the argument of a numeric directive does not parse -/
  | notANumber
  /-- `panic("docRef key=... already exists")` in `DocDefineRef` -/
  | refExists
  /-- a failed type assertion `val.(string)` or `val.([]interface{})` -/
  | typeAssertion
  /-- a panic raised by package `reflect` (zero `Value`, unexported field) -/
  | reflect
  /-- a nil pointer dereference -/
  | nilDereference
  deriving DecidableEq, Repr

deriving instance DecidableEq for Except

/-! ## The tag parser -/

/-- The three states of the automaton of `parseDocTag`
(`stateNextField := 0`, `stateFieldKey := 1`, `stateFieldVal := 2`). -/
inductive TagState where
  | stateNextField
  | stateFieldKey
  | stateFieldVal
  deriving DecidableEq, Repr

/-- The local variables of `parseDocTag`.  `parenthesesStack` is a `[]struct{}` in the
source, of which only the length is ever read; the field holds that length. -/
structure TagVars where
  ret : List (String × String)
  state : TagState
  parenthesesStack : Nat
  key : String
  val : String
  deriving DecidableEq, Repr

/-- The test `len(val) > 0 && val[len(val)-1] == '\\'`. -/
def endsWithBackslash (val : String) : Bool :=
  val.data.getLast? == some '\\'

/-- The slice `val[:len(val)-1]`, taken when `endsWithBackslash val`. -/
def dropLastByte (val : String) : String :=
  String.mk val.data.dropLast

/-- One iteration of the loop `for _, char := range tagContent` of `parseDocTag`. -/
def parseDocTagStep (p : TagVars) (char : Char) : TagVars :=
  match p.state with
  | .stateNextField =>
    let p := { p with parenthesesStack := 0 }
    if char ≠ ' ' then
      { p with state := .stateFieldKey, key := String.singleton char }
    else p
  | .stateFieldKey =>
    if char = ' ' then
      { p with state := .stateNextField, ret := p.ret ++ [(p.key, p.val)], key := "", val := "" }
    else if char = '(' then
      { p with state := .stateFieldVal }
    else
      { p with key := p.key.push char }
  | .stateFieldVal =>
    if char = '(' then
      if endsWithBackslash p.val then
        { p with val := (dropLastByte p.val).push '(' }
      else
        { p with parenthesesStack := p.parenthesesStack + 1, val := p.val.push char }
    else if char = ')' then
      if endsWithBackslash p.val then
        { p with val := (dropLastByte p.val).push ')' }
      else if p.parenthesesStack = 0 then
        { p with state := .stateNextField, ret := p.ret ++ [(p.key, p.val)],
                 key := "", val := "" }
      else
        { p with parenthesesStack := p.parenthesesStack - 1, val := p.val.push char }
    else
      { p with val := p.val.push char }

/-- The variables of `parseDocTag` before the loop. -/
def parseDocTagInit : TagVars :=
  { ret := [], state := .stateNextField, parenthesesStack := 0, key := "", val := "" }

/-- The variables of `parseDocTag` after the loop over all of `tagContent`. -/
def parseDocTagLoop (tagContent : String) : TagVars :=
  tagContent.data.foldl parseDocTagStep parseDocTagInit

/-- The function `parseDocTag` of `doc.go`: the directives of a tag text, or a panic. -/
def parseDocTag (tagContent : String) : Except Panic (List (String × String)) :=
  let p := parseDocTagLoop tagContent
  if p.state = .stateFieldKey ∧ p.ret.length = 0 then
    .ok (p.ret ++ [(p.key, p.val)])
  else if p.state ≠ .stateNextField then
    .error .invalidDocTag
  else
    .ok p.ret

/-- The variables in state `stateNextField` with no pending key or value. -/
def nextField (ret : List (String × String)) : TagVars :=
  { ret := ret, state := .stateNextField, parenthesesStack := 0, key := "", val := "" }

/-! ### Writing directives as tag text -/

/-- A directive written as the bare key, or as `key(value)`. -/
def renderDirective (bare : Bool) (d : String × String) : String :=
  if bare then d.1 else d.1 ++ "(" ++ d.2 ++ ")"

/-- The texts joined with single spaces. -/
def joinSpace : List String → String
  | [] => ""
  | [s] => s
  | s :: t :: rest => s ++ " " ++ joinSpace (t :: rest)

/-- The tag text of a list of directives; the flag of a directive says whether it is written
as the bare key. -/
def renderTag (ds : List (Bool × String × String)) : String :=
  joinSpace (ds.map fun d => renderDirective d.1 d.2)

/-- The tag text in which every directive is followed by one space. -/
def renderSpaced : List (Bool × String × String) → String
  | [] => ""
  | d :: ds => renderDirective d.1 d.2 ++ " " ++ renderSpaced ds

/-- A key: non-empty, without space and without `(`. -/
def ValidKey (k : String) : Prop :=
  k ≠ "" ∧ ' ' ∉ k.data ∧ '(' ∉ k.data

/-- Balanced parentheses: no prefix has more `)` than `(`, and the totals are equal. -/
def Balanced (v : String) : Prop :=
  (∀ n ≤ v.data.length, (v.data.take n).count ')' ≤ (v.data.take n).count '(') ∧
    v.data.count '(' = v.data.count ')'

/-- A value that `key(value)` round-trips: balanced parentheses and no backslash. -/
def ValidValue (v : String) : Prop :=
  Balanced v ∧ '\\' ∉ v.data

/-- Every directive has a valid key and a valid value, and a directive written as the bare
key has the empty value. -/
def WellFormed (ds : List (Bool × String × String)) : Prop :=
  ∀ d ∈ ds, ValidKey d.2.1 ∧ ValidValue d.2.2 ∧ (d.1 = true → d.2.2 = "")

/-- The last directive, if any, is not written as the bare key. -/
def LastNotBare (ds : List (Bool × String × String)) : Prop :=
  ds.getLast?.map (fun d => d.1) ≠ some true

instance (k : String) : Decidable (ValidKey k) := by
  unfold ValidKey; infer_instance

instance (v : String) : Decidable (Balanced v) := by
  unfold Balanced; infer_instance

instance (v : String) : Decidable (ValidValue v) := by
  unfold ValidValue; infer_instance

instance (ds : List (Bool × String × String)) : Decidable (WellFormed ds) := by
  unfold WellFormed; infer_instance

instance (ds : List (Bool × String × String)) : Decidable (LastNotBare ds) := by
  unfold LastNotBare; infer_instance

/-! ## Go values as package `reflect` shows them -/

/-- The kinds of `reflect.Kind`. -/
inductive Kind where
  | Invalid | Bool | Int | Int8 | Int16 | Int32 | Int64
  | Uint | Uint8 | Uint16 | Uint32 | Uint64 | Uintptr
  | Float32 | Float64 | Complex64 | Complex128
  | Array | Chan | Func | Interface | Map | Ptr | Slice | String | Struct | UnsafePointer
  deriving DecidableEq, Repr

/-- The signed integer kinds. -/
inductive IntKind where
  | Int | Int8 | Int16 | Int32 | Int64
  deriving DecidableEq, Repr

/-- The unsigned integer kinds. -/
inductive UintKind where
  | Uint | Uint8 | Uint16 | Uint32 | Uint64 | Uintptr
  deriving DecidableEq, Repr

/-- The floating-point kinds. -/
inductive FloatKind where
  | Float32 | Float64
  deriving DecidableEq, Repr

/-- The remaining kinds of values whose contents this package never reads. -/
inductive OtherKind where
  | Complex64 | Complex128 | Array | Chan | Func | UnsafePointer
  deriving DecidableEq, Repr

/-- A `float64`, known by its bit pattern only. -/
structure Float64 where
  bits : Nat
  deriving DecidableEq, Repr

/-- A value without parts that this package looks into. -/
inductive Scalar where
  | bool (b : Bool)
  | int (k : IntKind) (n : Int)
  | uint (k : UintKind) (n : Nat)
  | float (k : FloatKind) (x : Float64)
  | string (s : String)
  | other (k : OtherKind)
  deriving DecidableEq, Repr

/-- The kind of a scalar. -/
def Scalar.Kind : Scalar → Kind
  | .bool _ => .Bool
  | .int .Int _ => .Int
  | .int .Int8 _ => .Int8
  | .int .Int16 _ => .Int16
  | .int .Int32 _ => .Int32
  | .int .Int64 _ => .Int64
  | .uint .Uint _ => .Uint
  | .uint .Uint8 _ => .Uint8
  | .uint .Uint16 _ => .Uint16
  | .uint .Uint32 _ => .Uint32
  | .uint .Uint64 _ => .Uint64
  | .uint .Uintptr _ => .Uintptr
  | .float .Float32 _ => .Float32
  | .float .Float64 _ => .Float64
  | .string _ => .String
  | .other .Complex64 => .Complex64
  | .other .Complex128 => .Complex128
  | .other .Array => .Array
  | .other .Chan => .Chan
  | .other .Func => .Func
  | .other .UnsafePointer => .UnsafePointer

/-- A variable (struct field) as `reflect.Value` shows it: of a concrete static type, or of
an interface type, holding a dynamic value or nil. -/
inductive Slot (α : Type) where
  | conc (v : α)
  | iface (dyn : Option α)
  deriving Repr

/-- What this package reads of a `reflect.StructField`: the name, the package path (empty
exactly for an exported field), the embedding flag, and `Tag.Get` of the three tag keys
`json`, `form` and `doc` (`RootTag`). -/
structure StructField where
  Name : String
  PkgPath : String := ""
  Anonymous : Bool := false
  json : String := ""
  form : String := ""
  doc : String := ""
  deriving DecidableEq, Repr

/-- What this package reads of a `reflect.Type` other than its fields: the kind, whether the
type is assignable to `multipart.FileHeader`, and `NumField()` (of a struct type). -/
structure TypeInfo where
  Kind : Kind
  isFileHeader : Bool := false
  NumField : Nat := 0
  deriving DecidableEq, Repr

/-- A non-nil Go value held in an `interface{}`, hence of a concrete dynamic type.
`ty` is the type as `reflect.Type.String()` prints it (`"string"`, `"ginx.TypeString"`,
`"[]interface {}"`); it tells a defined type from its underlying type.

* the entries of a map are only ever copied into `example`; keys and values are scalars here;
* the elements of a slice are given as `Index(i).Interface()` returns them (`none` is a nil
  element of an interface-typed slice);
* `fileHeader` is a value of type `multipart.FileHeader`, every other struct is a `struct`;
* `nilPtr elem` is a nil pointer to a type described by `elem`. -/
inductive Value where
  | scalar (ty : String) (x : Scalar)
  | map (ty : String) (entries : List (Scalar × Scalar))
  | slice (ty : String) (elems : List (Option Value))
  | struct (ty : String) (fields : List (StructField × Slot Value))
  | fileHeader
  | ptr (target : Value)
  | nilPtr (elem : TypeInfo)
  deriving Repr

/-- `reflect.TypeOf(x)` as far as it is read. -/
def Value.TypeOf : Value → TypeInfo
  | .scalar _ x => { Kind := x.Kind }
  | .map _ _ => { Kind := .Map }
  | .slice _ _ => { Kind := .Slice }
  | .struct _ fields => { Kind := .Struct, NumField := fields.length }
  | .fileHeader => { Kind := .Struct, isFileHeader := true }
  | .ptr _ => { Kind := .Ptr }
  | .nilPtr _ => { Kind := .Ptr }

/-- `reflect.TypeOf(x).Elem()` of a pointer `x`. -/
def Value.ElemType : Value → TypeInfo
  | .ptr target => target.TypeOf
  | .nilPtr elem => elem
  | _ => { Kind := .Invalid }

/-- `reflect.ValueOf(x).Elem()` of a pointer `x`; `none` is the zero `reflect.Value`, whose
kind is `Invalid`. -/
def Value.Elem : Value → Option Value
  | .ptr target => some target
  | _ => none

/-- The elements of a slice, each as `Index(i).Interface()`. -/
def Value.elems : Value → List (Option Value)
  | .slice _ elems => elems
  | _ => []

/-- The fields of a struct value: `Type.Field(i)` with `Value.Field(i)`.  The fields of a
`multipart.FileHeader` are not modelled: they carry no tag, and `extractSchema` answers
the file probe before it would visit them. -/
def Value.fields : Value → List (StructField × Slot Value)
  | .struct _ fields => fields
  | _ => []

/-- `val.Kind()` of a field. -/
def Slot.Kind : Slot Value → Kind
  | .conc v => v.TypeOf.Kind
  | .iface _ => .Interface

/-- `val.Interface()` of a field: panics on an unexported field, returns the dynamic value
of an interface-typed field (`none` when it is nil). -/
def Slot.Interface (field : StructField) : Slot Value → Except Panic (Option Value)
  | .conc v => if field.PkgPath = "" then .ok (some v) else .error .reflect
  | .iface dyn => if field.PkgPath = "" then .ok dyn else .error .reflect

/-! ## The kind extractor -/

/-- The struct `valHolder` (`type` is its field `Type`); `Value = none` is the zero
`reflect.Value`. -/
structure valHolder where
  type : TypeInfo
  Value : Option Value

/-- The function `extractOpenAPIType` of `doc.go`, for a non-nil argument. -/
def extractOpenAPIType (valOrValPtr : Value) (kind : Kind) : Option valHolder :=
  let t := valOrValPtr.TypeOf
  if t.Kind = .Ptr then
    if valOrValPtr.ElemType.Kind ≠ kind then none
    else some { type := valOrValPtr.ElemType, Value := valOrValPtr.Elem }
  else if t.Kind ≠ kind then none
  else some { type := t, Value := some valOrValPtr }

/-- The function `extractMap`. -/
def extractMap (mapOrPtr : Value) : Option valHolder :=
  extractOpenAPIType mapOrPtr .Map

/-- The function `extractArray`. -/
def extractArray (arrayOrPtr : Value) : Option valHolder :=
  extractOpenAPIType arrayOrPtr .Slice

/-- The function `extractInteger`. -/
def extractInteger (integerOrPtr : Value) : Option valHolder :=
  match extractOpenAPIType integerOrPtr .Int with
  | some ret => some ret
  | none =>
  match extractOpenAPIType integerOrPtr .Int8 with
  | some ret => some ret
  | none =>
  match extractOpenAPIType integerOrPtr .Int16 with
  | some ret => some ret
  | none =>
  match extractOpenAPIType integerOrPtr .Int32 with
  | some ret => some ret
  | none =>
  match extractOpenAPIType integerOrPtr .Int64 with
  | some ret => some ret
  | none => none

/-- The function `extractNumber`. -/
def extractNumber (floatOrPtr : Value) : Option valHolder :=
  match extractOpenAPIType floatOrPtr .Float32 with
  | some ret => some ret
  | none =>
  match extractOpenAPIType floatOrPtr .Float64 with
  | some ret => some ret
  | none => none

/-- The function `extractString`. -/
def extractString (stringOrPtr : Value) : Option valHolder :=
  extractOpenAPIType stringOrPtr .String

/-- The function `extractBoolean`. -/
def extractBoolean (boolOrPtr : Value) : Option valHolder :=
  extractOpenAPIType boolOrPtr .Bool

/-- The function `extractStruct`. -/
def extractStruct (structOrPtr : Value) : Option valHolder :=
  extractOpenAPIType structOrPtr .Struct

/-- The function `extractFileHeader`. -/
def extractFileHeader (fileHeaderOrPtr : Value) : Option valHolder :=
  match extractOpenAPIType fileHeaderOrPtr .Struct with
  | some ret => if ret.type.isFileHeader then some ret else none
  | none => none

/-! ## Go maps, `strings.Split`, `strconv` -/

/-- The lookup `m[k]` of a Go map with string keys: `none` when the key is absent. -/
def mapGet {α : Type} : List (String × α) → String → Option α
  | [], _ => none
  | (k', v) :: rest, k => if k' = k then some v else mapGet rest k

/-- The assignment `m[k] = v` of a Go map with string keys. -/
def mapSet {α : Type} : List (String × α) → String → α → List (String × α)
  | [], k, v => [(k, v)]
  | (k', v') :: rest, k, v => if k' = k then (k, v) :: rest else (k', v') :: mapSet rest k v

/-- The pieces of a rune sequence between the occurrences of `sep`. -/
def splitRunes (sep : Char) : List Char → List (List Char)
  | [] => [[]]
  | c :: cs =>
    if c = sep then [] :: splitRunes sep cs
    else
      match splitRunes sep cs with
      | [] => [[c]]
      | w :: ws => (c :: w) :: ws

/-- The call `strings.Split(s, sep)` for a separator of one character. -/
def stringsSplit (s : String) (sep : Char) : List String :=
  (splitRunes sep s.data).map String.mk

/-- The element `fieldNameArr[0]` of a split. -/
def firstPiece : List String → String
  | [] => ""
  | a :: _ => a

/-- The value of a decimal digit. -/
def digitVal (c : Char) : Option Nat :=
  if '0' ≤ c ∧ c ≤ '9' then some (c.toNat - '0'.toNat) else none

/-- The number written by a non-empty sequence of decimal digits. -/
def parseDecimal : List Char → Option Nat
  | [] => none
  | cs => cs.foldlM (fun acc c => (digitVal c).map fun d => acc * 10 + d) 0

/-- The call `strconv.ParseInt(s, 10, 64)`: the number when `err == nil`, `none` when
`err != nil` (bad syntax or out of the range of `int64`). -/
def ParseInt (s : String) : Option Int :=
  match s.data with
  | '+' :: ds => (parseDecimal ds).bind fun n => if n < 2 ^ 63 then some (n : Int) else none
  | '-' :: ds => (parseDecimal ds).bind fun n => if n ≤ 2 ^ 63 then some (-(n : Int)) else none
  | ds => (parseDecimal ds).bind fun n => if n < 2 ^ 63 then some (n : Int) else none

/-- The call `strconv.Atoi(s)`, with `int` of 64 bits. -/
def Atoi (s : String) : Option Int :=
  ParseInt s

/-- The conversion `uint64(n)` of a 64-bit signed integer. -/
def uint64 (n : Int) : Nat :=
  (n % 2 ^ 64).toNat

/-! ## Schemas -/

/-- The `type` of an `openapi3.Schema` as the constructors `NewStringSchema`,
`NewIntegerSchema`, `NewFloat64Schema`, `NewBoolSchema`, `NewObjectSchema` and
`NewArraySchema` set it. -/
inductive SchemaType where
  | string | integer | number | boolean | object | array
  deriving DecidableEq, Repr

/-- The fields of an `openapi3.Schema` written by this package, apart from `Items` and
`Properties`.  `type` is the field `Type`; `MaxItems`, `MaxLength`, `Max` and `Min` are
pointers in Go. -/
structure SchemaAttrs where
  type : SchemaType
  Format : String := ""
  Example : Option Value := none
  Required : List String := []
  MaxItems : Option Nat := none
  MinItems : Nat := 0
  Nullable : Bool := false
  Pattern : String := ""
  Description : String := ""
  Enum : List (Option Value) := []
  MaxLength : Option Nat := none
  MinLength : Nat := 0
  Max : Option Float64 := none
  Min : Option Float64 := none
  deriving Repr

/-- An `openapi3.Schema`, also standing for the `*openapi3.SchemaRef` with an empty `Ref`
that points to it. -/
inductive Schema where
  | mk (attrs : SchemaAttrs) (Items : Option Schema) (Properties : List (String × Schema))
  deriving Repr

/-- The fields other than `Items` and `Properties`. -/
def Schema.attrs : Schema → SchemaAttrs
  | .mk attrs _ _ => attrs

/-- The field `Items`. -/
def Schema.Items : Schema → Option Schema
  | .mk _ Items _ => Items

/-- The field `Properties`. -/
def Schema.Properties : Schema → List (String × Schema)
  | .mk _ _ Properties => Properties

/-- An assignment to fields other than `Items` and `Properties`. -/
def Schema.modify (f : SchemaAttrs → SchemaAttrs) : Schema → Schema
  | .mk attrs Items Properties => .mk (f attrs) Items Properties

/-- A schema without items and properties. -/
def Schema.leaf (attrs : SchemaAttrs) : Schema :=
  .mk attrs none []

/-- The result of `openapi3.NewObjectSchema()`. -/
def NewObjectSchema : Schema :=
  .leaf { type := .object }

/-! ## The reference table -/

/-- The global `Refs`, a `map[string]interface{}` (`none` is a nil value), and the library
function `strconv.ParseFloat(s, 64)` (`none` when `err != nil`), which is not modelled. -/
structure Env where
  Refs : List (String × Option Value)
  ParseFloat : String → Option Float64

/-- The function `DocDefineRef` of `doc.go`, acting on the global `Refs`: the table after
the call, and whether the call returned or panicked.  The panic comes before the
assignment `Refs[key] = val`. -/
def DocDefineRef (Refs : List (String × Option Value)) (key : String) (val : Option Value) :
    List (String × Option Value) × Except Panic Unit :=
  if (mapGet Refs key).isSome then (Refs, .error .refExists)
  else (mapSet Refs key val, .ok ())

/-- The type assertion `val.(string)`. -/
def assertString : Option Value → Except Panic String
  | some (.scalar ty (.string s)) => if ty = "string" then .ok s else .error .typeAssertion
  | _ => .error .typeAssertion

/-- The type assertion `val.([]interface{})`. -/
def assertInterfaceSlice : Option Value → Except Panic (List (Option Value))
  | some (.slice ty elems) => if ty = "[]interface {}" then .ok elems else .error .typeAssertion
  | _ => .error .typeAssertion

/-- A Go `string` held in an `interface{}`. -/
def stringValue (s : String) : Option Value :=
  some (.scalar "string" (.string s))

/-! ## The schema builder -/

/-- The constant `DocTagFieldRequired`. -/
def DocTagFieldRequired : String := "required"
/-- The constant `DocTagFieldFormat`. -/
def DocTagFieldFormat : String := "format"
/-- The constant `DocTagFieldPattern`. -/
def DocTagFieldPattern : String := "pattern"
/-- The constant `DocTagFieldDescription`. -/
def DocTagFieldDescription : String := "desc"
/-- The constant `DocTagFieldEnum`. -/
def DocTagFieldEnum : String := "enum"
/-- The constant `DocTagFieldNullable`. -/
def DocTagFieldNullable : String := "nullable"
/-- The constant `DocTagFieldMinItems`. -/
def DocTagFieldMinItems : String := "minItems"
/-- The constant `DocTagFieldMaxItems`. -/
def DocTagFieldMaxItems : String := "maxItems"
/-- The constant `DocTagFieldMaximum`. -/
def DocTagFieldMaximum : String := "maximum"
/-- The constant `DocTagFieldMinimum`. -/
def DocTagFieldMinimum : String := "minimum"
/-- The constant `DocTagFieldStringMaxLength`. -/
def DocTagFieldStringMaxLength : String := "maxLength"
/-- The constant `DocTagFieldStringMinLength`. -/
def DocTagFieldStringMinLength : String := "minLength"

/-- The body of the loop `for _, schemaFieldKV := range kvs` of `extractSchema` (the
`switch`), acting on the pair of `objSch` and `schemeRef`; `fn` is the wire name. -/
def applyDocTagField (env : Env) (fn : String) (st : Schema × Schema)
    (schemaFieldKV : String × String) : Except Panic (Schema × Schema) :=
  let objSch := st.1
  let schemeRef := st.2
  if schemaFieldKV.1 = DocTagFieldMaxItems then
    match ParseInt schemaFieldKV.2 with
    | none => .error .notANumber
    | some n => .ok (objSch, schemeRef.modify fun a => { a with MaxItems := some (uint64 n) })
  else if schemaFieldKV.1 = DocTagFieldMinItems then
    match ParseInt schemaFieldKV.2 with
    | none => .error .notANumber
    | some n => .ok (objSch, schemeRef.modify fun a => { a with MinItems := uint64 n })
  else if schemaFieldKV.1 = DocTagFieldNullable then
    .ok (objSch, schemeRef.modify fun a => { a with Nullable := true })
  else if schemaFieldKV.1 = DocTagFieldRequired then
    .ok (objSch.modify fun a => { a with Required := a.Required ++ [fn] }, schemeRef)
  else if schemaFieldKV.1 = DocTagFieldFormat then
    .ok (objSch, schemeRef.modify fun a => { a with Format := schemaFieldKV.2 })
  else if schemaFieldKV.1 = DocTagFieldPattern then
    match mapGet env.Refs schemaFieldKV.2 with
    | some val => do
      let str ← assertString val
      .ok (objSch, schemeRef.modify fun a => { a with Pattern := str })
    | none => .ok (objSch, schemeRef.modify fun a => { a with Pattern := schemaFieldKV.2 })
  else if schemaFieldKV.1 = DocTagFieldDescription then
    match mapGet env.Refs schemaFieldKV.2 with
    | some val => do
      let str ← assertString val
      .ok (objSch, schemeRef.modify fun a => { a with Description := str })
    | none => .ok (objSch, schemeRef.modify fun a => { a with Description := schemaFieldKV.2 })
  else if schemaFieldKV.1 = DocTagFieldEnum then
    match mapGet env.Refs schemaFieldKV.2 with
    | some val => do
      let list ← assertInterfaceSlice val
      .ok (objSch, schemeRef.modify fun a => { a with Enum := list })
    | none =>
      let sp := stringsSplit schemaFieldKV.2 ';'
      let enums := sp.map stringValue
      .ok (objSch, schemeRef.modify fun a => { a with Enum := enums })
  else if schemaFieldKV.1 = DocTagFieldStringMaxLength then
    match Atoi schemaFieldKV.2 with
    | none => .error .notANumber
    | some lessThanOrEqualTo =>
      .ok (objSch, schemeRef.modify fun a => { a with MaxLength := some (uint64 lessThanOrEqualTo) })
  else if schemaFieldKV.1 = DocTagFieldMaximum then
    match env.ParseFloat schemaFieldKV.2 with
    | none => .error .notANumber
    | some lessThanOrEqualTo =>
      .ok (objSch, schemeRef.modify fun a => { a with Max := some lessThanOrEqualTo })
  else if schemaFieldKV.1 = DocTagFieldStringMinLength then
    match Atoi schemaFieldKV.2 with
    | none => .error .notANumber
    | some greaterThanOrEqual =>
      .ok (objSch, schemeRef.modify fun a => { a with MinLength := uint64 greaterThanOrEqual })
  else if schemaFieldKV.1 = DocTagFieldMinimum then
    match env.ParseFloat schemaFieldKV.2 with
    | none => .error .notANumber
    | some greaterThanOrEqual =>
      .ok (objSch, schemeRef.modify fun a => { a with Min := some greaterThanOrEqual })
  else
    .ok (objSch, schemeRef)

/-- The wire name `fn` of a field (the lines from `fTag := field.Tag.Get("json")` to
`fn := fieldNameArr[0]` of `extractSchema`); `none` is the `continue`. -/
def wireName (field : StructField) : Option String :=
  let fTag := field.json
  let fieldNameArr := stringsSplit fTag ','
  if (firstPiece fieldNameArr).length = 0 ∨ firstPiece fieldNameArr = "-" then
    let fTag := field.form
    let fieldNameArr := stringsSplit fTag ','
    if (firstPiece fieldNameArr).length = 0 ∨ firstPiece fieldNameArr = "-" then
      none
    else
      some (firstPiece fieldNameArr)
  else
    some (firstPiece fieldNameArr)

/-- The loop `for k, v := range sr.Value.Properties { objSch.Properties[k] = v }`. -/
def mergeProperties (into : List (String × Schema)) (src : List (String × Schema)) :
    List (String × Schema) :=
  src.foldl (fun m kv => mapSet m kv.1 kv.2) into

/-- The body of the loop `for i := 0; i < num; i++` of `extractSchema`, for the field
`field := vh.Type.Field(i)` with `val := vh.Value.Field(i)`; the first argument stands for
the recursive calls of `extractSchema`. -/
def extractSchemaField (env : Env)
    (extractSchema : Option Value → Except Panic (Option Schema))
    (objSch : Schema) (fv : StructField × Slot Value) : Except Panic Schema :=
  let field := fv.1
  let val := fv.2
  if val.Kind = .Struct ∧ field.Anonymous = true then do
    let sr ← extractSchema (← val.Interface field)
    match sr with
    | none => .error .nilDereference
    | some sr =>
      .ok (.mk { objSch.attrs with Required := objSch.attrs.Required ++ sr.attrs.Required }
        objSch.Items (mergeProperties objSch.Properties sr.Properties))
  else
    match wireName field with
    | none => .ok objSch
    | some fn =>
      let docStr := field.doc
      if docStr.length = 0 then .ok objSch
      else do
        let schemeRef ← extractSchema (← val.Interface field)
        match schemeRef with
        | none => .ok objSch
        | some schemeRef =>
          let kvs ← parseDocTag docStr
          let st ← kvs.foldlM (applyDocTagField env fn) (objSch, schemeRef)
          .ok (.mk st.1.attrs st.1.Items (mapSet st.1.Properties fn st.2))

/-- The body of `extractSchema`; the second argument stands for its recursive calls. -/
def extractSchemaStep (env : Env)
    (extractSchema : Option Value → Except Panic (Option Schema))
    (prototype : Option Value) : Except Panic (Option Schema) :=
  match prototype with
  | none => .ok none
  | some prototype =>
  match extractFileHeader prototype with
  | some _ => .ok (some (.leaf { type := .string, Format := "binary" }))
  | none =>
  match extractString prototype with
  | some vh => .ok (some (.leaf { type := .string, Example := vh.Value }))
  | none =>
  match extractInteger prototype with
  | some vh => .ok (some (.leaf { type := .integer, Example := vh.Value }))
  | none =>
  match extractNumber prototype with
  | some vh => .ok (some (.leaf { type := .number, Example := vh.Value }))
  | none =>
  match extractBoolean prototype with
  | some vh => .ok (some (.leaf { type := .boolean, Example := vh.Value }))
  | none =>
  match extractMap prototype with
  | some vh => .ok (some (.leaf { type := .object, Example := vh.Value }))
  | none =>
  match extractArray prototype with
  | some vh =>
    match vh.Value with
    | none => .error .reflect
    | some v =>
      match v.elems with
      | [] => .error .emptyArray
      | first :: _ => do
        let items ← extractSchema first
        .ok (some (.mk { type := .array } items []))
  | none =>
  match extractStruct prototype with
  | some vh =>
    match vh.Value with
    | none => if vh.type.NumField = 0 then .ok (some NewObjectSchema) else .error .reflect
    | some v => do
      let objSch ← v.fields.foldlM (extractSchemaField env extractSchema) NewObjectSchema
      .ok (some objSch)
  | none => .error .notSupported

mutual
/-- The number of constructors of a value, a bound on the depth of the recursion of
`extractSchema`. -/
def Value.size : Value → Nat
  | .scalar _ _ => 1
  | .map _ _ => 1
  | .slice _ elems => sizeElems elems + 1
  | .struct _ fields => sizeFields fields + 1
  | .fileHeader => 1
  | .ptr target => target.size + 1
  | .nilPtr _ => 1
/-- The size of the elements of a slice. -/
def sizeElems : List (Option Value) → Nat
  | [] => 0
  | none :: rest => sizeElems rest + 1
  | some v :: rest => v.size + sizeElems rest + 1
/-- The size of the fields of a struct. -/
def sizeFields : List (StructField × Slot Value) → Nat
  | [] => 0
  | (_, .conc v) :: rest => v.size + sizeFields rest + 1
  | (_, .iface none) :: rest => sizeFields rest + 1
  | (_, .iface (some v)) :: rest => v.size + sizeFields rest + 1
end

/-- The size of a value held in an `interface{}`. -/
def sizeOpt : Option Value → Nat
  | none => 0
  | some v => v.size

/-- The function `extractSchema` unfolded to a given depth of recursion. -/
def extractSchemaFuel (env : Env) : Nat → Option Value → Except Panic (Option Schema)
  | 0, _ => .ok none
  | n + 1, prototype => extractSchemaStep env (extractSchemaFuel env n) prototype

/-- The function `extractSchema` of `doc.go`: the schema (`none` is the nil result) or the
panic.  The recursion is unfolded as deep as the prototype is large, which is deep enough
(`extractSchema_eq`). -/
def extractSchema (env : Env) (prototype : Option Value) : Except Panic (Option Schema) :=
  extractSchemaFuel env (sizeOpt prototype + 1) prototype

/-! ## What a struct field adds to the schema of its struct -/

/-- The required names that the directives of a field add to `objSch`: the wire name, once
for each `required` directive. -/
def requiredNames (fn : String) (kvs : List (String × String)) : List String :=
  (kvs.filter fun kv => kv.1 = DocTagFieldRequired).map fun _ => fn

/-- The directives of a field applied to its sub-schema `schemeRef`. -/
def applyDocTag (env : Env) (fn : String) (kvs : List (String × String))
    (schemeRef : Schema) : Except Panic Schema :=
  (kvs.foldlM (applyDocTagField env fn) (NewObjectSchema, schemeRef)).map fun st => st.2

/-- What one iteration of the loop over the fields adds: the names appended to
`objSch.Required`, and the assignments to `objSch.Properties` in order. -/
def fieldEffect (env : Env) (fv : StructField × Slot Value) :
    Except Panic (List String × List (String × Schema)) :=
  if fv.2.Kind = .Struct ∧ fv.1.Anonymous = true then
    match fv.2.Interface fv.1 with
    | .error e => .error e
    | .ok q =>
      match extractSchema env q with
      | .error e => .error e
      | .ok none => .error .nilDereference
      | .ok (some sr) => .ok (sr.attrs.Required, sr.Properties)
  else
    match wireName fv.1 with
    | none => .ok ([], [])
    | some fn =>
      if fv.1.doc.length = 0 then .ok ([], [])
      else
        match fv.2.Interface fv.1 with
        | .error e => .error e
        | .ok q =>
          match extractSchema env q with
          | .error e => .error e
          | .ok none => .ok ([], [])
          | .ok (some schemeRef) =>
            match parseDocTag fv.1.doc with
            | .error e => .error e
            | .ok kvs =>
              match applyDocTag env fn kvs schemeRef with
              | .error e => .error e
              | .ok s => .ok (requiredNames fn kvs, [(fn, s)])

/-- What the whole loop over the fields adds. -/
def fieldsEffect (env : Env) :
    List (StructField × Slot Value) → Except Panic (List String × List (String × Schema))
  | [] => .ok ([], [])
  | fv :: rest =>
    match fieldEffect env fv with
    | .error e => .error e
    | .ok e1 =>
      match fieldsEffect env rest with
      | .error e => .error e
      | .ok e2 => .ok (e1.1 ++ e2.1, e1.2 ++ e2.2)

/-- An `objSch` with names appended to `Required` and assignments made to `Properties`. -/
def addEffect (objSch : Schema) (e : List String × List (String × Schema)) : Schema :=
  .mk { objSch.attrs with Required := objSch.attrs.Required ++ e.1 } objSch.Items
    (mergeProperties objSch.Properties e.2)

/-- The text that a `desc` or `pattern` directive with argument `x` stores: the string
registered under `x` when `x` is a key of `Refs`, and `x` itself otherwise. -/
def resolveRef (env : Env) (x : String) : String :=
  match mapGet env.Refs x with
  | some (some (.scalar _ (.string s))) => s
  | _ => x

/-! ## Sample inputs -/

/-- An environment with an empty reference table and a `ParseFloat` that always fails. -/
def emptyEnv : Env :=
  { Refs := [], ParseFloat := fun _ => none }

/-- A Go `string` as a value. -/
def str (s : String) : Value :=
  .scalar "string" (.string s)

/-- A struct `JSONRequest` with an embedded struct `JSONEmbed` and one direct field. -/
def sampleEmbedded : Value :=
  .struct "ginx.JSONRequest" [
    ({ Name := "JSONEmbed", Anonymous := true },
      .conc (.struct "ginx.JSONEmbed" [
        ({ Name := "Str", json := "str", doc := "required" }, .conc (str "test"))])),
    ({ Name := "EmailField", json := "emailField", doc := "required format(email)" },
      .conc (str "a@b.c"))]

/-- The schema inferred for `sampleEmbedded`. -/
def sampleEmbeddedSchema : Schema :=
  .mk { type := .object, Required := ["str", "emailField"] } none
    [("str", .leaf { type := .string, Example := some (str "test") }),
     ("emailField", .leaf { type := .string, Example := some (str "a@b.c"), Format := "email" })]

/-- An environment with the reference table of `example_test.go`. -/
def sampleEnv : Env :=
  { Refs := [("#EnumTest2Field", some (.slice "[]interface {}"
        [stringValue "val3", stringValue "val4"])),
      ("#DescTest2Field", stringValue "test2 field")],
    ParseFloat := fun _ => none }

/-- The field `Test2` of `JSONRequest` with its value. -/
def sampleEnumField : StructField × Slot Value :=
  ({ Name := "Test2", json := "test2",
     doc := "required enum(#EnumTest2Field) desc(#DescTest2Field)" }, .conc (str "val3"))

/-- The schema inferred for a struct with the field `sampleEnumField` alone. -/
def sampleEnumSchema : Schema :=
  .mk { type := .object, Required := ["test2"] } none
    [("test2", .leaf {
        type := .string
        Example := some (str "val3")
        Enum := [stringValue "val3", stringValue "val4"]
        Description := "test2 field" })]

/-- The field `TestString` of `TestDocHeader` with its value. -/
def sampleDescField : StructField × Slot Value :=
  ({ Name := "TestString", json := "str",
     doc := "required desc(" ++ "test()" ++ ") pattern(" ++ "^[A-Z](.*)" ++ ")" },
   .conc (str "test"))

/-- The schema inferred for a struct with the field `sampleDescField` alone. -/
def sampleDescSchema : Schema :=
  .mk { type := .object, Required := ["str"] } none
    [("str", .leaf {
        type := .string
        Example := some (str "test")
        Description := "test()"
        Pattern := "^[A-Z](.*)" })]

/-- A field `OuterStr string` annotated `required enum(val3;val4)`. -/
def sampleLiteralEnumField : StructField × Slot Value :=
  ({ Name := "OuterStr", json := "outerstr", doc := "required enum(val3;val4)" },
    .conc (str "val3"))

/-- The schema inferred for a struct with the field `sampleLiteralEnumField` alone. -/
def sampleLiteralEnumSchema : Schema :=
  .mk { type := .object, Required := ["outerstr"] } none
    [("outerstr", .leaf {
        type := .string
        Example := some (str "val3")
        Enum := [stringValue "val3", stringValue "val4"] })]

/-- An unexported field `outerStr string` with a json name, annotated `enum(val3;val4)`. -/
def sampleUnexportedEnumField : StructField × Slot Value :=
  ({ Name := "outerStr", PkgPath := "ginx", json := "outerstr", doc := "enum(val3;val4)" },
    .conc (str "val3"))

/-- An embedded struct `JSONEmbed` without fields, with a json name and annotated
`enum(val3;val4)`. -/
def sampleEmbeddedEnumField : StructField × Slot Value :=
  ({ Name := "JSONEmbed", Anonymous := true, json := "embed", doc := "enum(val3;val4)" },
    .conc (.struct "ginx.JSONEmbed" []))

/-! ## Registrations in sequence -/

/-- The table `Refs` after a sequence of calls of `DocDefineRef`, each of which returns or
panics. -/
def registerAll (Refs : List (String × Option Value))
    (calls : List (String × Option Value)) : List (String × Option Value) :=
  calls.foldl (fun table call => (DocDefineRef table call.1 call.2).1) Refs

/-! ## Wire names in the words of the specification -/

/-- The name part of a naming tag: the text before the first comma. -/
def namePart (tag : String) : String :=
  String.mk (tag.data.takeWhile fun c => c ≠ ',')

/-- A name part that names the field: not empty and not `-`. -/
def usableName (name : String) : Bool :=
  decide (name ≠ "" ∧ name ≠ "-")

/-- The wire name in the words of the specification: the name part of the json tag when it
is usable, otherwise the name part of the form tag when that is usable, otherwise none. -/
def specWireName (f : StructField) : Option String :=
  if usableName (namePart f.json) then some (namePart f.json)
  else if usableName (namePart f.form) then some (namePart f.form)
  else none

/-! ## The split of an enum argument in the words of the specification -/

/-- A split at every `;` into strings, in order. -/
def specEnumSplit (a : String) : List String :=
  (a.data.splitOn ';').map String.mk

/-! ## Numbers in the words of the specification -/

/-- One or more decimal digits. -/
def isDigits (cs : List Char) : Bool :=
  decide (cs ≠ []) && cs.all fun c => decide ('0' ≤ c ∧ c ≤ '9')

/-- A base-10 integer: an optional sign followed by one or more decimal digits. -/
def IsBase10Integer (s : String) : Bool :=
  match s.data with
  | '+' :: ds => isDigits ds
  | '-' :: ds => isDigits ds
  | ds => isDigits ds

/-- The character of a decimal digit. -/
def digitChar (d : Nat) : Char :=
  Char.ofNat ('0'.toNat + d)

/-- The decimal numeral with the given digits, the most significant first. -/
def decimalNumeral (ds : List Nat) : String :=
  String.mk (ds.map digitChar)

/-- A decimal number: an optional sign, digits with at most one point among them, and an
optional exponent `e` or `E` with an optional sign and digits. -/
def IsDecimalNumber (s : String) : Bool :=
  let unsigned := match s.data with
    | '+' :: cs => cs
    | '-' :: cs => cs
    | cs => cs
  let mantissa := unsigned.takeWhile fun c => c ≠ 'e' ∧ c ≠ 'E'
  let exponent := unsigned.dropWhile fun c => c ≠ 'e' ∧ c ≠ 'E'
  let intPart := mantissa.takeWhile fun c => c ≠ '.'
  let fracPart := (mantissa.dropWhile fun c => c ≠ '.').drop 1
  let mantissaOk := (intPart ++ fracPart).all (fun c => decide ('0' ≤ c ∧ c ≤ '9'))
    && decide (intPart ++ fracPart ≠ [])
  let exponentOk := match exponent with
    | [] => true
    | _ :: '+' :: ds => isDigits ds
    | _ :: '-' :: ds => isDigits ds
    | _ :: ds => isDigits ds
  mantissaOk && exponentOk

/-- A hexadecimal number after its prefix `0x`: hexadecimal digits with at most one point
among them, and an optional exponent `p` or `P` with an optional sign and digits. -/
def isHexBody (cs : List Char) : Bool :=
  let mantissa := cs.takeWhile fun c => c ≠ 'p' ∧ c ≠ 'P'
  let exponent := cs.dropWhile fun c => c ≠ 'p' ∧ c ≠ 'P'
  let intPart := mantissa.takeWhile fun c => c ≠ '.'
  let fracPart := (mantissa.dropWhile fun c => c ≠ '.').drop 1
  let mantissaOk := (intPart ++ fracPart).all (fun c =>
      decide (('0' ≤ c ∧ c ≤ '9') ∨ ('a' ≤ c.toLower ∧ c.toLower ≤ 'f')))
    && decide (intPart ++ fracPart ≠ [])
  let exponentOk := match exponent with
    | [] => true
    | _ :: '+' :: ds => isDigits ds
    | _ :: '-' :: ds => isDigits ds
    | _ :: ds => isDigits ds
  mantissaOk && exponentOk

/-- The shape of every text that `strconv.ParseFloat` accepts, underscores set aside: an
optional sign followed by a decimal number, by a hexadecimal number with the prefix `0x`
or `0X`, or by `inf`, `infinity` or `nan` in any letter case. -/
def IsFloatLiteral (s : String) : Bool :=
  let cs := s.data.filter fun c => c ≠ '_'
  let unsigned := match cs with
    | '+' :: r => r
    | '-' :: r => r
    | r => r
  let hex := match unsigned with
    | '0' :: 'x' :: r => isHexBody r
    | '0' :: 'X' :: r => isHexBody r
    | _ => false
  let special := ["inf".data, "infinity".data, "nan".data].contains (unsigned.map Char.toLower)
  IsDecimalNumber (String.mk cs) || hex || special

/-- What is assumed of `strconv.ParseFloat`, which is not modelled: it returns an error for
every text that has not the shape of a float literal. -/
def Env.RejectsNonFloats (env : Env) : Prop :=
  ∀ s, IsFloatLiteral s = false → env.ParseFloat s = none

/-- An environment whose `ParseFloat` accepts `NaN`, as `strconv.ParseFloat` does (it
recognises `NaN`, `Inf` and `Infinity` besides decimal and hexadecimal numbers), and
rejects every other text. -/
def nanEnv : Env :=
  { Refs := []
    ParseFloat := fun s => if s = "NaN" then some { bits := 0x7FF8000000000001 } else none }

/-! ## Kinds after one dereference -/

/-- The kind of a prototype after at most one pointer dereference. -/
def Value.derefKind (x : Value) : Kind :=
  if x.TypeOf.Kind = .Ptr then x.ElemType.Kind else x.TypeOf.Kind

/-- The value of a prototype after at most one pointer dereference; `none` for a nil
pointer. -/
def Value.deref (x : Value) : Option Value :=
  if x.TypeOf.Kind = .Ptr then x.Elem else some x

/-- The kinds that the specification lists as recognized. -/
def recognizedKinds : List Kind :=
  [.String, .Int, .Int8, .Int16, .Int32, .Int64, .Float32, .Float64, .Bool, .Map, .Slice,
    .Struct]

/-- The schema kind of a primitive kind: string, integer, number or boolean. -/
def primitiveSchemaType : Kind → Option SchemaType
  | .String => some .string
  | .Int => some .integer
  | .Int8 => some .integer
  | .Int16 => some .integer
  | .Int32 => some .integer
  | .Int64 => some .integer
  | .Float32 => some .number
  | .Float64 => some .number
  | .Bool => some .boolean
  | _ => none

/-! ## Required names and declared properties -/

mutual
/-- Every name of the required list of the node is a key of its properties, and the same
holds for the nodes under `Items` and `Properties`. -/
def Schema.RequiredDeclared : Schema → Prop
  | .mk attrs Items Properties =>
    (∀ n ∈ attrs.Required, (mapGet Properties n).isSome = true) ∧
      requiredDeclaredItems Items ∧ requiredDeclaredProps Properties
/-- The node under `Items`, if any, has its required names declared. -/
def requiredDeclaredItems : Option Schema → Prop
  | none => True
  | some s => s.RequiredDeclared
/-- The nodes under `Properties` have their required names declared. -/
def requiredDeclaredProps : List (String × Schema) → Prop
  | [] => True
  | (_, s) :: rest => s.RequiredDeclared ∧ requiredDeclaredProps rest
end

/-! ## Route groups (`route.go`) -/

/-- A `gin.HandlerFunc`, known by an identifier only. -/
structure HandlerFunc where
  id : Nat
  deriving DecidableEq, Repr

/-- The struct `route`. -/
structure route where
  httpPath : String
  httpMethod : String
  handlers : List HandlerFunc := []
  deriving DecidableEq, Repr

/-- The struct `RouteGroup`; `routes` holds the pointers `*route` as addresses in the store
of routes. -/
structure RouteGroup where
  basePath : String
  routes : List Nat := []
  deriving DecidableEq, Repr

/-- The library functions used by `resolvePath`, which are not modelled: `fmt.Sprintf` and
`path.Join` of two elements. -/
structure PathLib where
  Sprintf : String → List (Option Value) → String
  Join : String → String → String

/-- The constants `http.MethodGet` and so on of `net/http`. -/
def MethodGet : String := "GET"
/-- The constant `http.MethodPost`. -/
def MethodPost : String := "POST"
/-- The constant `http.MethodPut`. -/
def MethodPut : String := "PUT"
/-- The constant `http.MethodPatch`. -/
def MethodPatch : String := "PATCH"
/-- The constant `http.MethodDelete`. -/
def MethodDelete : String := "DELETE"
/-- The constant `http.MethodOptions`. -/
def MethodOptions : String := "OPTIONS"
/-- The constant `http.MethodTrace`. -/
def MethodTrace : String := "TRACE"

/-- The function `NewRouteGroup`. -/
def NewRouteGroup (basePath : String) : RouteGroup :=
  { basePath := basePath }

/-- The method `route.To`: sets the handlers of the route at address `r`. -/
def route.To (store : List route) (r : Nat) (handlerFunc : List HandlerFunc) : List route :=
  store.modify (fun x => { x with handlers := handlerFunc }) r

/-- The method `RouteGroup.add`: allocates a route, appends its address to `rg.routes` and
returns it. -/
def RouteGroup.add (store : List route) (rg : RouteGroup) (httpPath method : String) :
    List route × RouteGroup × Nat :=
  let r := store.length
  (store ++ [{ httpPath := httpPath, httpMethod := method }],
    { rg with routes := rg.routes ++ [r] }, r)

/-- The method `RouteGroup.getRoutes`. -/
def RouteGroup.getRoutes (rg : RouteGroup) : List Nat :=
  rg.routes

/-- The method `RouteGroup.resolvePath`. -/
def RouteGroup.resolvePath (lib : PathLib) (rg : RouteGroup) (relativePath : String)
    (pathParams : List (Option Value)) : String :=
  let rp := lib.Sprintf relativePath pathParams
  lib.Join rg.basePath rp

/-- The method `RouteGroup.Patch`. -/
def RouteGroup.Patch (lib : PathLib) (store : List route) (rg : RouteGroup) (path : String)
    (pathParams : List (Option Value)) : List route × RouteGroup × Nat :=
  let p := rg.resolvePath lib path pathParams
  rg.add store p MethodPatch

/-- The method `RouteGroup.PatchAbsolutePath`. -/
def RouteGroup.PatchAbsolutePath (store : List route) (rg : RouteGroup) (path : String) :
    List route × RouteGroup × Nat :=
  rg.add store path MethodPatch

/-- The method `RouteGroup.Delete`. -/
def RouteGroup.Delete (lib : PathLib) (store : List route) (rg : RouteGroup) (path : String)
    (pathParams : List (Option Value)) : List route × RouteGroup × Nat :=
  let p := rg.resolvePath lib path pathParams
  rg.add store p MethodDelete

/-- The method `RouteGroup.DeleteAbsolutePath`. -/
def RouteGroup.DeleteAbsolutePath (store : List route) (rg : RouteGroup) (path : String) :
    List route × RouteGroup × Nat :=
  rg.add store path MethodDelete

/-- The method `RouteGroup.Put`. -/
def RouteGroup.Put (lib : PathLib) (store : List route) (rg : RouteGroup) (path : String)
    (pathParams : List (Option Value)) : List route × RouteGroup × Nat :=
  let p := rg.resolvePath lib path pathParams
  rg.add store p MethodPut

/-- The method `RouteGroup.PutAbsolutePath`. -/
def RouteGroup.PutAbsolutePath (store : List route) (rg : RouteGroup) (path : String) :
    List route × RouteGroup × Nat :=
  rg.add store path MethodPut

/-- The method `RouteGroup.Post`. -/
def RouteGroup.Post (lib : PathLib) (store : List route) (rg : RouteGroup) (path : String)
    (pathParams : List (Option Value)) : List route × RouteGroup × Nat :=
  let p := rg.resolvePath lib path pathParams
  rg.add store p MethodPost

/-- The method `RouteGroup.PostAbsolutePath`. -/
def RouteGroup.PostAbsolutePath (store : List route) (rg : RouteGroup) (path : String) :
    List route × RouteGroup × Nat :=
  rg.add store path MethodPost

/-- The method `RouteGroup.Get`. -/
def RouteGroup.Get (lib : PathLib) (store : List route) (rg : RouteGroup) (path : String)
    (pathParams : List (Option Value)) : List route × RouteGroup × Nat :=
  let p := rg.resolvePath lib path pathParams
  rg.add store p MethodGet

/-- The method `RouteGroup.GetAbsolutePath`. -/
def RouteGroup.GetAbsolutePath (store : List route) (rg : RouteGroup) (path : String) :
    List route × RouteGroup × Nat :=
  rg.add store path MethodGet

/-- The method `RouteGroup.Options`. -/
def RouteGroup.Options (lib : PathLib) (store : List route) (rg : RouteGroup) (path : String)
    (pathParams : List (Option Value)) : List route × RouteGroup × Nat :=
  let p := rg.resolvePath lib path pathParams
  rg.add store p MethodOptions

/-- The method `RouteGroup.OptionsAbsolutePath`. -/
def RouteGroup.OptionsAbsolutePath (store : List route) (rg : RouteGroup) (path : String) :
    List route × RouteGroup × Nat :=
  rg.add store path MethodOptions

/-- The method `RouteGroup.Trace`. -/
def RouteGroup.Trace (lib : PathLib) (store : List route) (rg : RouteGroup) (path : String)
    (pathParams : List (Option Value)) : List route × RouteGroup × Nat :=
  let p := rg.resolvePath lib path pathParams
  rg.add store p MethodTrace

/-- The method `RouteGroup.TraceAbsolutePath`. -/
def RouteGroup.TraceAbsolutePath (store : List route) (rg : RouteGroup) (path : String) :
    List route × RouteGroup × Nat :=
  rg.add store path MethodTrace

/-- The relative registration operations with the HTTP method that each names. -/
def relativeOperations :
    List ((PathLib → List route → RouteGroup → String → List (Option Value) →
      List route × RouteGroup × Nat) × String) :=
  [(RouteGroup.Get, "GET"), (RouteGroup.Post, "POST"), (RouteGroup.Put, "PUT"),
   (RouteGroup.Patch, "PATCH"), (RouteGroup.Delete, "DELETE"),
   (RouteGroup.Options, "OPTIONS"), (RouteGroup.Trace, "TRACE")]

/-- The registration operations with an absolute path, with the HTTP method that each
names. -/
def absoluteOperations :
    List ((List route → RouteGroup → String → List route × RouteGroup × Nat) × String) :=
  [(RouteGroup.GetAbsolutePath, "GET"), (RouteGroup.PostAbsolutePath, "POST"),
   (RouteGroup.PutAbsolutePath, "PUT"), (RouteGroup.PatchAbsolutePath, "PATCH"),
   (RouteGroup.DeleteAbsolutePath, "DELETE"), (RouteGroup.OptionsAbsolutePath, "OPTIONS"),
   (RouteGroup.TraceAbsolutePath, "TRACE")]

/-- A library for the samples: a format without verbs is returned as it is, and two clean
path elements are joined with a slash, as `fmt.Sprintf` and `path.Join` do. -/
def samplePathLib : PathLib :=
  { Sprintf := fun format _ => format
    Join := fun a b => a ++ "/" ++ b }

/-! ## Sample inputs: numeric directives -/

/-- A field `Tags []string` annotated `required minItems(1x)`. -/
def sampleBadField : StructField × Slot Value :=
  ({ Name := "Tags", json := "tags", doc := "required minItems(1x)" },
    .conc (.slice "[]string" [some (str "a")]))

/-- A field `Str string` annotated `minLength(12)`. -/
def sampleNumericField : StructField × Slot Value :=
  ({ Name := "Str", json := "str", doc := "minLength(12)" }, .conc (str "test"))

/-- The schema of the struct whose only field is `sampleNumericField`. -/
def sampleNumericSchema : Schema :=
  .mk { type := .object } none
    [("str", .leaf { type := .string, Example := some (str "test"), MinLength := 12 })]

/-! ## Sample inputs: the required list -/

/-- A field `Str string` annotated `required required desc(x)`. -/
def sampleTwiceField : StructField × Slot Value :=
  ({ Name := "Str", json := "str", doc := "required required desc(x)" }, .conc (str "test"))

/-- The schema of the struct whose only field is `sampleTwiceField`. -/
def sampleTwiceSchema : Schema :=
  .mk { type := .object, Required := ["str", "str"] } none
    [("str", .leaf { type := .string, Example := some (str "test"), Description := "x" })]

/-! ## Sample inputs: negative bounds and nil values -/

/-- A field `Tags []string` annotated `desc(tags) minItems(-1)`. -/
def sampleNegativeField : StructField × Slot Value :=
  ({ Name := "Tags", json := "tags", doc := "desc(tags) minItems(-1)" },
    .conc (.slice "[]string" [some (str "a")]))

/-- The schema inferred for the value of `sampleNegativeField`. -/
def sampleNegativeChild : Schema :=
  .mk { type := .array } (some (.leaf { type := .string, Example := some (str "a") })) []

/-- A field `Any interface{}` that holds nil, with a malformed annotation. -/
def sampleNilField : StructField × Slot Value :=
  ({ Name := "Any", json := "any", doc := "required desc(" }, .iface none)

/-- An unexported field `any interface{}` that holds nil, with a json name and the
annotation `required`. -/
def sampleUnexportedField : StructField × Slot Value :=
  ({ Name := "any", PkgPath := "main", json := "any", doc := "required" }, .iface none)

/-- An environment whose `ParseFloat` knows the two numbers of `example_test.go`, with the
bits of `5` and `100` as `float64`, and rejects every other text. -/
def sampleFloatEnv : Env :=
  { Refs := []
    ParseFloat := fun s =>
      if s = "5" then some { bits := 0x4014000000000000 }
      else if s = "100" then some { bits := 0x4059000000000000 }
      else none }

/-- The field `Array` of `JSONEmbed` with its value. -/
def sampleArrayField : StructField × Slot Value :=
  ({ Name := "Array", json := "arr", doc := "desc(array) minItems(1) maxItems(5)" },
    .conc (.slice "[]string" [some (str "val1")]))

/-- The field `Integer` of `JSONRequest` with its value. -/
def sampleIntegerField : StructField × Slot Value :=
  ({ Name := "Integer", json := "integer",
     doc := "required desc(integer test) minimum(5) maximum(100)" },
    .conc (.scalar "int" (.int .Int 10)))

/-- An unexported field `tags []string` with a json name, annotated `minItems(-1)`. -/
def sampleUnexportedNegativeField : StructField × Slot Value :=
  ({ Name := "tags", PkgPath := "ginx", json := "tags", doc := "minItems(-1)" },
    .conc (.slice "[]string" [some (str "a")]))

/-- An embedded struct `JSONEmbed` without fields, with a json name and annotated
`minItems(-1)`. -/
def sampleEmbeddedNegativeField : StructField × Slot Value :=
  ({ Name := "JSONEmbed", Anonymous := true, json := "embed", doc := "minItems(-1)" },
    .conc (.struct "ginx.JSONEmbed" []))

/-- The schema inferred for a struct with the field `sampleArrayField` alone. -/
def sampleArraySchema : Schema :=
  .mk { type := .object } none
    [("arr", .mk { type := .array, Description := "array", MinItems := 1, MaxItems := some 5 }
      (some (.leaf { type := .string, Example := some (str "val1") })) [])]

/-- The schema inferred with `sampleFloatEnv` for a struct with the field
`sampleIntegerField` alone. -/
def sampleIntegerSchema : Schema :=
  .mk { type := .object, Required := ["integer"] } none
    [("integer", .leaf {
        type := .integer
        Example := some (.scalar "int" (.int .Int 10))
        Description := "integer test"
        Min := some { bits := 0x4014000000000000 }
        Max := some { bits := 0x4059000000000000 } })]

/-- A field `Number float64` annotated `maximum(abc)`. -/
def sampleBadFloatField : StructField × Slot Value :=
  ({ Name := "Number", json := "number", doc := "maximum(abc)" },
    .conc (.scalar "float64" (.float .Float64 { bits := 0 })))

/-! ## Theorems: the tag parser -/

theorem step_key_plain (ret : List (String × String)) (d : Nat) (kl vl : List Char) (c : Char)
    (h1 : c ≠ ' ') (h2 : c ≠ '(') :
    parseDocTagStep ⟨ret, .stateFieldKey, d, ⟨kl⟩, ⟨vl⟩⟩ c
      = ⟨ret, .stateFieldKey, d, ⟨kl ++ [c]⟩, ⟨vl⟩⟩ := by
  simp [parseDocTagStep, h1, h2, String.push]

theorem loop_key (cs : List Char) (h1 : ' ' ∉ cs) (h2 : '(' ∉ cs) :
    ∀ (ret : List (String × String)) (d : Nat) (kl vl : List Char),
      cs.foldl parseDocTagStep ⟨ret, .stateFieldKey, d, ⟨kl⟩, ⟨vl⟩⟩
        = ⟨ret, .stateFieldKey, d, ⟨kl ++ cs⟩, ⟨vl⟩⟩ := by
  induction cs with
  | nil => intro ret d kl vl; simp
  | cons c cs ih =>
    intro ret d kl vl
    simp only [List.mem_cons, not_or] at h1 h2
    rw [List.foldl_cons, step_key_plain ret d kl vl c (Ne.symm h1.1) (Ne.symm h2.1),
      ih h1.2 h2.2]
    simp

theorem loop_key_start (k : String) (hk : ValidKey k) (ret : List (String × String)) (d : Nat)
    (key : String) (vl : List Char) :
    k.data.foldl parseDocTagStep ⟨ret, .stateNextField, d, key, ⟨vl⟩⟩
      = ⟨ret, .stateFieldKey, 0, k, ⟨vl⟩⟩ := by
  obtain ⟨hne, h1, h2⟩ := hk
  obtain ⟨kl⟩ := k
  cases kl with
  | nil => exact absurd rfl hne
  | cons c cs =>
    simp only [List.mem_cons, not_or] at h1 h2
    have hs : parseDocTagStep ⟨ret, .stateNextField, d, key, ⟨vl⟩⟩ c
        = ⟨ret, .stateFieldKey, 0, ⟨[c]⟩, ⟨vl⟩⟩ := by
      simp [parseDocTagStep, Ne.symm h1.1, String.singleton, String.push]
    rw [List.foldl_cons, hs, loop_key cs h1.2 h2.2]
    simp

theorem endsWithBackslash_mk (l : List Char) :
    endsWithBackslash ⟨l⟩ = true ↔ l.getLast? = some '\\' := by
  simp [endsWithBackslash]

theorem getLast?_ne_of_not_mem (l : List Char) (c : Char) (h : c ∉ l) :
    l.getLast? ≠ some c := by
  intro hl
  exact h (List.mem_of_getLast?_eq_some hl)

/-- In a value, characters other than parentheses are appended. -/
theorem step_val_plain (ret : List (String × String)) (d : Nat) (kl vl : List Char) (c : Char)
    (h1 : c ≠ '(') (h2 : c ≠ ')') :
    parseDocTagStep ⟨ret, .stateFieldVal, d, ⟨kl⟩, ⟨vl⟩⟩ c
      = ⟨ret, .stateFieldVal, d, ⟨kl⟩, ⟨vl ++ [c]⟩⟩ := by
  simp [parseDocTagStep, h1, h2, String.push]

theorem loop_val_plain (cs : List Char) (h1 : '(' ∉ cs) (h2 : ')' ∉ cs) :
    ∀ (ret : List (String × String)) (d : Nat) (kl vl : List Char),
      cs.foldl parseDocTagStep ⟨ret, .stateFieldVal, d, ⟨kl⟩, ⟨vl⟩⟩
        = ⟨ret, .stateFieldVal, d, ⟨kl⟩, ⟨vl ++ cs⟩⟩ := by
  induction cs with
  | nil => intro ret d kl vl; simp
  | cons c cs ih =>
    intro ret d kl vl
    simp only [List.mem_cons, not_or] at h1 h2
    rw [List.foldl_cons, step_val_plain ret d kl vl c (Ne.symm h1.1) (Ne.symm h2.1),
      ih h1.2 h2.2]
    simp

theorem step_val_open (ret : List (String × String)) (d : Nat) (kl vl : List Char)
    (h : vl.getLast? ≠ some '\\') :
    parseDocTagStep ⟨ret, .stateFieldVal, d, ⟨kl⟩, ⟨vl⟩⟩ '('
      = ⟨ret, .stateFieldVal, d + 1, ⟨kl⟩, ⟨vl ++ ['(']⟩⟩ := by
  have h' : endsWithBackslash ⟨vl⟩ = false := by
    rw [← Bool.not_eq_true, endsWithBackslash_mk]; exact h
  simp [parseDocTagStep, h', String.push]

theorem step_val_close (ret : List (String × String)) (d : Nat) (kl vl : List Char)
    (h : vl.getLast? ≠ some '\\') :
    parseDocTagStep ⟨ret, .stateFieldVal, d + 1, ⟨kl⟩, ⟨vl⟩⟩ ')'
      = ⟨ret, .stateFieldVal, d, ⟨kl⟩, ⟨vl ++ [')']⟩⟩ := by
  have h' : endsWithBackslash ⟨vl⟩ = false := by
    rw [← Bool.not_eq_true, endsWithBackslash_mk]; exact h
  simp [parseDocTagStep, h', String.push]

theorem step_val_end (ret : List (String × String)) (kl vl : List Char)
    (h : vl.getLast? ≠ some '\\') :
    parseDocTagStep ⟨ret, .stateFieldVal, 0, ⟨kl⟩, ⟨vl⟩⟩ ')'
      = nextField (ret ++ [(⟨kl⟩, ⟨vl⟩)]) := by
  have h' : endsWithBackslash ⟨vl⟩ = false := by
    rw [← Bool.not_eq_true, endsWithBackslash_mk]; exact h
  simp [parseDocTagStep, h', nextField]

theorem step_val_escape (ret : List (String × String)) (d : Nat) (kl vl : List Char) (c : Char)
    (hc : c = '(' ∨ c = ')') :
    parseDocTagStep ⟨ret, .stateFieldVal, d, ⟨kl⟩, ⟨vl ++ ['\\']⟩⟩ c
      = ⟨ret, .stateFieldVal, d, ⟨kl⟩, ⟨vl ++ [c]⟩⟩ := by
  have h' : endsWithBackslash ⟨vl ++ ['\\']⟩ = true := by
    rw [endsWithBackslash_mk]; simp
  rcases hc with rfl | rfl <;>
    simp [parseDocTagStep, h', String.push, dropLastByte]

/-- In a value without backslash the parentheses are counted: the text is appended, and
the depth grows by the opening and shrinks by the closing parentheses. -/
theorem loop_val_balanced (v : List Char) (hb : '\\' ∉ v) :
    ∀ (ret : List (String × String)) (d : Nat) (kl vl : List Char),
      vl.getLast? ≠ some '\\' →
      (∀ n ≤ v.length, (v.take n).count ')' ≤ d + (v.take n).count '(') →
      ∃ d', d' + v.count ')' = d + v.count '(' ∧
        v.foldl parseDocTagStep ⟨ret, .stateFieldVal, d, ⟨kl⟩, ⟨vl⟩⟩
          = ⟨ret, .stateFieldVal, d', ⟨kl⟩, ⟨vl ++ v⟩⟩ := by
  induction v with
  | nil => intro ret d kl vl _ _; exact ⟨d, by simp, by simp⟩
  | cons c v ih =>
    intro ret d kl vl hvl hpre
    simp only [List.mem_cons, not_or] at hb
    have hlast : (vl ++ [c]).getLast? ≠ some '\\' := by
      simp only [List.getLast?_concat]
      intro h; exact hb.1 (Option.some.inj h).symm
    have hpre' : ∀ (e : Nat), (∀ n ≤ v.length, (if c = ')' then 1 else 0) + (v.take n).count ')'
        ≤ d + ((if c = '(' then 1 else 0) + (v.take n).count '(')) := by
      intro _ n hn
      have := hpre (n + 1) (by simp; omega)
      simp only [List.take_succ_cons, List.count_cons, beq_iff_eq] at this
      omega
    by_cases h1 : c = '('
    · subst h1
      obtain ⟨d', hd', hrun⟩ := ih hb.2 ret (d + 1) kl (vl ++ ['(']) hlast (by
        intro n hn; have := hpre' 0 n hn; simp at this; omega)
      refine ⟨d', ?_, ?_⟩
      · simp [List.count_cons] at hd' ⊢; omega
      · rw [List.foldl_cons, step_val_open ret d kl vl hvl, hrun]; simp
    · by_cases h2 : c = ')'
      · subst h2
        have hd : 1 ≤ d := by
          have := hpre 1 (by simp)
          simp at this; omega
        obtain ⟨e, rfl⟩ : ∃ e, d = e + 1 := ⟨d - 1, by omega⟩
        obtain ⟨d', hd', hrun⟩ := ih hb.2 ret e kl (vl ++ [')']) hlast (by
          intro n hn; have := hpre' 0 n hn; simp at this; omega)
        refine ⟨d', ?_, ?_⟩
        · simp [List.count_cons] at hd' ⊢; omega
        · rw [List.foldl_cons, step_val_close ret e kl vl hvl, hrun]; simp
      · obtain ⟨d', hd', hrun⟩ := ih hb.2 ret d kl (vl ++ [c]) hlast (by
          intro n hn; have := hpre' 0 n hn; simp [h1, h2] at this; omega)
        refine ⟨d', ?_, ?_⟩
        · simp [List.count_cons, h1, h2] at hd' ⊢
          omega
        · rw [List.foldl_cons, step_val_plain ret d kl vl c h1 h2, hrun]; simp

theorem foldl_step_key_open (k : String) (hk : ValidKey k) (ret : List (String × String))
    (d : Nat) (key : String) (vl : List Char) :
    (k.data ++ ['(']).foldl parseDocTagStep ⟨ret, .stateNextField, d, key, ⟨vl⟩⟩
      = ⟨ret, .stateFieldVal, 0, k, ⟨vl⟩⟩ := by
  rw [List.foldl_append, loop_key_start k hk]
  simp [parseDocTagStep]

/-- A directive `key(value)` read from state `stateNextField` is emitted. -/
theorem foldl_step_paren (k v : String) (hk : ValidKey k) (hv : ValidValue v)
    (ret : List (String × String)) :
    (k ++ "(" ++ v ++ ")").data.foldl parseDocTagStep (nextField ret)
      = nextField (ret ++ [(k, v)]) := by
  have hdata : (k ++ "(" ++ v ++ ")").data = (k.data ++ ['(']) ++ v.data ++ [')'] := by
    simp [String.data_append]
  rw [hdata, List.foldl_append, List.foldl_append]
  have h1 := foldl_step_key_open k hk ret 0 "" []
  rw [show nextField ret = ⟨ret, .stateNextField, 0, "", ⟨[]⟩⟩ from rfl, h1]
  obtain ⟨d', hd', hrun⟩ := loop_val_balanced v.data hv.2 ret 0 k.data [] (by simp)
    (by intro n hn; have := hv.1.1 n hn; omega)
  have hd0 : d' = 0 := by have := hv.1.2; omega
  subst hd0
  rw [show (⟨ret, .stateFieldVal, 0, k, ⟨[]⟩⟩ : TagVars)
    = ⟨ret, .stateFieldVal, 0, ⟨k.data⟩, ⟨[]⟩⟩ from rfl, hrun]
  simp only [List.nil_append, List.foldl_cons, List.foldl_nil]
  rw [step_val_end ret k.data v.data (getLast?_ne_of_not_mem _ _ hv.2)]

/-- A bare key followed by a space is emitted with the empty value. -/
theorem foldl_step_bare (k : String) (hk : ValidKey k) (ret : List (String × String)) :
    (k ++ " ").data.foldl parseDocTagStep (nextField ret) = nextField (ret ++ [(k, "")]) := by
  have hdata : (k ++ " ").data = k.data ++ [' '] := by simp [String.data_append]
  rw [hdata, List.foldl_append]
  have h1 := loop_key_start k hk ret 0 "" []
  rw [show nextField ret = ⟨ret, .stateNextField, 0, "", ⟨[]⟩⟩ from rfl, h1]
  simp [parseDocTagStep, nextField]

theorem step_nextField_space (ret : List (String × String)) :
    parseDocTagStep (nextField ret) ' ' = nextField ret := by
  simp [parseDocTagStep, nextField]

/-- A written directive followed by a space is emitted. -/
theorem foldl_step_directive (b : Bool) (k v : String) (hk : ValidKey k) (hv : ValidValue v)
    (hb : b = true → v = "") (ret : List (String × String)) :
    (renderDirective b (k, v) ++ " ").data.foldl parseDocTagStep (nextField ret)
      = nextField (ret ++ [(k, v)]) := by
  cases b with
  | true =>
    rw [hb rfl]
    simpa [renderDirective] using foldl_step_bare k hk ret
  | false =>
    have hdata : (renderDirective false (k, v) ++ " ").data
        = (k ++ "(" ++ v ++ ")").data ++ [' '] := by
      simp [renderDirective, String.data_append]
    rw [hdata, List.foldl_append, foldl_step_paren k v hk hv ret]
    simp [step_nextField_space]

/-- A text of well-formed directives, each followed by a space, emits them in order. -/
theorem foldl_step_renderSpaced (ds : List (Bool × String × String)) (hwf : WellFormed ds) :
    ∀ ret, (renderSpaced ds).data.foldl parseDocTagStep (nextField ret)
      = nextField (ret ++ ds.map fun d => d.2) := by
  induction ds with
  | nil => intro ret; simp [renderSpaced]
  | cons d ds ih =>
    intro ret
    obtain ⟨b, k, v⟩ := d
    have hd := hwf (b, k, v) (List.mem_cons_self _ _)
    have hwf' : WellFormed ds := fun d hd => hwf d (List.mem_cons_of_mem _ hd)
    have hdata : (renderSpaced ((b, k, v) :: ds)).data
        = (renderDirective b (k, v) ++ " ").data ++ (renderSpaced ds).data := by
      simp [renderSpaced, String.data_append]
    rw [hdata, List.foldl_append, foldl_step_directive b k v hd.1 hd.2.1 hd.2.2 ret, ih hwf']
    simp

theorem parseDocTagLoop_append (s t : String) :
    parseDocTagLoop (s ++ t) = t.data.foldl parseDocTagStep (parseDocTagLoop s) := by
  simp [parseDocTagLoop, String.data_append, List.foldl_append]

theorem parseDocTagLoop_renderSpaced (ds : List (Bool × String × String))
    (hwf : WellFormed ds) :
    parseDocTagLoop (renderSpaced ds) = nextField (ds.map fun d => d.2) := by
  have := foldl_step_renderSpaced ds hwf []
  simpa [parseDocTagLoop, nextField, parseDocTagInit] using this

theorem renderTag_concat (ds : List (Bool × String × String)) (d : Bool × String × String) :
    renderTag (ds ++ [d]) = renderSpaced ds ++ renderDirective d.1 d.2 := by
  induction ds with
  | nil => simp [renderTag, renderSpaced, joinSpace]
  | cons e ds ih =>
    cases ds with
    | nil => simp [renderTag, renderSpaced, joinSpace]
    | cons f fs =>
      simp only [renderTag, List.map_cons, List.cons_append, joinSpace, renderSpaced,
        List.append_eq] at ih ⊢
      rw [ih]
      simp [String.append_assoc]

/-- The text of well-formed directives parses to the directives. -/
theorem parseDocTag_renderTag (ds : List (Bool × String × String)) (hne : ds ≠ [])
    (hwf : WellFormed ds) (hlast : LastNotBare ds) :
    parseDocTag (renderTag ds) = .ok (ds.map fun d => d.2) := by
  obtain ⟨init, d, rfl⟩ : ∃ init d, ds = init ++ [d] :=
    ⟨ds.dropLast, ds.getLast hne, (List.dropLast_append_getLast hne).symm⟩
  obtain ⟨b, k, v⟩ := d
  have hb : b = false := by
    cases b with
    | false => rfl
    | true => exact absurd (by simp) hlast
  subst hb
  have hd := hwf (false, k, v) (by simp)
  have hwf' : WellFormed init := fun e he => hwf e (by simp [he])
  have hloop : parseDocTagLoop (renderTag (init ++ [(false, k, v)]))
      = nextField (init.map (fun d => d.2) ++ [(k, v)]) := by
    rw [renderTag_concat, parseDocTagLoop_append, parseDocTagLoop_renderSpaced init hwf']
    simpa [renderDirective] using foldl_step_paren k v hd.1 hd.2.1 _
  simp [parseDocTag, hloop, nextField]

/-- C1. Round trip of `parseDocTag`: a non-empty list of directives with valid keys (non-empty,
no space, no `(`) and valid values (balanced parentheses, no backslash), each written as
`key(value)`, or as the bare key when its value is empty and it is not the last one, and
joined with single spaces, parses to exactly the list of `(key, value)` pairs, in order. -/
theorem parseDocTag_roundtrip (ds : List (Bool × String × String)) (hne : ds ≠ [])
    (hwf : WellFormed ds) (hlast : LastNotBare ds) :
    parseDocTag (renderTag ds) = .ok (ds.map fun d => d.2) :=
  parseDocTag_renderTag ds hne hwf hlast

theorem parseDocTag_roundtrip_witness :
    parseDocTag (renderTag [(true, "required", ""), (false, "desc", "test()"),
        (false, "pattern", "^[A-Z](.*)")])
      = .ok [("required", ""), ("desc", "test()"), ("pattern", "^[A-Z](.*)")] :=
  parseDocTag_roundtrip [(true, "required", ""), (false, "desc", "test()"),
    (false, "pattern", "^[A-Z](.*)")] (by decide) (by decide) (by decide)

/-- C2. End-of-input rule for a bare key: a key (non-empty, no space, no parenthesis) alone
parses to the single directive `(k, "")`; the same key after one or more well-formed
directives, each followed by a single space, makes `parseDocTag` panic. -/
theorem parseDocTag_bare_key_at_end :
    (∀ k : String, ValidKey k → ')' ∉ k.data → parseDocTag k = .ok [(k, "")]) ∧
    (∀ (ds : List (Bool × String × String)) (k : String), ds ≠ [] → WellFormed ds →
      ValidKey k → ')' ∉ k.data →
      parseDocTag (renderSpaced ds ++ k) = .error .invalidDocTag) := by
  constructor
  · intro k hk _
    have hloop : parseDocTagLoop k = ⟨[], .stateFieldKey, 0, k, ""⟩ := by
      have := loop_key_start k hk [] 0 "" []
      simpa [parseDocTagLoop, parseDocTagInit] using this
    simp [parseDocTag, hloop]
  · intro ds k hne hwf hk _
    have hloop : parseDocTagLoop (renderSpaced ds ++ k)
        = ⟨ds.map (fun d => d.2), .stateFieldKey, 0, k, ""⟩ := by
      rw [parseDocTagLoop_append, parseDocTagLoop_renderSpaced ds hwf]
      exact loop_key_start k hk _ 0 "" []
    simp [parseDocTag, hloop, hne]

theorem parseDocTag_bare_key_at_end_witness :
    parseDocTag "required" = .ok [("required", "")] ∧
    parseDocTag (renderSpaced [(false, "desc", "x")] ++ "required") = .error .invalidDocTag ∧
    parseDocTag (renderSpaced [(true, "a", "")] ++ "b") = .error .invalidDocTag :=
  ⟨parseDocTag_bare_key_at_end.1 "required" (by decide) (by decide),
   parseDocTag_bare_key_at_end.2 [(false, "desc", "x")] "required" (by decide) (by decide)
     (by decide) (by decide),
   parseDocTag_bare_key_at_end.2 [(true, "a", "")] "b" (by decide) (by decide)
     (by decide) (by decide)⟩

theorem loop_val_stays (cs : List Char) (h : ')' ∉ cs) :
    ∀ p : TagVars, p.state = .stateFieldVal →
      (cs.foldl parseDocTagStep p).state = .stateFieldVal := by
  induction cs with
  | nil => intro p hp; simpa using hp
  | cons c cs ih =>
    intro p hp
    simp only [List.mem_cons, not_or] at h
    rw [List.foldl_cons]
    apply ih h.2
    have hc : c ≠ ')' := Ne.symm h.1
    simp only [parseDocTagStep, hp]
    split_ifs <;> simp_all

/-- C3. An unterminated value is rejected: `parseDocTag` panics on every input after whose
last character the automaton is in state `stateFieldVal`; in particular on
`p ++ k ++ "(" ++ v` for a key `k`, a text `v` without `)`, and a prefix `p` that is empty
or consists of well-formed directives each followed by a space. -/
theorem parseDocTag_unterminated_value :
    (∀ s : String, (parseDocTagLoop s).state = .stateFieldVal →
      parseDocTag s = .error .invalidDocTag) ∧
    (∀ (ds : List (Bool × String × String)) (k v : String), WellFormed ds → ValidKey k →
      ')' ∉ v.data → parseDocTag (renderSpaced ds ++ k ++ "(" ++ v) = .error .invalidDocTag) := by
  have general : ∀ s : String, (parseDocTagLoop s).state = .stateFieldVal →
      parseDocTag s = .error .invalidDocTag := by
    intro s hs
    simp [parseDocTag, hs]
  refine ⟨general, ?_⟩
  intro ds k v hwf hk hv
  apply general
  have hdata : renderSpaced ds ++ k ++ "(" ++ v = renderSpaced ds ++ (k ++ "(" ++ v) := by
    simp [String.append_assoc]
  rw [hdata, parseDocTagLoop_append, parseDocTagLoop_renderSpaced ds hwf]
  have hkv : (k ++ "(" ++ v).data = (k.data ++ ['(']) ++ v.data := by
    simp [String.data_append]
  rw [hkv, List.foldl_append]
  apply loop_val_stays v.data hv
  rw [show nextField (ds.map fun d => d.2)
    = ⟨ds.map (fun d => d.2), .stateNextField, 0, "", ⟨[]⟩⟩ from rfl,
    foldl_step_key_open k hk]

theorem parseDocTag_unterminated_value_witness :
    parseDocTag "desc(a(b)" = .error .invalidDocTag ∧
    parseDocTag (renderSpaced [(true, "required", "")] ++ "desc" ++ "(" ++ "a(b")
      = .error .invalidDocTag :=
  ⟨parseDocTag_unterminated_value.1 "desc(a(b" (by decide),
   parseDocTag_unterminated_value.2 [(true, "required", "")] "desc" "a(b" (by decide)
     (by decide) (by decide)⟩

/-- C4. Escaped parentheses in a value: for a key `k` and texts `a`, `b` without
parenthesis and backslash, `k(a\(b)` parses to `[(k, a(b)]` and `k(a\)b)` to `[(k, a)b)]`:
the backslash is removed, the parenthesis is kept, and the depth is not changed. -/
theorem parseDocTag_escaped_parenthesis (k a b : String) (hk : ValidKey k)
    (ha : '(' ∉ a.data ∧ ')' ∉ a.data ∧ '\\' ∉ a.data)
    (hb : '(' ∉ b.data ∧ ')' ∉ b.data ∧ '\\' ∉ b.data) :
    parseDocTag (k ++ "(" ++ a ++ "\\(" ++ b ++ ")") = .ok [(k, a ++ "(" ++ b)] ∧
    parseDocTag (k ++ "(" ++ a ++ "\\)" ++ b ++ ")") = .ok [(k, a ++ ")" ++ b)] := by
  have key : ∀ c : Char, c = '(' ∨ c = ')' →
      ((k.data ++ ['(']) ++ a.data ++ ['\\'] ++ [c] ++ b.data ++ [')']).foldl
        parseDocTagStep parseDocTagInit = nextField [(k, ⟨a.data ++ [c] ++ b.data⟩)] := by
    intro c hc
    rw [List.foldl_append, List.foldl_append, List.foldl_append, List.foldl_append,
      List.foldl_append]
    rw [show parseDocTagInit = ⟨[], .stateNextField, 0, "", ⟨[]⟩⟩ from rfl,
      foldl_step_key_open k hk,
      show (⟨[], .stateFieldVal, 0, k, ⟨[]⟩⟩ : TagVars)
        = ⟨[], .stateFieldVal, 0, ⟨k.data⟩, ⟨[]⟩⟩ from rfl,
      loop_val_plain a.data ha.1 ha.2.1]
    simp only [List.foldl_cons, List.foldl_nil, List.nil_append]
    rw [step_val_plain _ _ _ _ '\\' (by decide) (by decide), step_val_escape _ _ _ _ c hc,
      loop_val_plain b.data hb.1 hb.2.1]
    have hlast : (a.data ++ [c] ++ b.data).getLast? ≠ some '\\' := by
      apply getLast?_ne_of_not_mem
      simp only [List.mem_append, List.mem_singleton, not_or]
      refine ⟨⟨ha.2.2, ?_⟩, hb.2.2⟩
      rcases hc with rfl | rfl <;> decide
    rw [step_val_end _ _ _ hlast]
    rfl
  constructor
  · have hdata : (k ++ "(" ++ a ++ "\\(" ++ b ++ ")").data
        = (k.data ++ ['(']) ++ a.data ++ ['\\'] ++ ['('] ++ b.data ++ [')'] := by
      simp [String.data_append]
    have hloop := key '(' (Or.inl rfl)
    rw [← hdata] at hloop
    have hval : (⟨a.data ++ ['('] ++ b.data⟩ : String) = a ++ "(" ++ b := by
      apply String.ext; simp [String.data_append]
    have hl : parseDocTagLoop (k ++ "(" ++ a ++ "\\(" ++ b ++ ")")
        = nextField [(k, a ++ "(" ++ b)] := by
      rw [← hval]; exact hloop
    unfold parseDocTag
    rw [hl]
    simp [nextField]
  · have hdata : (k ++ "(" ++ a ++ "\\)" ++ b ++ ")").data
        = (k.data ++ ['(']) ++ a.data ++ ['\\'] ++ [')'] ++ b.data ++ [')'] := by
      simp [String.data_append]
    have hloop := key ')' (Or.inr rfl)
    rw [← hdata] at hloop
    have hval : (⟨a.data ++ [')'] ++ b.data⟩ : String) = a ++ ")" ++ b := by
      apply String.ext; simp [String.data_append]
    have hl : parseDocTagLoop (k ++ "(" ++ a ++ "\\)" ++ b ++ ")")
        = nextField [(k, a ++ ")" ++ b)] := by
      rw [← hval]; exact hloop
    unfold parseDocTag
    rw [hl]
    simp [nextField]

theorem parseDocTag_escaped_parenthesis_witness :
    parseDocTag ("desc" ++ "(" ++ "f" ++ "\\(" ++ "x" ++ ")") = .ok [("desc", "f" ++ "(" ++ "x")] ∧
    parseDocTag ("desc" ++ "(" ++ "f" ++ "\\)" ++ "x" ++ ")") = .ok [("desc", "f" ++ ")" ++ "x")] :=
  parseDocTag_escaped_parenthesis "desc" "f" "x" (by decide) (by decide) (by decide)

/-! ## Theorems: the recursion of `extractSchema` -/

theorem extractOpenAPIType_size (x : Value) (kind : Kind) (vh : valHolder) (v : Value)
    (h : extractOpenAPIType x kind = some vh) (hv : vh.Value = some v) : v.size ≤ x.size := by
  have hx : vh.Value = some x ∨ vh.Value = x.Elem := by
    simp only [extractOpenAPIType] at h
    split_ifs at h <;> simp at h <;> subst h <;> simp
  rcases hx with hx | hx
  · rw [hx] at hv; cases hv; exact Nat.le_refl _
  · rw [hx] at hv
    cases x <;> simp [Value.Elem] at hv
    subst hv; simp [Value.size]

theorem sizeOpt_lt_of_mem_elems (elems : List (Option Value)) (e : Option Value)
    (h : e ∈ elems) : sizeOpt e < sizeElems elems + 1 := by
  induction elems with
  | nil => cases h
  | cons a rest ih =>
    rcases List.mem_cons.1 h with rfl | h
    · cases e <;> simp [sizeElems, sizeOpt]; omega
    · have := ih h
      cases a <;> simp [sizeElems] <;> omega

theorem sizeOpt_lt_of_mem_fields (fields : List (StructField × Slot Value))
    (fv : StructField × Slot Value) (h : fv ∈ fields) (q : Option Value)
    (hq : fv.2.Interface fv.1 = .ok q) : sizeOpt q < sizeFields fields + 1 := by
  induction fields with
  | nil => cases h
  | cons a rest ih =>
    rcases List.mem_cons.1 h with rfl | h
    · obtain ⟨f, s⟩ := fv
      cases s with
      | conc v =>
        simp only [Slot.Interface] at hq
        split_ifs at hq
        cases hq
        simp [sizeFields, sizeOpt]; omega
      | iface dyn =>
        simp only [Slot.Interface] at hq
        split_ifs at hq
        cases hq
        cases q <;> simp [sizeFields, sizeOpt]; omega
    · have := ih h
      obtain ⟨f, s⟩ := a
      cases s with
      | conc v => simp [sizeFields]; omega
      | iface dyn => cases dyn <;> simp [sizeFields] <;> omega

theorem sizeOpt_lt_of_elems (v : Value) (e : Option Value) (h : e ∈ v.elems) :
    sizeOpt e < v.size := by
  cases v <;> simp [Value.elems] at h
  simpa [Value.size] using sizeOpt_lt_of_mem_elems _ e h

theorem sizeOpt_lt_of_fields (v : Value) (fv : StructField × Slot Value) (h : fv ∈ v.fields)
    (q : Option Value) (hq : fv.2.Interface fv.1 = .ok q) : sizeOpt q < v.size := by
  cases v <;> simp [Value.fields] at h
  simpa [Value.size] using sizeOpt_lt_of_mem_fields _ fv h q hq

theorem foldlM_congr {α β : Type} (f g : β → α → Except Panic β) (l : List α)
    (h : ∀ a ∈ l, ∀ b, f b a = g b a) : ∀ b, l.foldlM f b = l.foldlM g b := by
  induction l with
  | nil => intro b; rfl
  | cons a rest ih =>
    intro b
    simp only [List.foldlM_cons]
    rw [h a (List.mem_cons_self _ _) b]
    congr 1
    funext b'
    exact ih (fun a' ha' => h a' (List.mem_cons_of_mem _ ha')) b'

theorem extractSchemaField_congr (env : Env)
    (r1 r2 : Option Value → Except Panic (Option Schema)) (fv : StructField × Slot Value)
    (h : ∀ q, fv.2.Interface fv.1 = .ok q → r1 q = r2 q) (objSch : Schema) :
    extractSchemaField env r1 objSch fv = extractSchemaField env r2 objSch fv := by
  unfold extractSchemaField
  cases hq : fv.2.Interface fv.1 with
  | error e => simp [hq, bind, Except.bind]
  | ok q => simp [hq, bind, Except.bind, h q hq]

theorem extractSchemaStep_congr (env : Env)
    (r1 r2 : Option Value → Except Panic (Option Schema)) (p : Option Value)
    (h : ∀ q, sizeOpt q < sizeOpt p → r1 q = r2 q) :
    extractSchemaStep env r1 p = extractSchemaStep env r2 p := by
  cases p with
  | none => rfl
  | some x =>
    unfold extractSchemaStep
    simp only
    split
    · rfl
    split
    · rfl
    split
    · rfl
    split
    · rfl
    split
    · rfl
    split
    · rfl
    split
    · rename_i vh hvh
      split
      · rfl
      · rename_i v hv
        split
        · rfl
        · rename_i first rest hel
          have hsz := extractOpenAPIType_size x _ vh v hvh hv
          have hlt := sizeOpt_lt_of_elems v first (by simp [hel])
          rw [h first (by show sizeOpt first < x.size; omega)]
    split
    · rename_i vh hvh
      split
      · rfl
      · rename_i v hv
        have hsz := extractOpenAPIType_size x _ vh v hvh hv
        rw [foldlM_congr _ _ v.fields (fun fv hfv b =>
          extractSchemaField_congr env r1 r2 fv (fun q hq => h q (by
            have := sizeOpt_lt_of_fields v fv hfv q hq
            show sizeOpt q < x.size; omega)) b)]
    · rfl

theorem extractSchemaFuel_eq (env : Env) :
    ∀ (n m : Nat) (p : Option Value), sizeOpt p < n → sizeOpt p < m →
      extractSchemaFuel env n p = extractSchemaFuel env m p := by
  intro n
  induction n with
  | zero => intro m p h; omega
  | succ n ih =>
    intro m p hn hm
    cases m with
    | zero => omega
    | succ m =>
      simp only [extractSchemaFuel]
      apply extractSchemaStep_congr
      intro q hq
      exact ih m q (by omega) (by omega)

/-- The recursion equation of `extractSchema`: it is its body, with itself for the
recursive calls. -/
theorem extractSchema_eq (env : Env) (p : Option Value) :
    extractSchema env p = extractSchemaStep env (extractSchema env) p := by
  show extractSchemaFuel env (sizeOpt p + 1) p = _
  simp only [extractSchemaFuel]
  apply extractSchemaStep_congr
  intro q hq
  exact extractSchemaFuel_eq env (sizeOpt p) (sizeOpt q + 1) q hq (by omega)

/-! ## Theorems: slices and structs -/

/-- The loop over the fields of a struct, from a given `objSch`. -/
theorem extractSchema_struct (env : Env) (ty : String)
    (fields : List (StructField × Slot Value)) :
    extractSchema env (some (.struct ty fields))
      = (fields.foldlM (extractSchemaField env (extractSchema env)) NewObjectSchema).map some := by
  rw [extractSchema_eq]
  rfl

theorem extractSchema_ptr_struct (env : Env) (ty : String)
    (fields : List (StructField × Slot Value)) :
    extractSchema env (some (.ptr (.struct ty fields)))
      = (fields.foldlM (extractSchemaField env (extractSchema env)) NewObjectSchema).map some := by
  rw [extractSchema_eq]
  rfl

theorem extractSchema_slice_cons (env : Env) (ty : String) (first : Option Value)
    (rest : List (Option Value)) :
    extractSchema env (some (.slice ty (first :: rest)))
      = (extractSchema env first).map fun items => some (.mk { type := .array } items []) := by
  rw [extractSchema_eq]
  rfl

theorem extractSchema_ptr_slice_cons (env : Env) (ty : String) (first : Option Value)
    (rest : List (Option Value)) :
    extractSchema env (some (.ptr (.slice ty (first :: rest))))
      = (extractSchema env first).map fun items => some (.mk { type := .array } items []) := by
  rw [extractSchema_eq]
  rfl

theorem extractSchema_slice_nil (env : Env) (ty : String) :
    extractSchema env (some (.slice ty [])) = .error .emptyArray := by
  rw [extractSchema_eq]
  rfl

theorem extractSchema_ptr_slice_nil (env : Env) (ty : String) :
    extractSchema env (some (.ptr (.slice ty []))) = .error .emptyArray := by
  rw [extractSchema_eq]
  rfl

/-! ## Theorems: maps -/

theorem mapGet_mapSet {α : Type} (m : List (String × α)) (k n : String) (v : α) :
    mapGet (mapSet m k v) n = if k = n then some v else mapGet m n := by
  induction m with
  | nil => simp [mapSet, mapGet]
  | cons a rest ih =>
    obtain ⟨k', v'⟩ := a
    by_cases h : k' = k
    · subst h
      by_cases h' : k' = n <;> simp [mapSet, mapGet, h']
    · simp only [mapSet, h, if_false, mapGet, ih]
      by_cases h' : k' = n
      · subst h'; simp [Ne.symm h]
      · simp [h']

theorem mapGet_append {α : Type} (m1 m2 : List (String × α)) (n : String) :
    mapGet (m1 ++ m2) n = match mapGet m1 n with
      | some s => some s
      | none => mapGet m2 n := by
  induction m1 with
  | nil => simp [mapGet]
  | cons a rest ih =>
    obtain ⟨k', v'⟩ := a
    by_cases h : k' = n
    · simp [mapGet, h]
    · simp [mapGet, h, ih]

theorem mapGet_mergeProperties (src into : List (String × Schema)) (n : String) :
    mapGet (mergeProperties into src) n = match mapGet src.reverse n with
      | some s => some s
      | none => mapGet into n := by
  induction src generalizing into with
  | nil => simp [mergeProperties, mapGet]
  | cons a rest ih =>
    obtain ⟨k, v⟩ := a
    have : mergeProperties into ((k, v) :: rest) = mergeProperties (mapSet into k v) rest := rfl
    rw [this, ih, List.reverse_cons, mapGet_append, mapGet_mapSet]
    cases mapGet rest.reverse n with
    | some s => rfl
    | none => by_cases h : k = n <;> simp [mapGet, h]

theorem mergeProperties_append (into a b : List (String × Schema)) :
    mergeProperties into (a ++ b) = mergeProperties (mergeProperties into a) b := by
  simp [mergeProperties, List.foldl_append]

theorem mapGet_eq_none_of_not_mem {α : Type} (m : List (String × α)) (n : String)
    (h : n ∉ m.map Prod.fst) : mapGet m n = none := by
  induction m with
  | nil => rfl
  | cons a rest ih =>
    obtain ⟨k, v⟩ := a
    simp only [List.map_cons, List.mem_cons, not_or] at h
    simp [mapGet, Ne.symm h.1, ih h.2]

theorem mapGet_reverse_of_nodup {α : Type} (m : List (String × α)) (n : String)
    (h : (m.map Prod.fst).Nodup) : mapGet m.reverse n = mapGet m n := by
  induction m with
  | nil => rfl
  | cons a rest ih =>
    obtain ⟨k, v⟩ := a
    simp only [List.map_cons, List.nodup_cons] at h
    rw [List.reverse_cons, mapGet_append, ih h.2]
    by_cases hk : k = n
    · subst hk
      rw [mapGet_eq_none_of_not_mem rest k h.1]
      simp [mapGet]
    · cases hr : mapGet rest n <;> simp [mapGet, hk, hr]

theorem map_fst_mapSet {α : Type} (m : List (String × α)) (k : String) (v : α) :
    (mapSet m k v).map Prod.fst
      = if k ∈ m.map Prod.fst then m.map Prod.fst else m.map Prod.fst ++ [k] := by
  induction m with
  | nil => simp [mapSet]
  | cons a rest ih =>
    obtain ⟨k', v'⟩ := a
    by_cases h : k' = k
    · subst h; simp [mapSet]
    · simp only [mapSet, h, if_false, List.map_cons, ih, List.mem_cons, Ne.symm h, false_or]
      split_ifs <;> simp

theorem nodup_mapSet {α : Type} (m : List (String × α)) (k : String) (v : α)
    (h : (m.map Prod.fst).Nodup) : ((mapSet m k v).map Prod.fst).Nodup := by
  rw [map_fst_mapSet]
  split_ifs with hk
  · exact h
  · exact List.Nodup.append h (List.nodup_singleton k) (by simpa using hk)

theorem nodup_mergeProperties (src into : List (String × Schema))
    (h : (into.map Prod.fst).Nodup) : ((mergeProperties into src).map Prod.fst).Nodup := by
  induction src generalizing into with
  | nil => simpa [mergeProperties] using h
  | cons a rest ih => exact ih _ (nodup_mapSet into a.1 a.2 h)

/-! ## Theorems: the loop over the fields as a list of additions -/

theorem addEffect_addEffect (o : Schema) (e1 e2 : List String × List (String × Schema)) :
    addEffect (addEffect o e1) e2 = addEffect o (e1.1 ++ e2.1, e1.2 ++ e2.2) := by
  simp [addEffect, Schema.attrs, Schema.Items, Schema.Properties, mergeProperties_append]

theorem addEffect_nil (o : Schema) : addEffect o ([], []) = o := by
  cases o
  simp [addEffect, Schema.attrs, Schema.Items, Schema.Properties, mergeProperties]

theorem docTagField_cases (key : String) :
    key = "maxItems" ∨ key = "minItems" ∨ key = "nullable" ∨ key = "required" ∨
    key = "format" ∨ key = "pattern" ∨ key = "desc" ∨ key = "enum" ∨ key = "maxLength" ∨
    key = "maximum" ∨ key = "minLength" ∨ key = "minimum" ∨
    (key ≠ "maxItems" ∧ key ≠ "minItems" ∧ key ≠ "nullable" ∧ key ≠ "required" ∧
      key ≠ "format" ∧ key ≠ "pattern" ∧ key ≠ "desc" ∧ key ≠ "enum" ∧ key ≠ "maxLength" ∧
      key ≠ "maximum" ∧ key ≠ "minLength" ∧ key ≠ "minimum") := by
  tauto

theorem applyDocTagField_objSch (env : Env) (fn : String) (o s : Schema)
    (kv : String × String) :
    applyDocTagField env fn (o, s) kv =
      match applyDocTagField env fn (NewObjectSchema, s) kv with
      | .error e => .error e
      | .ok st =>
        .ok (addEffect o (if kv.1 = DocTagFieldRequired then [fn] else [], []), st.2) := by
  have hreq : (o.modify fun a => { a with Required := a.Required ++ [fn] })
      = addEffect o ([fn], []) := by
    cases o; rfl
  have hnil := addEffect_nil o
  obtain ⟨key, arg⟩ := kv
  rcases docTagField_cases key with
    rfl | rfl | rfl | rfl | rfl | rfl | rfl | rfl | rfl | rfl | rfl | rfl | h
  all_goals
    simp only [applyDocTagField, DocTagFieldMaxItems, DocTagFieldMinItems,
      DocTagFieldNullable, DocTagFieldRequired, DocTagFieldFormat, DocTagFieldPattern,
      DocTagFieldDescription, DocTagFieldEnum, DocTagFieldStringMaxLength, DocTagFieldMaximum,
      DocTagFieldStringMinLength, DocTagFieldMinimum, hreq]
  case inr.inr.inr.inr.inr.inr.inr.inr.inr.inr.inr.inr =>
    obtain ⟨h1, h2, h3, h4, h5, h6, h7, h8, h9, h10, h11, h12⟩ := h
    simp [h1, h2, h3, h4, h5, h6, h7, h8, h9, h10, h11, h12, hnil]
  all_goals
    simp only [String.reduceEq, if_true, if_false, reduceIte, hnil]
  all_goals
    first
    | rfl
    | (split <;> simp [bind, Except.bind] <;> (try (split <;> simp)))

theorem foldlM_applyDocTagField (env : Env) (fn : String) (kvs : List (String × String)) :
    ∀ (o s : Schema), kvs.foldlM (applyDocTagField env fn) (o, s) =
      match applyDocTag env fn kvs s with
      | .error e => .error e
      | .ok s' => .ok (addEffect o (requiredNames fn kvs, []), s') := by
  induction kvs with
  | nil =>
    intro o s
    simp [applyDocTag, requiredNames, addEffect_nil, Except.map, pure, Except.pure]
  | cons kv rest ih =>
    intro o s
    simp only [List.foldlM_cons, applyDocTag]
    rw [applyDocTagField_objSch env fn o s kv]
    cases h1 : applyDocTagField env fn (NewObjectSchema, s) kv with
    | error e => simp [bind, Except.bind, Except.map]
    | ok st1 =>
      obtain ⟨o1, s1⟩ := st1
      simp only [bind, Except.bind]
      have e1 := ih (addEffect o (if kv.1 = DocTagFieldRequired then [fn] else [], [])) s1
      have e2 := ih o1 s1
      simp only [bind, Except.bind] at e1 e2
      rw [e1, e2]
      cases applyDocTag env fn rest s1 with
      | error e => simp [Except.map]
      | ok s' =>
        simp only [Except.map, addEffect_addEffect, requiredNames, List.filter_cons]
        by_cases hk : kv.1 = DocTagFieldRequired <;> simp [hk]

theorem extractSchemaField_eq (env : Env) (o : Schema) (fv : StructField × Slot Value) :
    extractSchemaField env (extractSchema env) o fv =
      match fieldEffect env fv with
      | .error e => .error e
      | .ok e => .ok (addEffect o e) := by
  unfold extractSchemaField fieldEffect
  simp only
  split_ifs with hflat hdoc
  · cases fv.2.Interface fv.1 with
    | error e => rfl
    | ok q =>
      simp only [bind, Except.bind]
      cases extractSchema env q with
      | error e => rfl
      | ok sr => cases sr <;> rfl
  · cases wireName fv.1 with
    | none => simp [addEffect_nil]
    | some fn =>
      simp only [hdoc, if_true, addEffect_nil]
  · cases wireName fv.1 with
    | none => simp [addEffect_nil]
    | some fn =>
      simp only [hdoc, if_false]
      cases fv.2.Interface fv.1 with
      | error e => rfl
      | ok q =>
        simp only [bind, Except.bind]
        cases extractSchema env q with
        | error e => rfl
        | ok sr =>
          cases sr with
          | none => simp [addEffect_nil]
          | some schemeRef =>
            simp only
            cases parseDocTag fv.1.doc with
            | error e => rfl
            | ok kvs =>
              simp only
              rw [foldlM_applyDocTagField]
              cases applyDocTag env fn kvs schemeRef with
              | error e => rfl
              | ok s =>
                simp [addEffect, Schema.attrs, Schema.Items, Schema.Properties,
                  mergeProperties]

theorem foldlM_extractSchemaField (env : Env) (fields : List (StructField × Slot Value)) :
    ∀ o : Schema, fields.foldlM (extractSchemaField env (extractSchema env)) o =
      match fieldsEffect env fields with
      | .error e => .error e
      | .ok e => .ok (addEffect o e) := by
  induction fields with
  | nil => intro o; simp [fieldsEffect, addEffect_nil, pure, Except.pure]
  | cons fv rest ih =>
    intro o
    simp only [List.foldlM_cons, fieldsEffect]
    rw [extractSchemaField_eq]
    cases fieldEffect env fv with
    | error e => rfl
    | ok e1 =>
      simp only [bind, Except.bind]
      rw [ih]
      cases fieldsEffect env rest with
      | error e => rfl
      | ok e2 => simp [addEffect_addEffect]

/-- The schema of a struct is the empty object schema with the additions of its fields. -/
theorem extractSchema_struct_effect (env : Env) (ty : String)
    (fields : List (StructField × Slot Value)) :
    extractSchema env (some (.struct ty fields)) =
      match fieldsEffect env fields with
      | .error e => .error e
      | .ok e => .ok (some (addEffect NewObjectSchema e)) := by
  rw [extractSchema_struct, foldlM_extractSchemaField]
  cases fieldsEffect env fields <;> rfl

theorem fieldsEffect_append (env : Env) (a b : List (StructField × Slot Value)) :
    fieldsEffect env (a ++ b) =
      match fieldsEffect env a with
      | .error e => .error e
      | .ok e1 =>
        match fieldsEffect env b with
        | .error e => .error e
        | .ok e2 => .ok (e1.1 ++ e2.1, e1.2 ++ e2.2) := by
  induction a with
  | nil =>
    simp only [List.nil_append, fieldsEffect]
    cases fieldsEffect env b <;> simp
  | cons fv rest ih =>
    have hc : fieldsEffect env (fv :: rest ++ b) =
        match fieldEffect env fv with
        | .error e => .error e
        | .ok e1 =>
          match fieldsEffect env (rest ++ b) with
          | .error e => .error e
          | .ok e2 => .ok (e1.1 ++ e2.1, e1.2 ++ e2.2) := rfl
    have hd : fieldsEffect env (fv :: rest) =
        match fieldEffect env fv with
        | .error e => .error e
        | .ok e1 =>
          match fieldsEffect env rest with
          | .error e => .error e
          | .ok e2 => .ok (e1.1 ++ e2.1, e1.2 ++ e2.2) := rfl
    rw [hc, hd, ih]
    cases fieldEffect env fv with
    | error e => rfl
    | ok e0 =>
      cases fieldsEffect env rest with
      | error e => rfl
      | ok e1 =>
        cases fieldsEffect env b with
        | error e => rfl
        | ok e2 => simp [List.append_assoc]

/-! ## Theorems: the claims about `extractSchema` -/

theorem extractSchema_ptr_struct_effect (env : Env) (ty : String)
    (fields : List (StructField × Slot Value)) :
    extractSchema env (some (.ptr (.struct ty fields))) =
      match fieldsEffect env fields with
      | .error e => .error e
      | .ok e => .ok (some (addEffect NewObjectSchema e)) := by
  rw [extractSchema_ptr_struct, foldlM_extractSchemaField]
  cases fieldsEffect env fields <;> rfl

/-- The keys of the properties of an inferred schema are pairwise different. -/
theorem extractSchema_nodup (env : Env) (p : Option Value) (node : Schema)
    (h : extractSchema env p = .ok (some node)) : (node.Properties.map Prod.fst).Nodup := by
  rw [extractSchema_eq] at h
  cases p with
  | none => cases h
  | some x =>
    unfold extractSchemaStep at h
    simp only at h
    split at h
    · cases h; simp [Schema.leaf, Schema.Properties]
    split at h
    · cases h; simp [Schema.leaf, Schema.Properties]
    split at h
    · cases h; simp [Schema.leaf, Schema.Properties]
    split at h
    · cases h; simp [Schema.leaf, Schema.Properties]
    split at h
    · cases h; simp [Schema.leaf, Schema.Properties]
    split at h
    · cases h; simp [Schema.leaf, Schema.Properties]
    split at h
    · split at h
      · cases h
      · split at h
        · cases h
        · rename_i first rest hel
          cases hf : extractSchema env first with
          | error e => simp [hf, bind, Except.bind] at h
          | ok items =>
            simp only [hf, bind, Except.bind] at h
            cases h; simp [Schema.Properties]
    split at h
    · split at h
      · split_ifs at h
        cases h; simp [NewObjectSchema, Schema.leaf, Schema.Properties]
      · rename_i v hv
        rw [foldlM_extractSchemaField] at h
        cases he : fieldsEffect env v.fields with
        | error e => simp [he, bind, Except.bind] at h
        | ok e =>
          simp only [he, bind, Except.bind] at h
          cases h
          simp only [addEffect, Schema.Properties]
          exact nodup_mergeProperties _ _ (by simp [NewObjectSchema, Schema.leaf])
    · cases h

/-- The equations behind the flattening of an embedded struct. -/
theorem extractSchema_embedded_aux (env : Env) (ty ty' : String) (fE : StructField)
    (E : Value) (D : List (StructField × Slot Value)) (node : Schema)
    (hanon : fE.Anonymous = true) (hE : E.TypeOf.Kind = .Struct)
    (hok : extractSchema env (some (.struct ty ((fE, .conc E) :: D))) = .ok (some node)) :
    ∃ nodeE nodeD : Schema,
      extractSchema env (some E) = .ok (some nodeE) ∧
      extractSchema env (some (.struct ty' D)) = .ok (some nodeD) ∧
      node.attrs = { nodeD.attrs with
        Required := nodeE.attrs.Required ++ nodeD.attrs.Required } ∧
      node.attrs.type = .object ∧
      node.Items = none ∧
      (∀ n, mapGet node.Properties n =
        match mapGet nodeD.Properties n with
        | some s => some s
        | none => mapGet nodeE.Properties n) := by
  rw [extractSchema_struct_effect] at hok
  have hcons : fieldsEffect env ((fE, .conc E) :: D) =
      match fieldEffect env (fE, .conc E) with
      | .error e => .error e
      | .ok e1 =>
        match fieldsEffect env D with
        | .error e => .error e
        | .ok e2 => .ok (e1.1 ++ e2.1, e1.2 ++ e2.2) := rfl
  rw [hcons] at hok
  cases h1 : fieldEffect env (fE, .conc E) with
  | error e => simp [h1] at hok
  | ok e1 =>
    cases h2 : fieldsEffect env D with
    | error e => simp [h1, h2] at hok
    | ok e2 =>
      simp only [h1, h2, Except.ok.injEq, Option.some.injEq] at hok
      subst hok
      have hflat : (Slot.conc E).Kind = .Struct ∧ fE.Anonymous = true := ⟨hE, hanon⟩
      simp only [fieldEffect, hflat, and_self, if_true, Slot.Interface] at h1
      split_ifs at h1 with hpkg
      · simp only at h1
        cases hq : extractSchema env (some E) with
        | error e => simp [hq] at h1
        | ok sr =>
          cases sr with
          | none => simp [hq] at h1
          | some sr =>
            simp only [hq, Except.ok.injEq] at h1
            subst h1
            refine ⟨sr, addEffect NewObjectSchema e2, rfl, ?_, ?_, rfl, rfl, ?_⟩
            · rw [extractSchema_struct_effect, h2]
            · simp [addEffect, Schema.attrs, NewObjectSchema, Schema.leaf]
            · intro n
              have hnd := extractSchema_nodup env (some E) sr hq
              have hrev := mapGet_reverse_of_nodup sr.Properties n hnd
              show mapGet (mergeProperties [] (sr.Properties ++ e2.2)) n =
                match mapGet (mergeProperties [] e2.2) n with
                | some s => some s
                | none => mapGet sr.Properties n
              rw [mapGet_mergeProperties, mapGet_mergeProperties, List.reverse_append,
                mapGet_append, hrev]
              cases mapGet e2.2.reverse n with
              | some s => simp [mapGet]
              | none => cases mapGet sr.Properties n <;> simp [mapGet]

/-- C5. Flattening of an embedded struct: when inference of a struct whose first field is
an embedded field holding a struct value `E`, followed by the fields `D`, succeeds, the
result is an object node; its required list is that of `extractSchema E` followed by that of
`extractSchema` of the struct of `D` alone; its properties are those of `extractSchema E`
merged with those of the struct of `D` alone, the latter winning; nothing else is added, so
there is no property keyed by the name of the embedded field unless `E` or `D` declare it. -/
theorem extractSchema_embedded_flattened (env : Env) (ty ty' : String) (fE : StructField)
    (E : Value) (D : List (StructField × Slot Value)) (node : Schema)
    (hanon : fE.Anonymous = true) (hE : E.TypeOf.Kind = .Struct)
    (hok : extractSchema env (some (.struct ty ((fE, .conc E) :: D))) = .ok (some node)) :
    ∃ nodeE nodeD : Schema,
      extractSchema env (some E) = .ok (some nodeE) ∧
      extractSchema env (some (.struct ty' D)) = .ok (some nodeD) ∧
      node.attrs = { nodeD.attrs with
        Required := nodeE.attrs.Required ++ nodeD.attrs.Required } ∧
      node.attrs.type = .object ∧
      node.Items = none ∧
      (∀ n, mapGet node.Properties n =
        match mapGet nodeD.Properties n with
        | some s => some s
        | none => mapGet nodeE.Properties n) ∧
      (mapGet nodeE.Properties fE.Name = none → mapGet nodeD.Properties fE.Name = none →
        mapGet node.Properties fE.Name = none) := by
  obtain ⟨nodeE, nodeD, h1, h2, h3, h4, h5, h6⟩ :=
    extractSchema_embedded_aux env ty ty' fE E D node hanon hE hok
  refine ⟨nodeE, nodeD, h1, h2, h3, h4, h5, h6, ?_⟩
  intro hE' hD'
  rw [h6, hD', hE']

theorem extractSchema_embedded_flattened_witness :
    ∃ nodeE nodeD : Schema,
      extractSchema emptyEnv (some (.struct "ginx.JSONEmbed" [
        ({ Name := "Str", json := "str", doc := "required" }, .conc (str "test"))]))
        = .ok (some nodeE) ∧
      extractSchema emptyEnv (some (.struct "D" [
        ({ Name := "EmailField", json := "emailField", doc := "required format(email)" },
          .conc (str "a@b.c"))])) = .ok (some nodeD) ∧
      sampleEmbeddedSchema.attrs.Required = nodeE.attrs.Required ++ nodeD.attrs.Required ∧
      mapGet sampleEmbeddedSchema.Properties "str" =
        (match mapGet nodeD.Properties "str" with
        | some s => some s
        | none => mapGet nodeE.Properties "str") := by
  obtain ⟨nodeE, nodeD, h1, h2, h3, _, _, h6, _⟩ :=
    extractSchema_embedded_flattened emptyEnv "ginx.JSONRequest" "D"
      { Name := "JSONEmbed", Anonymous := true }
      (.struct "ginx.JSONEmbed" [
        ({ Name := "Str", json := "str", doc := "required" }, .conc (str "test"))])
      [({ Name := "EmailField", json := "emailField", doc := "required format(email)" },
        .conc (str "a@b.c"))]
      sampleEmbeddedSchema rfl rfl (by rfl)
  exact ⟨nodeE, nodeD, h1, h2, by rw [h3], h6 "str"⟩

theorem fieldsEffect_error_of_mem (env : Env) (fields : List (StructField × Slot Value))
    (fv : StructField × Slot Value) (hmem : fv ∈ fields)
    (herr : ∃ e, fieldEffect env fv = .error e) : ∃ e, fieldsEffect env fields = .error e := by
  obtain ⟨pre, post, rfl⟩ := List.append_of_mem hmem
  obtain ⟨e, he⟩ := herr
  rw [fieldsEffect_append]
  cases fieldsEffect env pre with
  | error e' => exact ⟨e', rfl⟩
  | ok e1 =>
    have : fieldsEffect env (fv :: post) = .error e := by
      simp [fieldsEffect, he]
    exact ⟨e, by simp [this]⟩

theorem length_ne_zero_of_ne_empty (s : String) (h : s ≠ "") : s.length ≠ 0 := by
  intro hl
  apply h
  obtain ⟨l⟩ := s
  have hl' : l.length = 0 := hl
  rw [List.length_eq_zero] at hl'
  subst hl'
  rfl

/-- C6. An empty array sample is fatal: `extractSchema` panics on a slice with zero elements,
given directly or behind a pointer; and it panics on every struct (given directly or behind
a pointer) that has a wire-named, annotated, non-embedded field whose value is a slice with
zero elements. -/
theorem extractSchema_empty_array :
    (∀ (env : Env) (ty : String),
      extractSchema env (some (.slice ty [])) = .error .emptyArray ∧
      extractSchema env (some (.ptr (.slice ty []))) = .error .emptyArray) ∧
    (∀ (env : Env) (ty tyS : String) (fields : List (StructField × Slot Value))
      (f : StructField) (v : Slot Value) (n : String),
      (f, v) ∈ fields → f.Anonymous = false → wireName f = some n → f.doc ≠ "" →
      (v = .conc (.slice tyS []) ∨ v = .iface (some (.slice tyS []))) →
      (∃ e, extractSchema env (some (.struct ty fields)) = .error e) ∧
      (∃ e, extractSchema env (some (.ptr (.struct ty fields))) = .error e)) := by
  refine ⟨fun env ty => ⟨extractSchema_slice_nil env ty, extractSchema_ptr_slice_nil env ty⟩, ?_⟩
  intro env ty tyS fields f v n hmem hanon hname hdoc hv
  have herr : ∃ e, fieldEffect env (f, v) = .error e := by
    have hlen := length_ne_zero_of_ne_empty f.doc hdoc
    rcases hv with rfl | rfl <;>
      simp only [fieldEffect, hanon, hname, hlen, Slot.Interface, and_false, if_false,
        Bool.false_eq_true] <;>
      split_ifs <;> simp [extractSchema_slice_nil]
  obtain ⟨e, he⟩ := fieldsEffect_error_of_mem env fields (f, v) hmem herr
  exact ⟨⟨e, by rw [extractSchema_struct_effect, he]⟩,
    ⟨e, by rw [extractSchema_ptr_struct_effect, he]⟩⟩

theorem extractSchema_empty_array_witness :
    (∃ e, extractSchema emptyEnv (some (.struct "T" [
        ({ Name := "Arr", json := "arr", doc := "desc(array)" }, .conc (.slice "[]string" []))]))
      = .error e) ∧
    (∃ e, extractSchema emptyEnv (some (.ptr (.struct "T" [
        ({ Name := "Arr", json := "arr", doc := "desc(array)" }, .conc (.slice "[]string" []))])))
      = .error e) :=
  extractSchema_empty_array.2 emptyEnv "T" "[]string"
    [({ Name := "Arr", json := "arr", doc := "desc(array)" }, .conc (.slice "[]string" []))]
    { Name := "Arr", json := "arr", doc := "desc(array)" } (.conc (.slice "[]string" [])) "arr"
    (by simp) rfl (by decide) (by decide) (Or.inl rfl)

/-- C7, as the code has it. A slice with one or more elements, given directly or behind a
pointer: `extractSchema` succeeds exactly when `extractSchema` of the first element does,
and then returns an array node whose items is the result for the first element, whatever the
remaining elements are; when the first element fails, the slice fails with the same panic. -/
theorem extractSchema_nonempty_array (env : Env) (ty : String) (first : Option Value)
    (rest : List (Option Value)) :
    extractSchema env (some (.slice ty (first :: rest))) =
      (match extractSchema env first with
      | .ok items => .ok (some (.mk { type := .array } items []))
      | .error e => .error e) ∧
    extractSchema env (some (.ptr (.slice ty (first :: rest)))) =
      (match extractSchema env first with
      | .ok items => .ok (some (.mk { type := .array } items []))
      | .error e => .error e) := by
  rw [extractSchema_slice_cons, extractSchema_ptr_slice_cons]
  cases extractSchema env first <;> exact ⟨rfl, rfl⟩

/-- C7, counterexample. A slice `[]uint{1}` has one element, and `extractSchema` panics on it,
because its first element is of an unsupported kind. -/
theorem extractSchema_nonempty_array_fails :
    extractSchema emptyEnv (some (.slice "[]uint" [some (.scalar "uint" (.uint .Uint 1))]))
      = .error .notSupported := by
  rfl

theorem extractSchemaField_skip (env : Env)
    (r : Option Value → Except Panic (Option Schema)) (o : Schema) (f : StructField)
    (v : Slot Value) (hanon : f.Anonymous = false) (hskip : f.doc = "" ∨ wireName f = none) :
    extractSchemaField env r o (f, v) = .ok o := by
  simp only [extractSchemaField, hanon, and_false, if_false, Bool.false_eq_true]
  rcases hskip with h | h
  · cases wireName f <;> simp [h]
  · simp [h]

theorem foldlM_skip (env : Env) (r : Option Value → Except Panic (Option Schema))
    (pre post : List (StructField × Slot Value)) (f : StructField) (v : Slot Value)
    (hanon : f.Anonymous = false) (hskip : f.doc = "" ∨ wireName f = none) (o : Schema) :
    (pre ++ (f, v) :: post).foldlM (extractSchemaField env r) o
      = (pre ++ post).foldlM (extractSchemaField env r) o := by
  simp only [List.foldlM_append, List.foldlM_cons,
    extractSchemaField_skip env r _ f v hanon hskip]
  congr 1

/-- C10. Soft skip: a non-embedded field without annotation (`doc`) tag, with or without a
wire name, or without usable wire name, whatever its value and its other tags, leaves no
trace: `extractSchema` of the struct (given directly or behind a pointer) equals
`extractSchema` of the struct without that field, so the field is absent from properties
and required, and never makes inference fail. -/
theorem extractSchema_soft_skip (env : Env) (ty : String)
    (pre post : List (StructField × Slot Value)) (f : StructField) (v : Slot Value)
    (hanon : f.Anonymous = false) (hskip : f.doc = "" ∨ wireName f = none) :
    extractSchema env (some (.struct ty (pre ++ (f, v) :: post)))
      = extractSchema env (some (.struct ty (pre ++ post))) ∧
    extractSchema env (some (.ptr (.struct ty (pre ++ (f, v) :: post))))
      = extractSchema env (some (.ptr (.struct ty (pre ++ post)))) := by
  rw [extractSchema_struct, extractSchema_struct, extractSchema_ptr_struct,
    extractSchema_ptr_struct, foldlM_skip env _ pre post f v hanon hskip]
  exact ⟨rfl, rfl⟩

theorem extractSchema_soft_skip_witness :
    extractSchema emptyEnv (some (.struct "T" ([] ++
        ({ Name := "Hidden", doc := "maxItems(x" }, .conc (.slice "[]uint" [])) ::
        [({ Name := "Str", json := "str", doc := "required" }, .conc (str "test"))])))
      = extractSchema emptyEnv (some (.struct "T" ([] ++
        [({ Name := "Str", json := "str", doc := "required" }, .conc (str "test"))]))) ∧
    extractSchema emptyEnv (some (.ptr (.struct "T" ([] ++
        ({ Name := "Hidden", doc := "maxItems(x" }, .conc (.slice "[]uint" [])) ::
        [({ Name := "Str", json := "str", doc := "required" }, .conc (str "test"))]))))
      = extractSchema emptyEnv (some (.ptr (.struct "T" ([] ++
        [({ Name := "Str", json := "str", doc := "required" }, .conc (str "test"))])))) :=
  extractSchema_soft_skip emptyEnv "T" []
    [({ Name := "Str", json := "str", doc := "required" }, .conc (str "test"))]
    { Name := "Hidden", doc := "maxItems(x" } (.conc (.slice "[]uint" [])) rfl
    (Or.inr (by decide))

/-- A non-nil prototype never yields the nil result. -/
theorem extractSchema_some_ne_none (env : Env) (x : Value) :
    extractSchema env (some x) ≠ .ok none := by
  intro h
  rw [extractSchema_eq] at h
  unfold extractSchemaStep at h
  simp only at h
  split at h
  · cases h
  split at h
  · cases h
  split at h
  · cases h
  split at h
  · cases h
  split at h
  · cases h
  split at h
  · cases h
  split at h
  · split at h
    · cases h
    · split at h
      · cases h
      · rename_i first rest hel
        cases hf : extractSchema env first with
        | error e => simp [hf, bind, Except.bind] at h
        | ok items => simp [hf, bind, Except.bind] at h
  split at h
  · split at h
    · split_ifs at h
      cases h
    · rename_i v hv
      cases hf : v.fields.foldlM (extractSchemaField env (extractSchema env))
          NewObjectSchema with
      | error e => simp [hf, bind, Except.bind] at h
      | ok o => simp [hf, bind, Except.bind] at h
  · cases h

theorem interface_ne_none (f : StructField) (v : Slot Value) (hval : v ≠ .iface none)
    (q : Option Value) (hq : v.Interface f = .ok q) : ∃ x, q = some x := by
  cases v with
  | conc x =>
    simp only [Slot.Interface] at hq
    split_ifs at hq
    cases hq
    exact ⟨x, rfl⟩
  | iface dyn =>
    simp only [Slot.Interface] at hq
    split_ifs at hq
    cases hq
    cases q with
    | none => exact absurd rfl hval
    | some x => exact ⟨x, rfl⟩

/-- What an annotated, wire-named, non-flattened field with a non-nil value adds. -/
theorem fieldEffect_direct (env : Env) (f : StructField) (v : Slot Value) (n : String)
    (e : List String × List (String × Schema))
    (hflat : ¬ (v.Kind = .Struct ∧ f.Anonymous = true)) (hname : wireName f = some n)
    (hdoc : f.doc ≠ "") (hval : v ≠ .iface none) (he : fieldEffect env (f, v) = .ok e) :
    ∃ (x : Value) (child : Schema) (kvs : List (String × String)) (s : Schema),
      v.Interface f = .ok (some x) ∧ extractSchema env (some x) = .ok (some child) ∧
      parseDocTag f.doc = .ok kvs ∧ applyDocTag env n kvs child = .ok s ∧
      e = (requiredNames n kvs, [(n, s)]) := by
  have hlen := length_ne_zero_of_ne_empty f.doc hdoc
  simp only [fieldEffect, hflat, if_false, hname, hlen] at he
  cases hq : v.Interface f with
  | error e' => simp [hq] at he
  | ok q =>
    obtain ⟨x, rfl⟩ := interface_ne_none f v hval q hq
    simp only [hq] at he
    cases hx : extractSchema env (some x) with
    | error e' => simp [hx] at he
    | ok sr =>
      cases sr with
      | none => exact absurd hx (extractSchema_some_ne_none env x)
      | some child =>
        simp only [hx] at he
        cases hp : parseDocTag f.doc with
        | error e' => simp [hp] at he
        | ok kvs =>
          simp only [hp] at he
          cases ha : applyDocTag env n kvs child with
          | error e' => simp [ha] at he
          | ok s =>
            simp only [ha, Except.ok.injEq] at he
            exact ⟨x, child, kvs, s, rfl, hx, rfl, ha, he.symm⟩

/-- The place of one annotated field in the schema of its struct. -/
theorem extractSchema_field (env : Env) (ty : String)
    (pre post : List (StructField × Slot Value)) (f : StructField) (v : Slot Value)
    (n : String) (node : Schema)
    (hflat : ¬ (v.Kind = .Struct ∧ f.Anonymous = true)) (hname : wireName f = some n)
    (hdoc : f.doc ≠ "") (hval : v ≠ .iface none)
    (hok : extractSchema env (some (.struct ty (pre ++ (f, v) :: post))) = .ok (some node)) :
    ∃ (x : Value) (child : Schema) (kvs : List (String × String)) (s nodePre nodePost : Schema),
      v.Interface f = .ok (some x) ∧ extractSchema env (some x) = .ok (some child) ∧
      parseDocTag f.doc = .ok kvs ∧ applyDocTag env n kvs child = .ok s ∧
      extractSchema env (some (.struct ty pre)) = .ok (some nodePre) ∧
      extractSchema env (some (.struct ty post)) = .ok (some nodePost) ∧
      node.attrs.Required
        = nodePre.attrs.Required ++ requiredNames n kvs ++ nodePost.attrs.Required ∧
      (mapGet nodePost.Properties n = none → mapGet node.Properties n = some s) := by
  rw [extractSchema_struct_effect, fieldsEffect_append] at hok
  have hcons : fieldsEffect env ((f, v) :: post) =
      match fieldEffect env (f, v) with
      | .error e => .error e
      | .ok e1 =>
        match fieldsEffect env post with
        | .error e => .error e
        | .ok e2 => .ok (e1.1 ++ e2.1, e1.2 ++ e2.2) := rfl
  rw [hcons] at hok
  cases h1 : fieldsEffect env pre with
  | error e => simp [h1] at hok
  | ok e1 =>
    cases h2 : fieldEffect env (f, v) with
    | error e => simp [h1, h2] at hok
    | ok e2 =>
      cases h3 : fieldsEffect env post with
      | error e => simp [h1, h2, h3] at hok
      | ok e3 =>
        simp only [h1, h2, h3, Except.ok.injEq, Option.some.injEq] at hok
        subst hok
        obtain ⟨x, child, kvs, s, hx, hchild, hparse, happly, rfl⟩ :=
          fieldEffect_direct env f v n e2 hflat hname hdoc hval h2
        refine ⟨x, child, kvs, s, addEffect NewObjectSchema e1, addEffect NewObjectSchema e3,
          hx, hchild, hparse, happly, ?_, ?_, ?_, ?_⟩
        · rw [extractSchema_struct_effect, h1]
        · rw [extractSchema_struct_effect, h3]
        · simp [addEffect, Schema.attrs, NewObjectSchema, Schema.leaf]
        · intro hnone
          have hnone' : mapGet (mergeProperties [] e3.2) n = none := hnone
          rw [mapGet_mergeProperties] at hnone'
          show mapGet (mergeProperties [] (e1.2 ++ ([(n, s)] ++ e3.2))) n = some s
          rw [mapGet_mergeProperties]
          simp only [List.reverse_append, mapGet_append, List.reverse_cons, List.reverse_nil,
            List.nil_append]
          cases h3r : mapGet e3.2.reverse n with
          | some s' => simp [h3r] at hnone'
          | none => simp [mapGet]


/-! ## Theorems: `strings.Split` -/

theorem splitRunes_eq_splitOn (sep : Char) (cs : List Char) :
    splitRunes sep cs = cs.splitOn sep := by
  induction cs with
  | nil => rfl
  | cons c cs ih =>
    have hcons : (c :: cs).splitOn sep
        = if (c == sep) = true then [] :: cs.splitOn sep
          else (cs.splitOn sep).modifyHead (List.cons c) := by
      simp only [List.splitOn]
      exact List.splitOnP_cons _ c cs
    rw [hcons]
    simp only [splitRunes, ih, beq_iff_eq]
    by_cases h : c = sep
    · simp [h]
    · simp only [h, if_false]
      cases hs : cs.splitOn sep with
      | nil => exact absurd hs (List.splitOnP_ne_nil _ cs)
      | cons w ws => rfl

theorem not_mem_of_mem_splitRunes (sep : Char) (cs : List Char) :
    ∀ p ∈ splitRunes sep cs, sep ∉ p := by
  induction cs with
  | nil => intro p hp; simp [splitRunes] at hp; simp [hp]
  | cons c cs ih =>
    intro p hp
    simp only [splitRunes] at hp
    by_cases h : c = sep
    · simp only [h, if_true, List.mem_cons] at hp
      rcases hp with rfl | hp
      · simp
      · exact ih p hp
    · simp only [h, if_false] at hp
      cases hs : splitRunes sep cs with
      | nil => simp [hs] at hp; simp [hp, Ne.symm h]
      | cons w ws =>
        rw [hs] at ih
        simp only [hs, List.mem_cons] at hp
        rcases hp with rfl | hp
        · have := ih w (List.mem_cons_self _ _)
          simp [this, Ne.symm h]
        · exact ih p (List.mem_cons_of_mem _ hp)

theorem stringsSplit_eq_specEnumSplit (a : String) : stringsSplit a ';' = specEnumSplit a := by
  simp [stringsSplit, specEnumSplit, splitRunes_eq_splitOn]

/-- The pieces of the split, joined with `;`, are the text, and no piece holds a `;`. -/
theorem specEnumSplit_spec (a : String) :
    [';'].intercalate ((specEnumSplit a).map String.data) = a.data ∧
    (∀ p ∈ specEnumSplit a, ';' ∉ p.data) ∧ specEnumSplit a ≠ [] := by
  have hmap : (specEnumSplit a).map String.data = a.data.splitOn ';' := by
    simp [specEnumSplit, List.map_map, Function.comp_def]
  refine ⟨?_, ?_, ?_⟩
  · rw [hmap]
    exact List.intercalate_splitOn a.data ';'
  · intro p hp
    have hp' : p.data ∈ a.data.splitOn ';' := by
      rw [← hmap]
      exact List.mem_map_of_mem _ hp
    rw [← splitRunes_eq_splitOn] at hp'
    exact not_mem_of_mem_splitRunes ';' a.data p.data hp'
  · intro h
    have : (specEnumSplit a).map String.data = [] := by rw [h]; rfl
    rw [hmap] at this
    exact List.splitOnP_ne_nil _ _ this

theorem attrs_modify (f : SchemaAttrs → SchemaAttrs) (s : Schema) :
    (s.modify f).attrs = f s.attrs := by
  cases s; rfl

theorem applyDocTagField_enum_preserved (env : Env) (fn : String) (st st' : Schema × Schema)
    (kv : String × String) (hkey : kv.1 ≠ DocTagFieldEnum)
    (h : applyDocTagField env fn st kv = .ok st') : st'.2.attrs.Enum = st.2.attrs.Enum := by
  obtain ⟨key, arg⟩ := kv
  obtain ⟨o, s⟩ := st
  simp only [DocTagFieldEnum] at hkey
  rcases docTagField_cases key with
    rfl | rfl | rfl | rfl | rfl | rfl | rfl | rfl | rfl | rfl | rfl | rfl | hne
  case inr.inr.inr.inr.inr.inr.inr.inl => exact absurd rfl hkey
  case inr.inr.inr.inr.inr.inr.inr.inr.inr.inr.inr.inr =>
    obtain ⟨h1, h2, h3, h4, h5, h6, h7, h8, h9, h10, h11, h12⟩ := hne
    simp [applyDocTagField, DocTagFieldMaxItems, DocTagFieldMinItems,
      DocTagFieldNullable, DocTagFieldRequired, DocTagFieldFormat, DocTagFieldPattern,
      DocTagFieldDescription, DocTagFieldEnum, DocTagFieldStringMaxLength, DocTagFieldMaximum,
      DocTagFieldStringMinLength, DocTagFieldMinimum,
      h1, h2, h3, h4, h5, h6, h7, h8, h9, h10, h11, h12] at h
    rw [← h]
  all_goals
    simp only [applyDocTagField, DocTagFieldMaxItems, DocTagFieldMinItems,
      DocTagFieldNullable, DocTagFieldRequired, DocTagFieldFormat, DocTagFieldPattern,
      DocTagFieldDescription, DocTagFieldEnum, DocTagFieldStringMaxLength, DocTagFieldMaximum,
      DocTagFieldStringMinLength, DocTagFieldMinimum, String.reduceEq, if_true, if_false,
      reduceIte] at h
  all_goals
    try split at h
  all_goals
    try simp only [bind, Except.bind] at h
  all_goals
    try split at h
  all_goals
    cases h <;> simp [attrs_modify]

theorem foldlM_enum_preserved (env : Env) (fn : String) (kvs : List (String × String))
    (hkeys : ∀ kv ∈ kvs, kv.1 ≠ DocTagFieldEnum) :
    ∀ st st' : Schema × Schema, kvs.foldlM (applyDocTagField env fn) st = .ok st' →
      st'.2.attrs.Enum = st.2.attrs.Enum := by
  induction kvs with
  | nil =>
    intro st st' h
    simp only [List.foldlM_nil, pure, Except.pure, Except.ok.injEq] at h
    rw [h]
  | cons kv rest ih =>
    intro st st' h
    simp only [List.foldlM_cons, bind, Except.bind] at h
    cases h1 : applyDocTagField env fn st kv with
    | error e => simp [h1] at h
    | ok st1 =>
      simp only [h1] at h
      rw [ih (fun kv' hkv' => hkeys kv' (List.mem_cons_of_mem _ hkv')) st1 st' h,
        applyDocTagField_enum_preserved env fn st st1 kv (hkeys kv (List.mem_cons_self _ _)) h1]

/-- The enum list after the directives, when `enum(a)` is the last enum directive. -/
theorem applyDocTag_enum (env : Env) (fn a : String) (kvs1 kvs2 : List (String × String))
    (child s : Schema) (hlast : ∀ kv ∈ kvs2, kv.1 ≠ DocTagFieldEnum)
    (h : applyDocTag env fn (kvs1 ++ (DocTagFieldEnum, a) :: kvs2) child = .ok s) :
    (mapGet env.Refs a = none → s.attrs.Enum = (stringsSplit a ';').map stringValue) ∧
    (∀ L, mapGet env.Refs a = some (some (.slice "[]interface {}" L)) → s.attrs.Enum = L) := by
  unfold applyDocTag at h
  simp only [List.foldlM_append, List.foldlM_cons, bind, Except.bind] at h
  cases h1 : kvs1.foldlM (applyDocTagField env fn) (NewObjectSchema, child) with
  | error e => simp [h1, Except.map] at h
  | ok st1 =>
    simp only [h1] at h
    cases h2 : applyDocTagField env fn st1 (DocTagFieldEnum, a) with
    | error e => simp [h2, Except.map] at h
    | ok st2 =>
      simp only [h2] at h
      cases h3 : kvs2.foldlM (applyDocTagField env fn) st2 with
      | error e => simp [h3, Except.map] at h
      | ok st3 =>
        simp only [h3, Except.map, Except.ok.injEq] at h
        subst h
        rw [foldlM_enum_preserved env fn kvs2 hlast st2 st3 h3]
        simp only [applyDocTagField, DocTagFieldMaxItems, DocTagFieldMinItems,
          DocTagFieldNullable, DocTagFieldRequired, DocTagFieldFormat, DocTagFieldPattern,
          DocTagFieldDescription, DocTagFieldEnum, String.reduceEq, if_true, if_false,
          reduceIte] at h2
        constructor
        · intro hnone
          simp only [hnone, Except.ok.injEq] at h2
          rw [← h2]
          simp [attrs_modify]
        · intro L hL
          simp only [hL, assertInterfaceSlice, if_true, bind, Except.bind,
            Except.ok.injEq] at h2
          rw [← h2]
          simp [attrs_modify]

theorem parseDocTag_empty : parseDocTag "" = .ok [] := by
  decide

/-- C8, as the code has it. In a struct on which inference succeeds, take a wire-named,
annotated field that is not a flattened embedded struct and whose value is not a nil
interface, whose directive list has `enum(a)` as its last enum directive, and whose wire
name no later field declares again. Then the sub-schema stored under the wire name has, when
`a` is no key of `Refs`, the enum list of the pieces of the split of `a` at every `;`, as
strings and in order (the pieces joined with `;` are `a`, no piece holds a `;`, and
`val3;val4` gives `val3` and `val4`); and when `a` is registered in `Refs` with the list `L`,
exactly the enum list `L`. -/
theorem extractSchema_enum (env : Env) (ty : String)
    (pre post : List (StructField × Slot Value)) (f : StructField) (v : Slot Value)
    (n a : String) (kvs1 kvs2 : List (String × String)) (node : Schema)
    (hflat : ¬ (v.Kind = .Struct ∧ f.Anonymous = true)) (hname : wireName f = some n)
    (hparse : parseDocTag f.doc = .ok (kvs1 ++ (DocTagFieldEnum, a) :: kvs2))
    (hlast : ∀ kv ∈ kvs2, kv.1 ≠ DocTagFieldEnum) (hval : v ≠ .iface none)
    (hpost : ∀ nodeP, extractSchema env (some (.struct ty post)) = .ok (some nodeP) →
      mapGet nodeP.Properties n = none)
    (hok : extractSchema env (some (.struct ty (pre ++ (f, v) :: post))) = .ok (some node)) :
    ∃ s, mapGet node.Properties n = some s ∧
      (mapGet env.Refs a = none → s.attrs.Enum = (specEnumSplit a).map stringValue) ∧
      (∀ L, mapGet env.Refs a = some (some (.slice "[]interface {}" L)) →
        s.attrs.Enum = L) ∧
      [';'].intercalate ((specEnumSplit a).map String.data) = a.data ∧
      (∀ p ∈ specEnumSplit a, ';' ∉ p.data) ∧ specEnumSplit a ≠ [] ∧
      specEnumSplit "val3;val4" = ["val3", "val4"] := by
  have hdoc : f.doc ≠ "" := by
    intro h0
    rw [h0, parseDocTag_empty] at hparse
    cases kvs1 <;> simp at hparse
  obtain ⟨x, child, kvs, s, nodePre, nodePost, _, _, hp, happly, _, hpostok, _, hget⟩ :=
    extractSchema_field env ty pre post f v n node hflat hname hdoc hval hok
  rw [hparse] at hp
  cases hp
  obtain ⟨h1, h2⟩ := applyDocTag_enum env n a kvs1 kvs2 child s hlast happly
  obtain ⟨s1, s2, s3⟩ := specEnumSplit_spec a
  refine ⟨s, hget (hpost nodePost hpostok), ?_, h2, s1, s2, s3, by decide⟩
  intro hnone
  rw [h1 hnone, stringsSplit_eq_specEnumSplit]

theorem assertString_ok (val : Option Value) (str : String)
    (h : assertString val = .ok str) : val = some (.scalar "string" (.string str)) := by
  unfold assertString at h
  split at h
  · split_ifs at h with hty
    cases h
    rw [hty]
  · cases h

theorem resolveRef_of_assert (env : Env) (x : String) (val : Option Value) (str : String)
    (hget : mapGet env.Refs x = some val) (h : assertString val = .ok str) :
    resolveRef env x = str := by
  rw [assertString_ok val str h] at hget
  simp [resolveRef, hget]

theorem resolveRef_of_none (env : Env) (x : String) (hget : mapGet env.Refs x = none) :
    resolveRef env x = x := by
  simp [resolveRef, hget]

/-- The directives `required desc(D) pattern(P)` set the description and the pattern. -/
theorem applyDocTag_required_desc_pattern (env : Env) (fn D P : String) (child s : Schema)
    (h : applyDocTag env fn
      [(DocTagFieldRequired, ""), (DocTagFieldDescription, D), (DocTagFieldPattern, P)] child
        = .ok s) :
    s = child.modify fun a =>
      { a with Description := resolveRef env D, Pattern := resolveRef env P } := by
  simp only [applyDocTag, List.foldlM_cons, List.foldlM_nil, applyDocTagField,
    DocTagFieldMaxItems, DocTagFieldMinItems, DocTagFieldNullable, DocTagFieldRequired,
    DocTagFieldFormat, DocTagFieldPattern, DocTagFieldDescription, String.reduceEq, if_true,
    if_false, reduceIte, bind, Except.bind, pure, Except.pure] at h
  cases hD : mapGet env.Refs D with
  | none =>
    rw [resolveRef_of_none env D hD]
    simp only [hD] at h
    cases hP : mapGet env.Refs P with
    | none =>
      rw [resolveRef_of_none env P hP]
      simp only [hP, Except.map, Except.ok.injEq] at h
      rw [← h]; cases child; rfl
    | some valP =>
      simp only [hP] at h
      cases haP : assertString valP with
      | error e => simp [haP, Except.map] at h
      | ok strP =>
        rw [resolveRef_of_assert env P valP strP hP haP]
        simp only [haP, Except.map, Except.ok.injEq] at h
        rw [← h]; cases child; rfl
  | some valD =>
    simp only [hD] at h
    cases haD : assertString valD with
    | error e => simp [haD, Except.map] at h
    | ok strD =>
      rw [resolveRef_of_assert env D valD strD hD haD]
      simp only [haD] at h
      cases hP : mapGet env.Refs P with
      | none =>
        rw [resolveRef_of_none env P hP]
        simp only [hP, Except.map, Except.ok.injEq] at h
        rw [← h]; cases child; rfl
      | some valP =>
        simp only [hP] at h
        cases haP : assertString valP with
        | error e => simp [haP, Except.map] at h
        | ok strP =>
          rw [resolveRef_of_assert env P valP strP hP haP]
          simp only [haP, Except.map, Except.ok.injEq] at h
          rw [← h]; cases child; rfl

theorem extractSchema_struct_nil_props (env : Env) (ty n : String) :
    ∀ nodeP, extractSchema env (some (.struct ty [])) = .ok (some nodeP) →
      mapGet nodeP.Properties n = none := by
  intro nodeP h
  have h0 : extractSchema env (some (.struct ty [])) = .ok (some NewObjectSchema) := by
    rw [extractSchema_struct]; rfl
  rw [h0] at h
  cases h
  rfl

theorem extractSchema_enum_witness :
    (∃ s, mapGet sampleEnumSchema.Properties "test2" = some s ∧
      s.attrs.Enum = [stringValue "val3", stringValue "val4"]) ∧
    (∃ s, mapGet sampleLiteralEnumSchema.Properties "outerstr" = some s ∧
      s.attrs.Enum = (specEnumSplit "val3;val4").map stringValue ∧
      specEnumSplit "val3;val4" = ["val3", "val4"]) := by
  obtain ⟨s, h1, _, h3, _⟩ := extractSchema_enum sampleEnv "T" [] [] sampleEnumField.1
    sampleEnumField.2 "test2" "#EnumTest2Field" [("required", "")]
    [("desc", "#DescTest2Field")] sampleEnumSchema (by decide) (by decide) (by decide)
    (by decide) (by simp [sampleEnumField])
    (extractSchema_struct_nil_props sampleEnv "T" "test2") (by rfl)
  obtain ⟨t, g1, g2, _, _, _, _, g7⟩ := extractSchema_enum sampleEnv "T" [] []
    sampleLiteralEnumField.1 sampleLiteralEnumField.2 "outerstr" "val3;val4"
    [("required", "")] [] sampleLiteralEnumSchema (by decide) (by decide) (by decide)
    (by decide) (by simp [sampleLiteralEnumField])
    (extractSchema_struct_nil_props sampleEnv "T" "outerstr") (by rfl)
  exact ⟨⟨s, h1, h3 _ rfl⟩, ⟨t, g1, g2 (by rfl), g7⟩⟩

/-- C8, counterexample. Two wire-named fields annotated `enum(val3;val4)`, with no key in
the reference table. The first is unexported: its value infers to a node, and inference of
the struct panics in `val.Interface()`. The second is an embedded struct: it is flattened,
its tags are not read, and nothing is stored under its wire name. -/
theorem extractSchema_enum_fails :
    wireName sampleUnexportedEnumField.1 = some "outerstr" ∧
    parseDocTag sampleUnexportedEnumField.1.doc = .ok [(DocTagFieldEnum, "val3;val4")] ∧
    extractSchema emptyEnv (some (str "val3"))
      = .ok (some (.leaf { type := .string, Example := some (str "val3") })) ∧
    extractSchema emptyEnv (some (.struct "T" [sampleUnexportedEnumField]))
      = .error .reflect ∧
    wireName sampleEmbeddedEnumField.1 = some "embed" ∧
    parseDocTag sampleEmbeddedEnumField.1.doc = .ok [(DocTagFieldEnum, "val3;val4")] ∧
    extractSchema emptyEnv (some (.struct "T" [sampleEmbeddedEnumField]))
      = .ok (some NewObjectSchema) ∧
    mapGet NewObjectSchema.Properties "embed" = none := by
  refine ⟨by decide, by rfl, by rfl, by rfl, by decide, by rfl, by rfl, by rfl⟩

theorem doc_required_desc_pattern (D P : String) :
    "required desc(" ++ D ++ ") pattern(" ++ P ++ ")"
      = renderTag [(true, DocTagFieldRequired, ""), (false, DocTagFieldDescription, D),
          (false, DocTagFieldPattern, P)] := by
  apply String.ext
  simp [renderTag, joinSpace, renderDirective, DocTagFieldRequired, DocTagFieldDescription,
    DocTagFieldPattern, String.data_append]

/-- C9, as the code has it. In a struct on which inference succeeds, take a non-embedded field
of wire name `n` that no later field declares again, whose value is not a nil interface and
whose annotation is `required desc(D) pattern(P)` with `D` and `P` of balanced parentheses
and without backslash. Then the value of the field infers to a node `child`, the struct's
node has under `n` the node `child` with description `resolveRef D` and pattern
`resolveRef P` and everything else (kind, example, required list) as inferred, and `n` is
appended to the required list of the struct's node, between the names of the fields before
and those of the fields after. -/
theorem extractSchema_required_desc_pattern (env : Env) (ty : String)
    (pre post : List (StructField × Slot Value)) (f : StructField) (v : Slot Value)
    (n D P : String) (node : Schema)
    (hanon : f.Anonymous = false) (hname : wireName f = some n)
    (hdoc : f.doc = "required desc(" ++ D ++ ") pattern(" ++ P ++ ")")
    (hD : ValidValue D) (hP : ValidValue P) (hval : v ≠ .iface none)
    (hpost : ∀ nodeP, extractSchema env (some (.struct ty post)) = .ok (some nodeP) →
      mapGet nodeP.Properties n = none)
    (hok : extractSchema env (some (.struct ty (pre ++ (f, v) :: post))) = .ok (some node)) :
    ∃ (x : Value) (child nodePre nodePost : Schema),
      v.Interface f = .ok (some x) ∧ extractSchema env (some x) = .ok (some child) ∧
      extractSchema env (some (.struct ty pre)) = .ok (some nodePre) ∧
      extractSchema env (some (.struct ty post)) = .ok (some nodePost) ∧
      mapGet node.Properties n = some (child.modify fun a =>
        { a with Description := resolveRef env D, Pattern := resolveRef env P }) ∧
      node.attrs.Required = nodePre.attrs.Required ++ [n] ++ nodePost.attrs.Required := by
  have hparse : parseDocTag f.doc = .ok [(DocTagFieldRequired, ""),
      (DocTagFieldDescription, D), (DocTagFieldPattern, P)] := by
    rw [hdoc, doc_required_desc_pattern]
    apply parseDocTag_renderTag
    · simp
    · intro d hd
      simp only [List.mem_cons, List.mem_singleton, List.not_mem_nil, or_false] at hd
      rcases hd with rfl | rfl | rfl
      · exact ⟨by decide, by decide, fun _ => rfl⟩
      · exact ⟨(by decide : ValidKey "desc"), hD, fun h => by cases h⟩
      · exact ⟨(by decide : ValidKey "pattern"), hP, fun h => by cases h⟩
    · simp [LastNotBare]
  have hne : f.doc ≠ "" := by
    intro h0
    rw [h0, parseDocTag_empty] at hparse
    cases hparse
  have hflat : ¬ (v.Kind = .Struct ∧ f.Anonymous = true) := by simp [hanon]
  obtain ⟨x, child, kvs, s, nodePre, nodePost, hx, hchild, hp, happly, hpre, hpostok, hreq,
    hget⟩ := extractSchema_field env ty pre post f v n node hflat hname hne hval hok
  rw [hparse] at hp
  cases hp
  have hs := applyDocTag_required_desc_pattern env n D P child s happly
  subst hs
  refine ⟨x, child, nodePre, nodePost, hx, hchild, hpre, hpostok,
    hget (hpost nodePost hpostok), ?_⟩
  rw [hreq]
  simp [requiredNames, DocTagFieldRequired, DocTagFieldDescription, DocTagFieldPattern]

theorem extractSchema_required_desc_pattern_witness :
    ∃ (x : Value) (child nodePre nodePost : Schema),
      sampleDescField.2.Interface sampleDescField.1 = .ok (some x) ∧
      extractSchema sampleEnv (some x) = .ok (some child) ∧
      extractSchema sampleEnv (some (.struct "T" [])) = .ok (some nodePre) ∧
      extractSchema sampleEnv (some (.struct "T" [])) = .ok (some nodePost) ∧
      mapGet sampleDescSchema.Properties "str" = some (child.modify fun a =>
        { a with Description := resolveRef sampleEnv "test()",
                 Pattern := resolveRef sampleEnv "^[A-Z](.*)" }) ∧
      sampleDescSchema.attrs.Required
        = nodePre.attrs.Required ++ ["str"] ++ nodePost.attrs.Required :=
  extractSchema_required_desc_pattern sampleEnv "T" [] [] sampleDescField.1
    sampleDescField.2 "str" "test()" "^[A-Z](.*)" sampleDescSchema rfl (by decide) rfl
    (by decide) (by decide) (by simp [sampleDescField])
    (extractSchema_struct_nil_props sampleEnv "T" "str") (by rfl)

/-- C9, counterexample. The annotation `required desc(\(\)) pattern(x)` has arguments with
balanced parentheses; inference succeeds, and the description stored is `()`, which is not
the argument `\(\)` (no key of the empty reference table). -/
theorem extractSchema_desc_backslash :
    Balanced "\\(\\)" ∧ Balanced "x" ∧
    extractSchema emptyEnv (some (.struct "T" [
        ({ Name := "Str", json := "str", doc := "required desc(\\(\\)) pattern(x)" },
          .conc (str "test"))]))
      = .ok (some (.mk { type := .object, Required := ["str"] } none
          [("str", .leaf {
              type := .string
              Example := some (str "test")
              Description := "()"
              Pattern := "x" })])) ∧
    resolveRef emptyEnv "\\(\\)" = "\\(\\)" ∧ ("()" : String) ≠ "\\(\\)" := by
  refine ⟨by decide, by decide, rfl, rfl, by decide⟩

/-! ## Theorems: the reference table -/

theorem DocDefineRef_keeps (Refs : List (String × Option Value)) (key : String)
    (val : Option Value) (k : String) (v : Option Value) (h : mapGet Refs k = some v) :
    mapGet (DocDefineRef Refs key val).1 k = some v := by
  unfold DocDefineRef
  split_ifs with hin
  · exact h
  · simp only [mapGet_mapSet]
    split_ifs with hk
    · subst hk
      rw [h] at hin
      simp at hin
    · exact h

/-- C13. Reference table registration: `DocDefineRef(key, val)` panics exactly when `key` is
in the table; when it panics the table is unchanged; when it returns, the lookup of `key`
gives `val` and the entry of every other key is unchanged; so an entry once registered is
the same after any later sequence of registrations. -/
theorem DocDefineRef_write_once :
    (∀ (Refs : List (String × Option Value)) (key : String) (val : Option Value),
      ((∃ e, (DocDefineRef Refs key val).2 = .error e) ↔ (mapGet Refs key).isSome = true)) ∧
    (∀ (Refs : List (String × Option Value)) (key : String) (val : Option Value) (e : Panic),
      (DocDefineRef Refs key val).2 = .error e → (DocDefineRef Refs key val).1 = Refs) ∧
    (∀ (Refs : List (String × Option Value)) (key : String) (val : Option Value),
      (DocDefineRef Refs key val).2 = .ok () →
        mapGet (DocDefineRef Refs key val).1 key = some val ∧
        ∀ k, k ≠ key → mapGet (DocDefineRef Refs key val).1 k = mapGet Refs k) ∧
    (∀ (Refs calls : List (String × Option Value)) (k : String) (v : Option Value),
      mapGet Refs k = some v → mapGet (registerAll Refs calls) k = some v) := by
  refine ⟨?_, ?_, ?_, ?_⟩
  · intro Refs key val
    unfold DocDefineRef
    split_ifs with hin <;> simp [hin]
  · intro Refs key val e h
    by_cases hin : (mapGet Refs key).isSome = true
    · simp [DocDefineRef, hin]
    · simp [DocDefineRef, hin] at h
  · intro Refs key val h
    by_cases hin : (mapGet Refs key).isSome = true
    · simp [DocDefineRef, hin] at h
    · simp only [DocDefineRef, hin, if_false, Bool.false_eq_true]
      refine ⟨by simp [mapGet_mapSet], ?_⟩
      intro k hk
      simp [mapGet_mapSet, Ne.symm hk]
  · intro Refs calls
    induction calls generalizing Refs with
    | nil => intro k v h; exact h
    | cons call rest ih =>
      intro k v h
      exact ih _ k v (DocDefineRef_keeps Refs call.1 call.2 k v h)

theorem DocDefineRef_write_once_witness :
    (∃ e, (DocDefineRef sampleEnv.Refs "#DescTest2Field" (stringValue "other")).2
      = .error e) ∧
    (DocDefineRef sampleEnv.Refs "#DescTest2Field" (stringValue "other")).1 = sampleEnv.Refs ∧
    mapGet (DocDefineRef [] "#K" (stringValue "v")).1 "#K" = some (stringValue "v") ∧
    mapGet (registerAll sampleEnv.Refs [("#DescTest2Field", stringValue "other"),
        ("#New", none)]) "#DescTest2Field" = some (stringValue "test2 field") :=
  ⟨(DocDefineRef_write_once.1 sampleEnv.Refs "#DescTest2Field" (stringValue "other")).2
      (by decide),
   DocDefineRef_write_once.2.1 sampleEnv.Refs "#DescTest2Field" (stringValue "other")
      .refExists (by decide),
   (DocDefineRef_write_once.2.2.1 [] "#K" (stringValue "v") (by decide)).1,
   DocDefineRef_write_once.2.2.2 sampleEnv.Refs _ "#DescTest2Field"
      (stringValue "test2 field") (by rfl)⟩

/-! ## Theorems: the kind extractor -/

theorem Scalar.Kind_ne_Ptr (sc : Scalar) : sc.Kind ≠ .Ptr := by
  cases sc with
  | bool b => simp [Scalar.Kind]
  | int k n => cases k <;> simp [Scalar.Kind]
  | uint k n => cases k <;> simp [Scalar.Kind]
  | float k x => cases k <;> simp [Scalar.Kind]
  | string s => simp [Scalar.Kind]
  | other k => cases k <;> simp [Scalar.Kind]

theorem extractOpenAPIType_isSome (x : Value) (k : Kind) :
    (extractOpenAPIType x k).isSome = true ↔
      (x.TypeOf.Kind ≠ .Ptr ∧ x.TypeOf.Kind = k) ∨
      (x.TypeOf.Kind = .Ptr ∧ x.ElemType.Kind = k) := by
  simp only [extractOpenAPIType]
  by_cases hp : x.TypeOf.Kind = .Ptr
  · by_cases he : x.ElemType.Kind = k <;> simp [hp, he]
  · by_cases hk : x.TypeOf.Kind = k
    · have hkp : ¬ k = .Ptr := hk ▸ hp
      simp [hp, hk, hkp]
    · simp [hp, hk]

theorem extractOpenAPIType_eq_none (x : Value) (k : Kind) (h : x.derefKind ≠ k) :
    extractOpenAPIType x k = none := by
  simp only [Value.derefKind] at h
  simp only [extractOpenAPIType]
  by_cases hp : x.TypeOf.Kind = .Ptr
  · simp only [hp, if_true] at h ⊢
    simp [h]
  · simp only [hp, if_false] at h ⊢
    simp [h]

theorem extractOpenAPIType_eq_some (x : Value) (k : Kind) (h : x.derefKind = k) :
    extractOpenAPIType x k = some
      { type := if x.TypeOf.Kind = .Ptr then x.ElemType else x.TypeOf, Value := x.deref } := by
  simp only [Value.derefKind] at h
  simp only [extractOpenAPIType, Value.deref]
  by_cases hp : x.TypeOf.Kind = .Ptr
  · simp only [hp, if_true] at h ⊢
    simp [h]
  · simp only [hp, if_false] at h ⊢
    simp [h]

/-- C14. Kind extractor: for a non-nil value `x` and a target kind `k`, `extractOpenAPIType`
is present exactly when `x` is no pointer and of kind `k`, or a pointer whose element type
is of kind `k`; a value of a named type classifies by its underlying kind, whatever the
name; when present, the returned value is `x` itself for a non-pointer and the pointed-to
value for a (non-nil) pointer; the probes of `"test"`, of a pointer to it, and of
`TypeString("test")`, `TypeInt(1)`, `TypeBool(true)` return these values of their own type.
A mismatch is the absent result: the function has no panic. -/
theorem extractOpenAPIType_classifies :
    (∀ (x : Value) (k : Kind), (extractOpenAPIType x k).isSome = true ↔
      (x.TypeOf.Kind ≠ .Ptr ∧ x.TypeOf.Kind = k) ∨
      (x.TypeOf.Kind = .Ptr ∧ x.ElemType.Kind = k)) ∧
    (∀ (ty : String) (sc : Scalar) (k : Kind),
      (extractOpenAPIType (.scalar ty sc) k).isSome = true ↔ sc.Kind = k) ∧
    (∀ (x : Value) (k : Kind) (vh : valHolder), extractOpenAPIType x k = some vh →
      x.TypeOf.Kind ≠ .Ptr → vh.Value = some x) ∧
    (∀ (t : Value) (k : Kind) (vh : valHolder), extractOpenAPIType (.ptr t) k = some vh →
      vh.Value = some t) ∧
    (extractString (str "test")).map (fun vh => vh.Value) = some (some (str "test")) ∧
    (extractString (.ptr (str "test"))).map (fun vh => vh.Value) = some (some (str "test")) ∧
    (extractString (.scalar "ginx.TypeString" (.string "test"))).map (fun vh => vh.Value)
      = some (some (.scalar "ginx.TypeString" (.string "test"))) ∧
    (extractInteger (.scalar "ginx.TypeInt" (.int .Int 1))).map (fun vh => vh.Value)
      = some (some (.scalar "ginx.TypeInt" (.int .Int 1))) ∧
    (extractBoolean (.scalar "ginx.TypeBool" (.bool true))).map (fun vh => vh.Value)
      = some (some (.scalar "ginx.TypeBool" (.bool true))) := by
  refine ⟨extractOpenAPIType_isSome, ?_, ?_, ?_, rfl, rfl, rfl, rfl, rfl⟩
  · intro ty sc k
    rw [extractOpenAPIType_isSome]
    have hne := Scalar.Kind_ne_Ptr sc
    simp [Value.TypeOf, hne]
  · intro x k vh h hp
    simp only [extractOpenAPIType, hp, if_false] at h
    split_ifs at h
    cases h
    rfl
  · intro t k vh h
    simp only [extractOpenAPIType, Value.TypeOf, if_true] at h
    split_ifs at h
    cases h
    rfl

theorem extractOpenAPIType_classifies_witness :
    (extractOpenAPIType (.ptr (str "test")) .String).isSome = true ∧
    (extractOpenAPIType (.scalar "ginx.TypeInt" (.int .Int64 1)) .Int64).isSome = true ∧
    (extractOpenAPIType (.scalar "ginx.TypeInt" (.int .Int64 1)) .Int).isSome = false :=
  ⟨(extractOpenAPIType_classifies.1 (.ptr (str "test")) .String).2 (Or.inr ⟨rfl, rfl⟩),
   (extractOpenAPIType_classifies.2.1 "ginx.TypeInt" (.int .Int64 1) .Int64).2 rfl,
   by
    have h := (extractOpenAPIType_classifies.2.1 "ginx.TypeInt" (.int .Int64 1) .Int).not
    simpa [Scalar.Kind] using h⟩

/-! ## Theorems: unsupported prototypes, primitive leaves, file uploads -/

/-- C15. Unsupported prototypes are fatal: for a non-nil prototype whose kind, after at most
one pointer dereference, is none of the recognized kinds (string, signed integers, floats,
boolean, map, slice, struct), `extractSchema` panics with "not supported" and returns no
node. -/
theorem extractSchema_unsupported (env : Env) (x : Value)
    (h : x.derefKind ∉ recognizedKinds) :
    extractSchema env (some x) = .error .notSupported := by
  simp only [recognizedKinds, List.mem_cons, List.mem_singleton, List.not_mem_nil, or_false,
    not_or] at h
  obtain ⟨h1, h2, h3, h4, h5, h6, h7, h8, h9, h10, h11, h12⟩ := h
  rw [extractSchema_eq]
  simp only [extractSchemaStep, extractFileHeader, extractString, extractInteger,
    extractNumber, extractBoolean, extractMap, extractArray, extractStruct,
    extractOpenAPIType_eq_none x _ h1, extractOpenAPIType_eq_none x _ h2,
    extractOpenAPIType_eq_none x _ h3, extractOpenAPIType_eq_none x _ h4,
    extractOpenAPIType_eq_none x _ h5, extractOpenAPIType_eq_none x _ h6,
    extractOpenAPIType_eq_none x _ h7, extractOpenAPIType_eq_none x _ h8,
    extractOpenAPIType_eq_none x _ h9, extractOpenAPIType_eq_none x _ h10,
    extractOpenAPIType_eq_none x _ h11, extractOpenAPIType_eq_none x _ h12]

theorem extractSchema_unsupported_witness :
    extractSchema emptyEnv (some (.scalar "uint" (.uint .Uint 1))) = .error .notSupported ∧
    extractSchema emptyEnv (some (.ptr (.ptr (str "test")))) = .error .notSupported :=
  ⟨extractSchema_unsupported emptyEnv (.scalar "uint" (.uint .Uint 1)) (by decide),
   extractSchema_unsupported emptyEnv (.ptr (.ptr (str "test"))) (by decide)⟩

theorem extractSchema_primitive_aux (env : Env) (x : Value) (k : Kind) (T : SchemaType)
    (hk : x.derefKind = k) (h : primitiveSchemaType k = some T) :
    extractSchema env (some x) = .ok (some (.leaf { type := T, Example := x.deref })) := by
  rw [extractSchema_eq]
  have hnone : ∀ k', k' ≠ k → extractOpenAPIType x k' = none := fun k' hne =>
    extractOpenAPIType_eq_none x k' (by rw [hk]; exact hne.symm)
  have hsome := extractOpenAPIType_eq_some x k hk
  cases k <;> simp only [primitiveSchemaType, Option.some.injEq, reduceCtorEq] at h <;>
    subst h <;>
    simp [extractSchemaStep, extractFileHeader, extractString, extractInteger,
      extractNumber, extractBoolean, extractMap, extractArray, extractStruct, hnone, hsome]

/-- C16. Primitive leaves: for a prototype whose kind, directly, as a named type or behind
one pointer, is string, a signed integer, a float or boolean, `extractSchema` returns a leaf
node of kind string, integer, number or boolean, without properties, items and required
names; its example is the (dereferenced) value itself, and there is no example when the
prototype is a nil pointer. -/
theorem extractSchema_primitive (env : Env) (x : Value) (T : SchemaType)
    (h : primitiveSchemaType x.derefKind = some T) :
    extractSchema env (some x) = .ok (some (.leaf { type := T, Example := x.deref })) ∧
    (∀ e, x = .nilPtr e → x.deref = none) ∧
    (∀ t, x = .ptr t → x.deref = some t) ∧
    (x.TypeOf.Kind ≠ .Ptr → x.deref = some x) := by
  refine ⟨extractSchema_primitive_aux env x _ T rfl h, ?_, ?_, ?_⟩
  · intro e he; subst he; rfl
  · intro t ht; subst ht; rfl
  · intro hp; simp [Value.deref, hp]

theorem extractSchema_primitive_witness :
    (extractSchema emptyEnv (some (.scalar "ginx.TypeInt" (.int .Int 1)))
      = .ok (some (.leaf {
          type := .integer
          Example := (Value.scalar "ginx.TypeInt" (.int .Int 1)).deref }))) ∧
    (extractSchema emptyEnv (some (.nilPtr { Kind := .Float64 }))
      = .ok (some (.leaf {
          type := .number
          Example := (Value.nilPtr { Kind := .Float64 }).deref }))) ∧
    (Value.nilPtr { Kind := .Float64 }).deref = none :=
  ⟨(extractSchema_primitive emptyEnv (.scalar "ginx.TypeInt" (.int .Int 1)) .integer rfl).1,
   (extractSchema_primitive emptyEnv (.nilPtr { Kind := .Float64 }) .number rfl).1,
   (extractSchema_primitive emptyEnv (.nilPtr { Kind := .Float64 }) .number rfl).2.1 _ rfl⟩

/-- C17. File-upload precedence: for a `multipart.FileHeader`, a pointer to one, or a nil
pointer to one, `extractSchema` returns the string leaf with format `binary`, without
example and properties, although the kind of the value is struct and the struct probe would
match: the file probe comes first. -/
theorem extractSchema_fileHeader (env : Env) :
    extractSchema env (some .fileHeader)
      = .ok (some (.leaf { type := .string, Format := "binary" })) ∧
    extractSchema env (some (.ptr .fileHeader))
      = .ok (some (.leaf { type := .string, Format := "binary" })) ∧
    (∀ n,
      extractSchema env (some (.nilPtr { Kind := .Struct, isFileHeader := true, NumField := n }))
        = .ok (some (.leaf { type := .string, Format := "binary" }))) ∧
    Value.fileHeader.TypeOf.Kind = .Struct ∧
    (extractStruct .fileHeader).isSome = true ∧
    (extractStruct (.ptr .fileHeader)).isSome = true :=
  ⟨rfl, rfl, fun _ => rfl, rfl, rfl, rfl⟩

/-! ## Theorems: wire names -/

theorem splitRunes_head (sep : Char) (cs : List Char) :
    ∃ rest, splitRunes sep cs = (cs.takeWhile fun c => c ≠ sep) :: rest := by
  induction cs with
  | nil => exact ⟨[], rfl⟩
  | cons c cs ih =>
    obtain ⟨rest, hrest⟩ := ih
    by_cases hc : c = sep
    · exact ⟨splitRunes sep cs, by simp [splitRunes, hc]⟩
    · exact ⟨rest, by simp [splitRunes, hc, hrest]⟩

theorem firstPiece_stringsSplit (s : String) :
    firstPiece (stringsSplit s ',') = namePart s := by
  obtain ⟨rest, hrest⟩ := splitRunes_head ',' s.data
  simp [stringsSplit, hrest, firstPiece, namePart]

theorem length_eq_zero_iff_eq_empty (s : String) : s.length = 0 ↔ s = "" := by
  constructor
  · intro h
    by_contra hne
    exact length_ne_zero_of_ne_empty s hne h
  · intro h; subst h; rfl

theorem wireName_eq_specWireName (f : StructField) : wireName f = specWireName f := by
  simp only [wireName, specWireName, firstPiece_stringsSplit, usableName,
    length_eq_zero_iff_eq_empty, decide_eq_true_eq]
  by_cases a : namePart f.json = "" <;> by_cases b : namePart f.json = "-" <;>
    by_cases c : namePart f.form = "" <;> by_cases d : namePart f.form = "-" <;>
    simp_all

/-- The keys other than the wire name of a field are as in the struct without the field. -/
theorem extractSchema_field_frame (env : Env) (ty : String)
    (pre post : List (StructField × Slot Value)) (f : StructField) (v : Slot Value)
    (n : String) (node : Schema)
    (hflat : ¬ (v.Kind = .Struct ∧ f.Anonymous = true)) (hname : wireName f = some n)
    (hdoc : f.doc ≠ "") (hval : v ≠ .iface none)
    (hok : extractSchema env (some (.struct ty (pre ++ (f, v) :: post))) = .ok (some node)) :
    ∃ nodeW : Schema,
      extractSchema env (some (.struct ty (pre ++ post))) = .ok (some nodeW) ∧
      ∀ n', n' ≠ n → mapGet node.Properties n' = mapGet nodeW.Properties n' := by
  rw [extractSchema_struct_effect, fieldsEffect_append] at hok
  have hcons : fieldsEffect env ((f, v) :: post) =
      match fieldEffect env (f, v) with
      | .error e => .error e
      | .ok e1 =>
        match fieldsEffect env post with
        | .error e => .error e
        | .ok e2 => .ok (e1.1 ++ e2.1, e1.2 ++ e2.2) := rfl
  rw [hcons] at hok
  cases h1 : fieldsEffect env pre with
  | error e => simp [h1] at hok
  | ok e1 =>
    cases h2 : fieldEffect env (f, v) with
    | error e => simp [h1, h2] at hok
    | ok e2 =>
      cases h3 : fieldsEffect env post with
      | error e => simp [h1, h2, h3] at hok
      | ok e3 =>
        simp only [h1, h2, h3, Except.ok.injEq, Option.some.injEq] at hok
        subst hok
        obtain ⟨x, child, kvs, s, hx, hchild, hparse, happly, rfl⟩ :=
          fieldEffect_direct env f v n e2 hflat hname hdoc hval h2
        refine ⟨addEffect NewObjectSchema (e1.1 ++ e3.1, e1.2 ++ e3.2), ?_, ?_⟩
        · rw [extractSchema_struct_effect, fieldsEffect_append, h1, h3]
        · intro n' hn'
          show mapGet (mergeProperties [] (e1.2 ++ ([(n, s)] ++ e3.2))) n'
            = mapGet (mergeProperties [] (e1.2 ++ e3.2)) n'
          rw [mapGet_mergeProperties, mapGet_mergeProperties]
          simp only [List.reverse_append, mapGet_append, List.reverse_cons, List.reverse_nil,
            List.nil_append]
          have hn : mapGet [(n, s)] n' = none := by simp [mapGet, Ne.symm hn']
          rw [hn]
          cases mapGet e3.2.reverse n' <;> cases mapGet e1.2.reverse n' <;> rfl

/-- C11. Wire-name resolution: the wire name computed by `extractSchema` is the name part
of the json tag (the text before the first comma) when that is non-empty and not `-`,
otherwise the name part of the form tag when that is non-empty and not `-`, otherwise none.
In a struct on which inference succeeds, the sub-schema of a non-embedded annotated field
with a non-nil value is stored under that name (when no later field declares the name
again) and under no other key; and when both name parts are empty or `-` the field is
skipped entirely. -/
theorem extractSchema_wire_name :
    (∀ f : StructField, wireName f = specWireName f) ∧
    (∀ (env : Env) (ty : String) (pre post : List (StructField × Slot Value))
      (f : StructField) (v : Slot Value) (n : String) (node : Schema),
      f.Anonymous = false → f.doc ≠ "" → v ≠ .iface none → specWireName f = some n →
      (∀ nodeP, extractSchema env (some (.struct ty post)) = .ok (some nodeP) →
        mapGet nodeP.Properties n = none) →
      extractSchema env (some (.struct ty (pre ++ (f, v) :: post))) = .ok (some node) →
      (∃ (x : Value) (child : Schema) (kvs : List (String × String)) (s : Schema),
        v.Interface f = .ok (some x) ∧ extractSchema env (some x) = .ok (some child) ∧
        parseDocTag f.doc = .ok kvs ∧ applyDocTag env n kvs child = .ok s ∧
        mapGet node.Properties n = some s) ∧
      (∃ nodeW : Schema,
        extractSchema env (some (.struct ty (pre ++ post))) = .ok (some nodeW) ∧
        ∀ n', n' ≠ n → mapGet node.Properties n' = mapGet nodeW.Properties n')) ∧
    (∀ (env : Env) (ty : String) (pre post : List (StructField × Slot Value))
      (f : StructField) (v : Slot Value),
      f.Anonymous = false → specWireName f = none →
      extractSchema env (some (.struct ty (pre ++ (f, v) :: post)))
        = extractSchema env (some (.struct ty (pre ++ post)))) := by
  refine ⟨wireName_eq_specWireName, ?_, ?_⟩
  · intro env ty pre post f v n node hanon hdoc hval hname hpost hok
    rw [← wireName_eq_specWireName] at hname
    have hflat : ¬ (v.Kind = .Struct ∧ f.Anonymous = true) := by simp [hanon]
    obtain ⟨x, child, kvs, s, _, nodePost, hx, hchild, hp, happly, _, hpostok, _, hget⟩ :=
      extractSchema_field env ty pre post f v n node hflat hname hdoc hval hok
    exact ⟨⟨x, child, kvs, s, hx, hchild, hp, happly, hget (hpost nodePost hpostok)⟩,
      extractSchema_field_frame env ty pre post f v n node hflat hname hdoc hval hok⟩
  · intro env ty pre post f v hanon hname
    rw [← wireName_eq_specWireName] at hname
    rw [extractSchema_struct, extractSchema_struct,
      foldlM_skip env _ pre post f v hanon (Or.inr hname)]

/-- The field `StringField` of `UrlencodedFormRequest`, named by its form tag. -/
theorem extractSchema_wire_name_witness :
    wireName { Name := "F", json := "-", form := "stringField,omitempty", doc := "required" }
      = some "stringField" ∧
    (∃ s, mapGet (Schema.mk { type := .object, Required := ["stringField"] } none
        [("stringField", .leaf { type := .string, Example := some (str "a") })]).Properties
        "stringField" = some s) ∧
    extractSchema emptyEnv (some (.struct "T" ([] ++
        ({ Name := "F", json := "-", form := ",omitempty", doc := "required" },
          .conc (str "a")) :: [])))
      = extractSchema emptyEnv (some (.struct "T" ([] ++ []))) := by
  refine ⟨?_, ?_, ?_⟩
  · rw [extractSchema_wire_name.1]; decide
  · obtain ⟨⟨x, child, kvs, s, _, _, _, _, h⟩, _⟩ := extractSchema_wire_name.2.1 emptyEnv "T" [] []
      { Name := "F", json := "-", form := "stringField,omitempty", doc := "required" }
      (.conc (str "a")) "stringField"
      (.mk { type := .object, Required := ["stringField"] } none
        [("stringField", .leaf { type := .string, Example := some (str "a") })])
      rfl (by decide) (by simp) (by decide)
      (extractSchema_struct_nil_props emptyEnv "T" "stringField") (by rfl)
    exact ⟨s, h⟩
  · exact extractSchema_wire_name.2.2 emptyEnv "T" [] []
      { Name := "F", json := "-", form := ",omitempty", doc := "required" }
      (.conc (str "a")) rfl (by decide)

/-! ## Theorems: numeric directives -/

theorem digitVal_isSome (c : Char) (d : Nat) (h : digitVal c = some d) :
    '0' ≤ c ∧ c ≤ '9' := by
  unfold digitVal at h
  split_ifs at h with hc
  exact hc

theorem foldlM_digits (cs : List Char) :
    ∀ (acc n : Nat),
      cs.foldlM (fun acc c => (digitVal c).map fun d => acc * 10 + d) acc = some n →
      cs.all (fun c => decide ('0' ≤ c ∧ c ≤ '9')) = true := by
  induction cs with
  | nil => intro acc n _; rfl
  | cons c cs ih =>
    intro acc n h
    simp only [List.foldlM_cons] at h
    cases hd : digitVal c with
    | none => simp [hd] at h
    | some d =>
      simp only [hd, Option.map_some', Option.some_bind, Option.bind_eq_bind] at h
      have hc := digitVal_isSome c d hd
      simp only [List.all_cons, Bool.and_eq_true, decide_eq_true_eq]
      exact ⟨hc, ih _ n h⟩

theorem parseDecimal_isDigits (cs : List Char) (n : Nat) (h : parseDecimal cs = some n) :
    isDigits cs = true := by
  cases cs with
  | nil => simp [parseDecimal] at h
  | cons c cs =>
    simp only [parseDecimal] at h
    simp only [isDigits, Bool.and_eq_true, decide_eq_true_eq]
    exact ⟨by simp, foldlM_digits (c :: cs) 0 n h⟩

theorem parseDecimal_bind_isDigits (cs : List Char) (g : Nat → Option Int) (n : Int)
    (h : (parseDecimal cs).bind g = some n) : isDigits cs = true := by
  cases hp : parseDecimal cs with
  | none => simp [hp] at h
  | some m => exact parseDecimal_isDigits cs m hp

theorem ParseInt_isBase10 (s : String) (n : Int) (h : ParseInt s = some n) :
    IsBase10Integer s = true := by
  unfold ParseInt at h
  unfold IsBase10Integer
  generalize s.data = cs at h
  split at h
  · exact parseDecimal_bind_isDigits _ _ n h
  · exact parseDecimal_bind_isDigits _ _ n h
  · exact parseDecimal_bind_isDigits _ _ n h

theorem ParseInt_eq_none (s : String) (h : IsBase10Integer s = false) : ParseInt s = none := by
  cases hp : ParseInt s with
  | none => rfl
  | some n => rw [ParseInt_isBase10 s n hp] at h; cases h

theorem foldlM_error_of_mem {α β : Type} (f : β → α → Except Panic β) (l : List α) (a : α)
    (hmem : a ∈ l) (herr : ∀ b, ∃ e, f b a = .error e) :
    ∀ b, ∃ e, l.foldlM f b = .error e := by
  induction l with
  | nil => cases hmem
  | cons x rest ih =>
    intro b
    simp only [List.foldlM_cons, bind, Except.bind]
    rcases List.mem_cons.1 hmem with rfl | hmem
    · obtain ⟨e, he⟩ := herr b
      exact ⟨e, by rw [he]⟩
    · cases hx : f b x with
      | error e => exact ⟨e, rfl⟩
      | ok b' => exact ih hmem b'

/-- A directive with a numeric key and an argument that does not parse panics. -/
theorem applyDocTagField_notANumber (env : Env) (fn key arg : String)
    (h : (key ∈ [DocTagFieldMinItems, DocTagFieldMaxItems, DocTagFieldStringMaxLength,
          DocTagFieldStringMinLength] ∧ ParseInt arg = none) ∨
      (key ∈ [DocTagFieldMaximum, DocTagFieldMinimum] ∧ env.ParseFloat arg = none))
    (st : Schema × Schema) : ∃ e, applyDocTagField env fn st (key, arg) = .error e := by
  refine ⟨.notANumber, ?_⟩
  simp only [DocTagFieldMaxItems, DocTagFieldMinItems, DocTagFieldStringMaxLength,
    DocTagFieldStringMinLength, DocTagFieldMaximum, DocTagFieldMinimum, List.mem_cons,
    List.mem_singleton, List.not_mem_nil, or_false] at h
  rcases h with ⟨hk | hk | hk | hk, hp⟩ | ⟨hk | hk, hp⟩ <;> subst hk <;>
    simp [applyDocTagField, DocTagFieldMaxItems, DocTagFieldMinItems,
      DocTagFieldNullable, DocTagFieldRequired, DocTagFieldFormat, DocTagFieldPattern,
      DocTagFieldDescription, DocTagFieldEnum, DocTagFieldStringMaxLength, DocTagFieldMaximum,
      DocTagFieldStringMinLength, DocTagFieldMinimum, Atoi, hp]

theorem fieldEffect_error_of_directive (env : Env) (f : StructField) (v : Slot Value)
    (n : String) (kvs : List (String × String)) (kv : String × String)
    (hanon : f.Anonymous = false) (hname : wireName f = some n) (hval : v ≠ .iface none)
    (hparse : parseDocTag f.doc = .ok kvs) (hmem : kv ∈ kvs)
    (herr : ∀ st, ∃ e, applyDocTagField env n st kv = .error e) :
    ∃ e, fieldEffect env (f, v) = .error e := by
  have hdoc : f.doc ≠ "" := by
    intro h0
    rw [h0, parseDocTag_empty] at hparse
    cases hparse
    cases hmem
  have hlen := length_ne_zero_of_ne_empty f.doc hdoc
  simp only [fieldEffect, hanon, and_false, if_false, Bool.false_eq_true, hname, hlen]
  cases hq : v.Interface f with
  | error e => exact ⟨e, rfl⟩
  | ok q =>
    obtain ⟨x, rfl⟩ := interface_ne_none f v hval q hq
    simp only
    cases hx : extractSchema env (some x) with
    | error e => exact ⟨e, rfl⟩
    | ok sr =>
      cases sr with
      | none => exact absurd hx (extractSchema_some_ne_none env x)
      | some child =>
        simp only [hparse]
        obtain ⟨e, he⟩ := foldlM_error_of_mem (applyDocTagField env n) kvs kv hmem herr
          (NewObjectSchema, child)
        exact ⟨e, by simp [applyDocTag, he, Except.map]⟩

theorem digitVal_digitChar (d : Nat) (h : d < 10) : digitVal (digitChar d) = some d := by
  interval_cases d <;> decide

theorem foldlM_decimalNumeral (ds : List Nat) (h : ∀ d ∈ ds, d < 10) :
    ∀ acc : Nat,
      (ds.map digitChar).foldlM (fun acc c => (digitVal c).map fun d => acc * 10 + d) acc
        = some (acc * 10 ^ ds.length + Nat.ofDigits 10 ds.reverse) := by
  induction ds with
  | nil => intro acc; simp
  | cons d ds ih =>
    intro acc
    simp only [List.map_cons, List.foldlM_cons,
      digitVal_digitChar d (h d (List.mem_cons_self _ _)), Option.map_some',
      Option.some_bind, Option.bind_eq_bind]
    rw [ih (fun d' hd' => h d' (List.mem_cons_of_mem _ hd'))]
    simp only [List.length_cons, List.reverse_cons, Nat.ofDigits_append, Nat.ofDigits_singleton,
      List.length_reverse, Option.some.injEq]
    ring

theorem digitChar_ne_sign (d : Nat) (h : d < 10) : digitChar d ≠ '+' ∧ digitChar d ≠ '-' := by
  interval_cases d <;> decide

theorem ParseInt_decimalNumeral (ds : List Nat) (hne : ds ≠ []) (h : ∀ d ∈ ds, d < 10)
    (hlt : Nat.ofDigits 10 ds.reverse < 2 ^ 63) :
    ParseInt (decimalNumeral ds) = some ((Nat.ofDigits 10 ds.reverse : Nat) : Int) := by
  cases ds with
  | nil => exact absurd rfl hne
  | cons d rest =>
    have hsign := digitChar_ne_sign d (h d (List.mem_cons_self _ _))
    have hdec : parseDecimal ((d :: rest).map digitChar)
        = some (Nat.ofDigits 10 (d :: rest).reverse) := by
      have := foldlM_decimalNumeral (d :: rest) h 0
      simpa [parseDecimal] using this
    unfold ParseInt
    simp only [decimalNumeral]
    split
    · rename_i ds' heq
      simp only [List.map_cons, List.cons.injEq] at heq
      exact absurd heq.1 hsign.1
    · rename_i ds' heq
      simp only [List.map_cons, List.cons.injEq] at heq
      exact absurd heq.1 hsign.2
    · rw [hdec]
      show (if _ < 2 ^ 63 then _ else _) = _
      rw [if_pos hlt]

theorem uint64_natCast (n : Nat) (h : n < 2 ^ 63) : uint64 (n : Int) = n := by
  unfold uint64
  have h2 : (n : Int) % 2 ^ 64 = n := by
    apply Int.emod_eq_of_lt
    · exact Int.natCast_nonneg n
    · have : n < 2 ^ 64 := by omega
      exact_mod_cast this
  rw [h2]
  simp


/-! ## Theorems: what the directives leave as it is -/

/-- A directive changes no numeric bound other than the one it names. -/
theorem applyDocTagField_bounds_preserved (env : Env) (fn : String) (st st' : Schema × Schema)
    (kv : String × String) (h : applyDocTagField env fn st kv = .ok st') :
    (kv.1 ≠ DocTagFieldMinItems → st'.2.attrs.MinItems = st.2.attrs.MinItems) ∧
    (kv.1 ≠ DocTagFieldMaxItems → st'.2.attrs.MaxItems = st.2.attrs.MaxItems) ∧
    (kv.1 ≠ DocTagFieldStringMinLength → st'.2.attrs.MinLength = st.2.attrs.MinLength) ∧
    (kv.1 ≠ DocTagFieldStringMaxLength → st'.2.attrs.MaxLength = st.2.attrs.MaxLength) ∧
    (kv.1 ≠ DocTagFieldMinimum → st'.2.attrs.Min = st.2.attrs.Min) ∧
    (kv.1 ≠ DocTagFieldMaximum → st'.2.attrs.Max = st.2.attrs.Max) := by
  obtain ⟨key, arg⟩ := kv
  obtain ⟨o, s⟩ := st
  rcases docTagField_cases key with
    rfl | rfl | rfl | rfl | rfl | rfl | rfl | rfl | rfl | rfl | rfl | rfl | hne
  case inr.inr.inr.inr.inr.inr.inr.inr.inr.inr.inr.inr =>
    obtain ⟨h1, h2, h3, h4, h5, h6, h7, h8, h9, h10, h11, h12⟩ := hne
    simp [applyDocTagField, DocTagFieldMaxItems, DocTagFieldMinItems,
      DocTagFieldNullable, DocTagFieldRequired, DocTagFieldFormat, DocTagFieldPattern,
      DocTagFieldDescription, DocTagFieldEnum, DocTagFieldStringMaxLength, DocTagFieldMaximum,
      DocTagFieldStringMinLength, DocTagFieldMinimum,
      h1, h2, h3, h4, h5, h6, h7, h8, h9, h10, h11, h12] at h
    rw [← h]
    simp
  all_goals
    simp only [applyDocTagField, DocTagFieldMaxItems, DocTagFieldMinItems,
      DocTagFieldNullable, DocTagFieldRequired, DocTagFieldFormat, DocTagFieldPattern,
      DocTagFieldDescription, DocTagFieldEnum, DocTagFieldStringMaxLength, DocTagFieldMaximum,
      DocTagFieldStringMinLength, DocTagFieldMinimum, String.reduceEq, if_true, if_false,
      reduceIte] at h
  all_goals
    try split at h
  all_goals
    try simp only [bind, Except.bind] at h
  all_goals
    try split at h
  all_goals
    cases h <;> simp [attrs_modify, DocTagFieldMaxItems, DocTagFieldMinItems,
      DocTagFieldStringMaxLength, DocTagFieldMaximum, DocTagFieldStringMinLength,
      DocTagFieldMinimum]

theorem foldlM_bounds_preserved (env : Env) (fn K : String) (kvs : List (String × String))
    (hkeys : ∀ kv ∈ kvs, kv.1 ≠ K) :
    ∀ st st' : Schema × Schema, kvs.foldlM (applyDocTagField env fn) st = .ok st' →
      (K = DocTagFieldMinItems → st'.2.attrs.MinItems = st.2.attrs.MinItems) ∧
      (K = DocTagFieldMaxItems → st'.2.attrs.MaxItems = st.2.attrs.MaxItems) ∧
      (K = DocTagFieldStringMinLength → st'.2.attrs.MinLength = st.2.attrs.MinLength) ∧
      (K = DocTagFieldStringMaxLength → st'.2.attrs.MaxLength = st.2.attrs.MaxLength) ∧
      (K = DocTagFieldMinimum → st'.2.attrs.Min = st.2.attrs.Min) ∧
      (K = DocTagFieldMaximum → st'.2.attrs.Max = st.2.attrs.Max) := by
  induction kvs with
  | nil =>
    intro st st' h
    simp only [List.foldlM_nil, pure, Except.pure, Except.ok.injEq] at h
    rw [h]
    simp
  | cons kv rest ih =>
    intro st st' h
    simp only [List.foldlM_cons, bind, Except.bind] at h
    cases h1 : applyDocTagField env fn st kv with
    | error e => simp [h1] at h
    | ok st1 =>
      simp only [h1] at h
      obtain ⟨a1, a2, a3, a4, a5, a6⟩ :=
        ih (fun kv' hkv' => hkeys kv' (List.mem_cons_of_mem _ hkv')) st1 st' h
      obtain ⟨b1, b2, b3, b4, b5, b6⟩ := applyDocTagField_bounds_preserved env fn st st1 kv h1
      have hk := hkeys kv (List.mem_cons_self _ _)
      exact ⟨fun e => (a1 e).trans (b1 (e ▸ hk)), fun e => (a2 e).trans (b2 (e ▸ hk)),
        fun e => (a3 e).trans (b3 (e ▸ hk)), fun e => (a4 e).trans (b4 (e ▸ hk)),
        fun e => (a5 e).trans (b5 (e ▸ hk)), fun e => (a6 e).trans (b6 (e ▸ hk))⟩

/-- The bound that a numeric directive stores, when it is the last directive of its key. -/
theorem applyDocTag_bound (env : Env) (fn K arg : String) (kvs1 kvs2 : List (String × String))
    (child s : Schema) (hlast : ∀ kv ∈ kvs2, kv.1 ≠ K)
    (h : applyDocTag env fn (kvs1 ++ (K, arg) :: kvs2) child = .ok s) :
    (K = DocTagFieldMinItems → ∀ z, ParseInt arg = some z → s.attrs.MinItems = uint64 z) ∧
    (K = DocTagFieldMaxItems → ∀ z, ParseInt arg = some z →
      s.attrs.MaxItems = some (uint64 z)) ∧
    (K = DocTagFieldStringMinLength → ∀ z, ParseInt arg = some z →
      s.attrs.MinLength = uint64 z) ∧
    (K = DocTagFieldStringMaxLength → ∀ z, ParseInt arg = some z →
      s.attrs.MaxLength = some (uint64 z)) ∧
    (K = DocTagFieldMinimum → ∀ x, env.ParseFloat arg = some x → s.attrs.Min = some x) ∧
    (K = DocTagFieldMaximum → ∀ x, env.ParseFloat arg = some x → s.attrs.Max = some x) := by
  unfold applyDocTag at h
  simp only [List.foldlM_append, List.foldlM_cons, bind, Except.bind] at h
  cases h1 : kvs1.foldlM (applyDocTagField env fn) (NewObjectSchema, child) with
  | error e => simp [h1, Except.map] at h
  | ok st1 =>
    simp only [h1] at h
    cases h2 : applyDocTagField env fn st1 (K, arg) with
    | error e => simp [h2, Except.map] at h
    | ok st2 =>
      simp only [h2] at h
      cases h3 : kvs2.foldlM (applyDocTagField env fn) st2 with
      | error e => simp [h3, Except.map] at h
      | ok st3 =>
        simp only [h3, Except.map, Except.ok.injEq] at h
        subst h
        obtain ⟨p1, p2, p3, p4, p5, p6⟩ := foldlM_bounds_preserved env fn K kvs2 hlast st2 st3 h3
        refine ⟨?_, ?_, ?_, ?_, ?_, ?_⟩
        · intro hK z hz
          rw [p1 hK]
          subst hK
          simp [applyDocTagField, DocTagFieldMaxItems, DocTagFieldMinItems, hz] at h2
          rw [← h2]
          simp [attrs_modify]
        · intro hK z hz
          rw [p2 hK]
          subst hK
          simp [applyDocTagField, DocTagFieldMaxItems, hz] at h2
          rw [← h2]
          simp [attrs_modify]
        · intro hK z hz
          rw [p3 hK]
          subst hK
          simp [applyDocTagField, DocTagFieldMaxItems, DocTagFieldMinItems,
            DocTagFieldNullable, DocTagFieldRequired, DocTagFieldFormat, DocTagFieldPattern,
            DocTagFieldDescription, DocTagFieldEnum, DocTagFieldStringMaxLength,
            DocTagFieldMaximum, DocTagFieldStringMinLength, Atoi, hz] at h2
          rw [← h2]
          simp [attrs_modify]
        · intro hK z hz
          rw [p4 hK]
          subst hK
          simp [applyDocTagField, DocTagFieldMaxItems, DocTagFieldMinItems,
            DocTagFieldNullable, DocTagFieldRequired, DocTagFieldFormat, DocTagFieldPattern,
            DocTagFieldDescription, DocTagFieldEnum, DocTagFieldStringMaxLength, Atoi,
            hz] at h2
          rw [← h2]
          simp [attrs_modify]
        · intro hK x hx
          rw [p5 hK]
          subst hK
          simp [applyDocTagField, DocTagFieldMaxItems, DocTagFieldMinItems,
            DocTagFieldNullable, DocTagFieldRequired, DocTagFieldFormat, DocTagFieldPattern,
            DocTagFieldDescription, DocTagFieldEnum, DocTagFieldStringMaxLength,
            DocTagFieldMaximum, DocTagFieldStringMinLength, DocTagFieldMinimum, hx] at h2
          rw [← h2]
          simp [attrs_modify]
        · intro hK x hx
          rw [p6 hK]
          subst hK
          simp [applyDocTagField, DocTagFieldMaxItems, DocTagFieldMinItems,
            DocTagFieldNullable, DocTagFieldRequired, DocTagFieldFormat, DocTagFieldPattern,
            DocTagFieldDescription, DocTagFieldEnum, DocTagFieldStringMaxLength,
            DocTagFieldMaximum, hx] at h2
          rw [← h2]
          simp [attrs_modify]

/-- Whether a directive applies does not depend on the schemas it is applied to. -/
theorem applyDocTagField_ok_indep (env : Env) (fn : String) (st st1 st' : Schema × Schema)
    (kv : String × String) (h : applyDocTagField env fn st kv = .ok st1) :
    ∃ st1', applyDocTagField env fn st' kv = .ok st1' := by
  obtain ⟨key, arg⟩ := kv
  rcases docTagField_cases key with
    rfl | rfl | rfl | rfl | rfl | rfl | rfl | rfl | rfl | rfl | rfl | rfl | hne
  case inr.inr.inr.inr.inr.inr.inr.inr.inr.inr.inr.inr =>
    obtain ⟨h1, h2, h3, h4, h5, h6, h7, h8, h9, h10, h11, h12⟩ := hne
    exact ⟨(st'.1, st'.2), by simp [applyDocTagField, DocTagFieldMaxItems, DocTagFieldMinItems,
      DocTagFieldNullable, DocTagFieldRequired, DocTagFieldFormat, DocTagFieldPattern,
      DocTagFieldDescription, DocTagFieldEnum, DocTagFieldStringMaxLength, DocTagFieldMaximum,
      DocTagFieldStringMinLength, DocTagFieldMinimum,
      h1, h2, h3, h4, h5, h6, h7, h8, h9, h10, h11, h12]⟩
  all_goals
    simp only [applyDocTagField, DocTagFieldMaxItems, DocTagFieldMinItems,
      DocTagFieldNullable, DocTagFieldRequired, DocTagFieldFormat, DocTagFieldPattern,
      DocTagFieldDescription, DocTagFieldEnum, DocTagFieldStringMaxLength, DocTagFieldMaximum,
      DocTagFieldStringMinLength, DocTagFieldMinimum, String.reduceEq, if_true, if_false,
      reduceIte] at h ⊢
  all_goals
    try split at h
  all_goals
    try simp only [bind, Except.bind] at h ⊢
  all_goals
    try split at h
  all_goals
    first
      | exact ⟨_, rfl⟩
      | cases h

theorem foldlM_applyDocTagField_ok (env : Env) (fn : String) (kvs : List (String × String)) :
    ∀ st st' : Schema × Schema,
      (∃ r, kvs.foldlM (applyDocTagField env fn) st = .ok r) →
      ∃ r', kvs.foldlM (applyDocTagField env fn) st' = .ok r' := by
  induction kvs with
  | nil => intro st st' _; exact ⟨st', rfl⟩
  | cons kv rest ih =>
    intro st st' h
    obtain ⟨r, h⟩ := h
    simp only [List.foldlM_cons, bind, Except.bind] at h ⊢
    cases h1 : applyDocTagField env fn st kv with
    | error e => simp [h1] at h
    | ok st1 =>
      simp only [h1] at h
      obtain ⟨st1', h1'⟩ := applyDocTagField_ok_indep env fn st st1 st' kv h1
      rw [h1']
      exact ih st1 st1' ⟨r, h⟩


/-- The sub-schema of an annotated field and the bound that a numeric directive stores in
it, when it is the last directive of its key. -/
theorem extractSchema_bound (env : Env) (ty : String)
    (pre post : List (StructField × Slot Value)) (f : StructField) (v : Slot Value)
    (n K arg : String) (kvs1 kvs2 : List (String × String)) (node : Schema)
    (hflat : ¬ (v.Kind = .Struct ∧ f.Anonymous = true)) (hname : wireName f = some n)
    (hval : v ≠ .iface none)
    (hparse : parseDocTag f.doc = .ok (kvs1 ++ (K, arg) :: kvs2))
    (hlast : ∀ kv ∈ kvs2, kv.1 ≠ K)
    (hpost : ∀ nodeP, extractSchema env (some (.struct ty post)) = .ok (some nodeP) →
      mapGet nodeP.Properties n = none)
    (hok : extractSchema env (some (.struct ty (pre ++ (f, v) :: post))) = .ok (some node)) :
    ∃ (x : Value) (child s : Schema),
      v.Interface f = .ok (some x) ∧ extractSchema env (some x) = .ok (some child) ∧
      applyDocTag env n (kvs1 ++ (K, arg) :: kvs2) child = .ok s ∧
      mapGet node.Properties n = some s ∧
      (K = DocTagFieldMinItems → ∀ z, ParseInt arg = some z → s.attrs.MinItems = uint64 z) ∧
      (K = DocTagFieldMaxItems → ∀ z, ParseInt arg = some z →
        s.attrs.MaxItems = some (uint64 z)) ∧
      (K = DocTagFieldStringMinLength → ∀ z, ParseInt arg = some z →
        s.attrs.MinLength = uint64 z) ∧
      (K = DocTagFieldStringMaxLength → ∀ z, ParseInt arg = some z →
        s.attrs.MaxLength = some (uint64 z)) ∧
      (K = DocTagFieldMinimum → ∀ y, env.ParseFloat arg = some y → s.attrs.Min = some y) ∧
      (K = DocTagFieldMaximum → ∀ y, env.ParseFloat arg = some y → s.attrs.Max = some y) := by
  have hdoc : f.doc ≠ "" := by
    intro h0
    rw [h0, parseDocTag_empty] at hparse
    cases kvs1 <;> simp at hparse
  obtain ⟨x, child, kvs, s, nodePre, nodePost, hx, hchild, hp, happly, _, hpostok, _, hget⟩ :=
    extractSchema_field env ty pre post f v n node hflat hname hdoc hval hok
  rw [hparse] at hp
  cases hp
  exact ⟨x, child, s, hx, hchild, happly, hget (hpost nodePost hpostok),
    applyDocTag_bound env n K arg kvs1 kvs2 child s hlast happly⟩

/-- C12, as the code has it. (1) In a struct with a non-embedded, wire-named field whose
value is not a nil interface and whose parsed directive list contains `minItems`,
`maxItems`, `maxLength` or `minLength` with an argument that is not a base-10 integer, or
`maximum` or `minimum` with an argument that `strconv.ParseFloat` rejects, inference of the
struct panics; `strconv.ParseFloat` rejects every text that has not the shape of a float
literal. (2) The empty argument of a bare key is no base-10 integer and no float literal, and
`NaN` is a float literal. (3) In a struct on which inference succeeds, take such a field
whose wire name no later field declares again and whose directive list, of any length, has
as the last directive of its key one of `minItems`, `maxItems`, `minLength`, `maxLength`
with the numeral of a number `N < 2^63` as argument: the sub-schema stored under the wire
name is the node inferred for the value with all directives applied, and exactly `N` is
stored in the field the directive names. (4) The same with `minimum` or `maximum` and an
argument that `strconv.ParseFloat` accepts: its result is what is stored. -/
theorem extractSchema_numeric_directive :
    (∀ (env : Env) (ty : String) (fields : List (StructField × Slot Value)) (f : StructField)
        (v : Slot Value) (n : String) (kvs : List (String × String)) (key arg : String),
      (f, v) ∈ fields → f.Anonymous = false → wireName f = some n → v ≠ .iface none →
      parseDocTag f.doc = .ok kvs → (key, arg) ∈ kvs →
      ((key ∈ [DocTagFieldMinItems, DocTagFieldMaxItems, DocTagFieldStringMaxLength,
            DocTagFieldStringMinLength] ∧ IsBase10Integer arg = false) ∨
        (key ∈ [DocTagFieldMaximum, DocTagFieldMinimum] ∧ env.ParseFloat arg = none) ∨
        (key ∈ [DocTagFieldMaximum, DocTagFieldMinimum] ∧ env.RejectsNonFloats ∧
          IsFloatLiteral arg = false)) →
      ∃ e, extractSchema env (some (.struct ty fields)) = .error e) ∧
    (IsBase10Integer "" = false ∧ IsFloatLiteral "" = false ∧
      IsFloatLiteral "abc" = false ∧ IsFloatLiteral "NaN" = true ∧
      IsFloatLiteral "100" = true) ∧
    (∀ (env : Env) (ty : String) (pre post : List (StructField × Slot Value))
        (f : StructField) (v : Slot Value) (n key : String) (ds : List Nat)
        (kvs1 kvs2 : List (String × String)) (node : Schema),
      f.Anonymous = false → wireName f = some n → v ≠ .iface none →
      parseDocTag f.doc = .ok (kvs1 ++ (key, decimalNumeral ds) :: kvs2) →
      (∀ kv ∈ kvs2, kv.1 ≠ key) →
      ds ≠ [] → (∀ d ∈ ds, d < 10) → Nat.ofDigits 10 ds.reverse < 2 ^ 63 →
      (∀ nodeP, extractSchema env (some (.struct ty post)) = .ok (some nodeP) →
        mapGet nodeP.Properties n = none) →
      extractSchema env (some (.struct ty (pre ++ (f, v) :: post))) = .ok (some node) →
      ∃ (x : Value) (child s : Schema),
        v.Interface f = .ok (some x) ∧ extractSchema env (some x) = .ok (some child) ∧
        applyDocTag env n (kvs1 ++ (key, decimalNumeral ds) :: kvs2) child = .ok s ∧
        mapGet node.Properties n = some s ∧
        (key = DocTagFieldMinItems → s.attrs.MinItems = Nat.ofDigits 10 ds.reverse) ∧
        (key = DocTagFieldMaxItems →
          s.attrs.MaxItems = some (Nat.ofDigits 10 ds.reverse)) ∧
        (key = DocTagFieldStringMinLength →
          s.attrs.MinLength = Nat.ofDigits 10 ds.reverse) ∧
        (key = DocTagFieldStringMaxLength →
          s.attrs.MaxLength = some (Nat.ofDigits 10 ds.reverse))) ∧
    (∀ (env : Env) (ty : String) (pre post : List (StructField × Slot Value))
        (f : StructField) (v : Slot Value) (n key arg : String) (y : Float64)
        (kvs1 kvs2 : List (String × String)) (node : Schema),
      f.Anonymous = false → wireName f = some n → v ≠ .iface none →
      parseDocTag f.doc = .ok (kvs1 ++ (key, arg) :: kvs2) →
      (∀ kv ∈ kvs2, kv.1 ≠ key) → env.ParseFloat arg = some y →
      (∀ nodeP, extractSchema env (some (.struct ty post)) = .ok (some nodeP) →
        mapGet nodeP.Properties n = none) →
      extractSchema env (some (.struct ty (pre ++ (f, v) :: post))) = .ok (some node) →
      ∃ (x : Value) (child s : Schema),
        v.Interface f = .ok (some x) ∧ extractSchema env (some x) = .ok (some child) ∧
        applyDocTag env n (kvs1 ++ (key, arg) :: kvs2) child = .ok s ∧
        mapGet node.Properties n = some s ∧
        (key = DocTagFieldMinimum → s.attrs.Min = some y) ∧
        (key = DocTagFieldMaximum → s.attrs.Max = some y)) := by
  refine ⟨?_, by decide, ?_, ?_⟩
  · intro env ty fields f v n kvs key arg hmem hanon hname hval hparse hkv hbad
    have herr : ∀ st, ∃ e, applyDocTagField env n st (key, arg) = .error e := by
      intro st
      apply applyDocTagField_notANumber
      rcases hbad with ⟨hk, hi⟩ | ⟨hk, hf⟩ | ⟨hk, hlib, hf⟩
      · exact Or.inl ⟨hk, ParseInt_eq_none arg hi⟩
      · exact Or.inr ⟨hk, hf⟩
      · exact Or.inr ⟨hk, hlib arg hf⟩
    have hfe := fieldEffect_error_of_directive env f v n kvs (key, arg) hanon hname hval
      hparse hkv herr
    obtain ⟨e', he'⟩ := fieldsEffect_error_of_mem env fields (f, v) hmem hfe
    exact ⟨e', by rw [extractSchema_struct_effect, he']⟩
  · intro env ty pre post f v n key ds kvs1 kvs2 node hanon hname hval hparse hlast hne hdig
      hlt hpost hok
    have hflat : ¬ (v.Kind = .Struct ∧ f.Anonymous = true) := by simp [hanon]
    obtain ⟨x, child, s, hx, hchild, happly, hget, b1, b2, b3, b4, _, _⟩ :=
      extractSchema_bound env ty pre post f v n key (decimalNumeral ds) kvs1 kvs2 node hflat
        hname hval hparse hlast hpost hok
    have hp := ParseInt_decimalNumeral ds hne hdig hlt
    have hu := uint64_natCast _ hlt
    refine ⟨x, child, s, hx, hchild, happly, hget, ?_, ?_, ?_, ?_⟩
    · intro hk; rw [b1 hk _ hp, hu]
    · intro hk; rw [b2 hk _ hp, hu]
    · intro hk; rw [b3 hk _ hp, hu]
    · intro hk; rw [b4 hk _ hp, hu]
  · intro env ty pre post f v n key arg y kvs1 kvs2 node hanon hname hval hparse hlast hy
      hpost hok
    have hflat : ¬ (v.Kind = .Struct ∧ f.Anonymous = true) := by simp [hanon]
    obtain ⟨x, child, s, hx, hchild, happly, hget, _, _, _, _, b5, b6⟩ :=
      extractSchema_bound env ty pre post f v n key arg kvs1 kvs2 node hflat
        hname hval hparse hlast hpost hok
    exact ⟨x, child, s, hx, hchild, happly, hget, fun hk => b5 hk y hy,
      fun hk => b6 hk y hy⟩

theorem extractSchema_numeric_directive_witness :
    (∃ e, extractSchema emptyEnv (some (.struct "T" [sampleBadField])) = .error e) ∧
    (∃ e, extractSchema emptyEnv (some (.struct "T" [sampleBadFloatField])) = .error e) ∧
    (∃ s, mapGet sampleArraySchema.Properties "arr" = some s ∧
      s.attrs.MinItems = Nat.ofDigits 10 [1].reverse) ∧
    (∃ s, mapGet sampleArraySchema.Properties "arr" = some s ∧
      s.attrs.MaxItems = some (Nat.ofDigits 10 [5].reverse)) ∧
    (∃ s, mapGet sampleIntegerSchema.Properties "integer" = some s ∧
      s.attrs.Max = some { bits := 0x4059000000000000 }) :=
  ⟨extractSchema_numeric_directive.1 emptyEnv "T" [sampleBadField] sampleBadField.1
      sampleBadField.2 "tags" [(DocTagFieldRequired, ""), (DocTagFieldMinItems, "1x")]
      DocTagFieldMinItems "1x" (by simp) rfl (by decide)
      (by simp [sampleBadField]) (by rfl) (by simp)
      (Or.inl ⟨by simp, by decide⟩),
    extractSchema_numeric_directive.1 emptyEnv "T" [sampleBadFloatField]
      sampleBadFloatField.1 sampleBadFloatField.2 "number" [(DocTagFieldMaximum, "abc")]
      DocTagFieldMaximum "abc" (by simp) rfl (by decide)
      (by simp [sampleBadFloatField]) (by rfl) (by simp)
      (Or.inr (Or.inr ⟨by simp, fun _ _ => rfl, by decide⟩)),
    (extractSchema_numeric_directive.2.2.1 emptyEnv "T" [] [] sampleArrayField.1
      sampleArrayField.2 "arr" DocTagFieldMinItems [1] [(DocTagFieldDescription, "array")]
      [(DocTagFieldMaxItems, "5")] sampleArraySchema rfl
      (by decide) (by simp [sampleArrayField]) (by rfl) (by decide) (by simp) (by decide)
      (by decide) (extractSchema_struct_nil_props emptyEnv "T" "arr") (by rfl)).elim
        fun _ hx => hx.elim fun _ hc => hc.elim fun s hs =>
          ⟨s, hs.2.2.2.1, hs.2.2.2.2.1 rfl⟩,
    (extractSchema_numeric_directive.2.2.1 emptyEnv "T" [] [] sampleArrayField.1
      sampleArrayField.2 "arr" DocTagFieldMaxItems [5]
      [(DocTagFieldDescription, "array"), (DocTagFieldMinItems, "1")] [] sampleArraySchema rfl
      (by decide) (by simp [sampleArrayField]) (by rfl) (by simp) (by simp) (by decide)
      (by decide) (extractSchema_struct_nil_props emptyEnv "T" "arr") (by rfl)).elim
        fun _ hx => hx.elim fun _ hc => hc.elim fun s hs =>
          ⟨s, hs.2.2.2.1, hs.2.2.2.2.2.1 rfl⟩,
    (extractSchema_numeric_directive.2.2.2 sampleFloatEnv "T" [] [] sampleIntegerField.1
      sampleIntegerField.2 "integer" DocTagFieldMaximum "100"
      { bits := 0x4059000000000000 }
      [(DocTagFieldRequired, ""), (DocTagFieldDescription, "integer test"),
        (DocTagFieldMinimum, "5")] [] sampleIntegerSchema rfl
      (by decide) (by simp [sampleIntegerField]) (by rfl) (by simp) (by rfl)
      (extractSchema_struct_nil_props sampleFloatEnv "T" "integer") (by rfl)).elim
        fun _ hx => hx.elim fun _ hc => hc.elim fun s hs =>
          ⟨s, hs.2.2.2.1, hs.2.2.2.2.2 rfl⟩⟩

/-- C12, counterexample. The text `NaN` is not a decimal number, and `strconv.ParseFloat`
accepts it; inference of a struct whose field is annotated `maximum(NaN)` succeeds and
stores the not-a-number as the maximum. -/
theorem extractSchema_maximum_NaN :
    IsDecimalNumber "NaN" = false ∧
    parseDocTag "maximum(NaN)" = .ok [(DocTagFieldMaximum, "NaN")] ∧
    extractSchema nanEnv (some (.struct "T" [
        ({ Name := "Num", json := "num", doc := "maximum(NaN)" },
          .conc (.scalar "float64" (.float .Float64 { bits := 0 })))]))
      = .ok (some (.mk { type := .object } none
          [("num", .leaf {
              type := .number
              Example := some (.scalar "float64" (.float .Float64 { bits := 0 }))
              Max := some { bits := 0x7FF8000000000001 } })])) := by
  refine ⟨by decide, rfl, rfl⟩


/-! ## Theorems: route groups -/

theorem route_To_getElem? (store : List route) (r : Nat) (h : List HandlerFunc) (m : Nat) :
    (route.To store r h)[m]?
      = (store[m]?).map fun x => if r = m then { x with handlers := h } else x := by
  unfold route.To
  rw [List.getElem?_modify]
  rfl

/-- C19. Registration in a route group, for stores `store` of routes and a group `rg` whose
routes are addresses in the store. Each of the seven relative operations allocates one route
after the routes of the store, with the method that the operation names and the path
`Join(basePath, Sprintf(path, pathParams...))`, appends its address at the end of the
group's routes and returns it; the earlier routes and the base path are unchanged and the
count grows by one. Each of the seven `AbsolutePath` operations does the same with the
path argument verbatim, whatever the base path. `To` sets the handler list of the route at
the address to exactly `h` and changes no other field and no other route. -/
theorem RouteGroup_registration (lib : PathLib) (store : List route) (rg : RouteGroup)
    (path : String) (pathParams : List (Option Value)) (h : List HandlerFunc) :
    (∀ op ∈ relativeOperations,
      (op.1 lib store rg path pathParams).1
        = store ++ [{ httpPath := lib.Join rg.basePath (lib.Sprintf path pathParams)
                      httpMethod := op.2
                      handlers := [] }] ∧
      (op.1 lib store rg path pathParams).2.2 = store.length ∧
      (op.1 lib store rg path pathParams).2.1.routes = rg.routes ++ [store.length] ∧
      (op.1 lib store rg path pathParams).2.1.basePath = rg.basePath ∧
      (op.1 lib store rg path pathParams).2.1.getRoutes.length = rg.getRoutes.length + 1 ∧
      op.2 ∈ [MethodGet, MethodPost, MethodPut, MethodPatch, MethodDelete, MethodOptions,
        MethodTrace]) ∧
    (∀ op ∈ absoluteOperations,
      (op.1 store rg path).1
        = store ++ [{ httpPath := path, httpMethod := op.2, handlers := [] }] ∧
      (op.1 store rg path).2.2 = store.length ∧
      (op.1 store rg path).2.1.routes = rg.routes ++ [store.length] ∧
      (op.1 store rg path).2.1.basePath = rg.basePath ∧
      (op.1 store rg path).2.1.getRoutes.length = rg.getRoutes.length + 1 ∧
      (∀ b : String, (op.1 store { rg with basePath := b } path).1 = (op.1 store rg path).1)) ∧
    (∀ (r : Nat) (x : route), store[r]? = some x →
      (route.To store r h)[r]? = some { x with handlers := h } ∧
      (route.To store r h).length = store.length ∧
      ∀ m, m ≠ r → (route.To store r h)[m]? = store[m]?) := by
  refine ⟨?_, ?_, ?_⟩
  · intro op hop
    simp only [relativeOperations, List.mem_cons, List.mem_singleton, List.not_mem_nil,
      or_false] at hop
    rcases hop with rfl | rfl | rfl | rfl | rfl | rfl | rfl <;>
      simp [RouteGroup.Get, RouteGroup.Post, RouteGroup.Put, RouteGroup.Patch,
        RouteGroup.Delete, RouteGroup.Options, RouteGroup.Trace, RouteGroup.add,
        RouteGroup.resolvePath, RouteGroup.getRoutes, MethodGet, MethodPost, MethodPut,
        MethodPatch, MethodDelete, MethodOptions, MethodTrace]
  · intro op hop
    simp only [absoluteOperations, List.mem_cons, List.mem_singleton, List.not_mem_nil,
      or_false] at hop
    rcases hop with rfl | rfl | rfl | rfl | rfl | rfl | rfl <;>
      simp [RouteGroup.GetAbsolutePath, RouteGroup.PostAbsolutePath,
        RouteGroup.PutAbsolutePath, RouteGroup.PatchAbsolutePath,
        RouteGroup.DeleteAbsolutePath, RouteGroup.OptionsAbsolutePath,
        RouteGroup.TraceAbsolutePath, RouteGroup.add, RouteGroup.getRoutes, MethodGet,
        MethodPost, MethodPut, MethodPatch, MethodDelete, MethodOptions, MethodTrace]
  · intro r x hx
    refine ⟨?_, ?_, ?_⟩
    · rw [route_To_getElem?, hx]
      simp
    · simp [route.To]
    · intro m hm
      rw [route_To_getElem?]
      cases store[m]? with
      | none => rfl
      | some y => simp [Ne.symm hm]

theorem RouteGroup_registration_witness :
    (RouteGroup.Delete samplePathLib [] (NewRouteGroup "/test") "delete" []).1
        = [{ httpPath := "/test/delete", httpMethod := "DELETE", handlers := [] }] ∧
    (RouteGroup.DeleteAbsolutePath [] (NewRouteGroup "/test") "/delete").1
        = [{ httpPath := "/delete", httpMethod := "DELETE", handlers := [] }] ∧
    (route.To [{ httpPath := "/test/delete", httpMethod := "DELETE" }] 0 [⟨7⟩])[0]?
        = some { httpPath := "/test/delete", httpMethod := "DELETE", handlers := [⟨7⟩] } :=
  ⟨((RouteGroup_registration samplePathLib [] (NewRouteGroup "/test") "delete" [] []).1
      (RouteGroup.Delete, "DELETE") (by simp [relativeOperations])).1,
    ((RouteGroup_registration samplePathLib [] (NewRouteGroup "/test") "/delete" [] []).2.1
      (RouteGroup.DeleteAbsolutePath, "DELETE") (by simp [absoluteOperations])).1,
    ((RouteGroup_registration samplePathLib
      [{ httpPath := "/test/delete", httpMethod := "DELETE" }] (NewRouteGroup "/test") "" []
      [⟨7⟩]).2.2 0 { httpPath := "/test/delete", httpMethod := "DELETE" } rfl).1⟩


/-! ## Theorems: required names and properties -/

theorem requiredDeclaredProps_iff (ps : List (String × Schema)) :
    requiredDeclaredProps ps ↔ ∀ kv ∈ ps, kv.2.RequiredDeclared := by
  induction ps with
  | nil => simp [requiredDeclaredProps]
  | cons a rest ih =>
    obtain ⟨k, s⟩ := a
    simp [requiredDeclaredProps, ih]

theorem requiredDeclared_iff (s : Schema) :
    s.RequiredDeclared ↔
      (∀ n ∈ s.attrs.Required, (mapGet s.Properties n).isSome = true) ∧
        (∀ i, s.Items = some i → i.RequiredDeclared) ∧
        ∀ kv ∈ s.Properties, kv.2.RequiredDeclared := by
  obtain ⟨a, i, p⟩ := s
  cases i <;>
    simp [Schema.RequiredDeclared, requiredDeclaredItems, requiredDeclaredProps_iff,
      Schema.attrs, Schema.Items, Schema.Properties]

theorem requiredDeclared_leaf (a : SchemaAttrs) (h : a.Required = []) :
    (Schema.leaf a).RequiredDeclared := by
  rw [requiredDeclared_iff]
  simp [Schema.leaf, Schema.attrs, Schema.Items, Schema.Properties, h]

theorem mem_mapSet {α : Type} (m : List (String × α)) (k : String) (v : α)
    (kv : String × α) (h : kv ∈ mapSet m k v) : kv = (k, v) ∨ kv ∈ m := by
  induction m with
  | nil => simp [mapSet] at h; exact Or.inl h
  | cons a rest ih =>
    obtain ⟨k', v'⟩ := a
    simp only [mapSet] at h
    split_ifs at h with hk
    · rcases List.mem_cons.1 h with h | h
      · exact Or.inl h
      · exact Or.inr (List.mem_cons_of_mem _ h)
    · rcases List.mem_cons.1 h with h | h
      · exact Or.inr (h ▸ List.mem_cons_self _ _)
      · rcases ih h with h | h
        · exact Or.inl h
        · exact Or.inr (List.mem_cons_of_mem _ h)

theorem mem_mergeProperties (src into : List (String × Schema)) (kv : String × Schema)
    (h : kv ∈ mergeProperties into src) : kv ∈ into ∨ kv ∈ src := by
  induction src generalizing into with
  | nil => exact Or.inl h
  | cons a rest ih =>
    have hm : mergeProperties into (a :: rest) = mergeProperties (mapSet into a.1 a.2) rest :=
      rfl
    rw [hm] at h
    rcases ih _ h with h | h
    · rcases mem_mapSet into a.1 a.2 kv h with h | h
      · exact Or.inr (h ▸ List.mem_cons_self _ _)
      · exact Or.inl h
    · exact Or.inr (List.mem_cons_of_mem _ h)

theorem mapGet_isSome_iff {α : Type} (m : List (String × α)) (n : String) :
    (mapGet m n).isSome = true ↔ n ∈ m.map Prod.fst := by
  induction m with
  | nil => simp [mapGet]
  | cons a rest ih =>
    obtain ⟨k, v⟩ := a
    by_cases h : k = n
    · simp [mapGet, h]
    · simp [mapGet, h, ih, Ne.symm h]

theorem mapGet_mergeProperties_isSome (src into : List (String × Schema)) (n : String)
    (h : n ∈ src.map Prod.fst) : (mapGet (mergeProperties into src) n).isSome = true := by
  rw [mapGet_mergeProperties]
  have hr : (mapGet src.reverse n).isSome = true := by
    rw [mapGet_isSome_iff]
    simpa using h
  cases hg : mapGet src.reverse n with
  | none => rw [hg] at hr; cases hr
  | some s => rfl

theorem Items_modify (f : SchemaAttrs → SchemaAttrs) (s : Schema) :
    (s.modify f).Items = s.Items := by
  cases s; rfl

theorem Properties_modify (f : SchemaAttrs → SchemaAttrs) (s : Schema) :
    (s.modify f).Properties = s.Properties := by
  cases s; rfl

/-- A directive leaves the required list, the items and the properties of the sub-schema
as they are. -/
theorem applyDocTagField_frame (env : Env) (fn : String) (st st' : Schema × Schema)
    (kv : String × String) (h : applyDocTagField env fn st kv = .ok st') :
    st'.2.attrs.Required = st.2.attrs.Required ∧ st'.2.Items = st.2.Items ∧
      st'.2.Properties = st.2.Properties := by
  obtain ⟨key, arg⟩ := kv
  obtain ⟨o, s⟩ := st
  rcases docTagField_cases key with
    rfl | rfl | rfl | rfl | rfl | rfl | rfl | rfl | rfl | rfl | rfl | rfl | hne
  case inr.inr.inr.inr.inr.inr.inr.inr.inr.inr.inr.inr =>
    obtain ⟨h1, h2, h3, h4, h5, h6, h7, h8, h9, h10, h11, h12⟩ := hne
    simp [applyDocTagField, DocTagFieldMaxItems, DocTagFieldMinItems,
      DocTagFieldNullable, DocTagFieldRequired, DocTagFieldFormat, DocTagFieldPattern,
      DocTagFieldDescription, DocTagFieldEnum, DocTagFieldStringMaxLength, DocTagFieldMaximum,
      DocTagFieldStringMinLength, DocTagFieldMinimum,
      h1, h2, h3, h4, h5, h6, h7, h8, h9, h10, h11, h12] at h
    rw [← h]
    exact ⟨rfl, rfl, rfl⟩
  all_goals
    simp only [applyDocTagField, DocTagFieldMaxItems, DocTagFieldMinItems,
      DocTagFieldNullable, DocTagFieldRequired, DocTagFieldFormat, DocTagFieldPattern,
      DocTagFieldDescription, DocTagFieldEnum, DocTagFieldStringMaxLength, DocTagFieldMaximum,
      DocTagFieldStringMinLength, DocTagFieldMinimum, String.reduceEq, if_true, if_false,
      reduceIte] at h
  all_goals
    try split at h
  all_goals
    try simp only [bind, Except.bind] at h
  all_goals
    try split at h
  all_goals
    cases h <;> simp [attrs_modify, Items_modify, Properties_modify]

theorem foldlM_applyDocTagField_frame (env : Env) (fn : String)
    (kvs : List (String × String)) :
    ∀ st st' : Schema × Schema, kvs.foldlM (applyDocTagField env fn) st = .ok st' →
      st'.2.attrs.Required = st.2.attrs.Required ∧ st'.2.Items = st.2.Items ∧
        st'.2.Properties = st.2.Properties := by
  induction kvs with
  | nil =>
    intro st st' h
    simp only [List.foldlM_nil, pure, Except.pure, Except.ok.injEq] at h
    rw [h]
    exact ⟨rfl, rfl, rfl⟩
  | cons kv rest ih =>
    intro st st' h
    simp only [List.foldlM_cons, bind, Except.bind] at h
    cases h1 : applyDocTagField env fn st kv with
    | error e => simp [h1] at h
    | ok st1 =>
      simp only [h1] at h
      obtain ⟨a1, a2, a3⟩ := ih st1 st' h
      obtain ⟨b1, b2, b3⟩ := applyDocTagField_frame env fn st st1 kv h1
      exact ⟨a1.trans b1, a2.trans b2, a3.trans b3⟩

theorem applyDocTag_requiredDeclared (env : Env) (fn : String) (kvs : List (String × String))
    (child s : Schema) (h : applyDocTag env fn kvs child = .ok s)
    (hc : child.RequiredDeclared) : s.RequiredDeclared := by
  unfold applyDocTag at h
  cases hf : kvs.foldlM (applyDocTagField env fn) (NewObjectSchema, child) with
  | error e => simp [hf, Except.map] at h
  | ok st =>
    simp only [hf, Except.map, Except.ok.injEq] at h
    subst h
    obtain ⟨a1, a2, a3⟩ := foldlM_applyDocTagField_frame env fn kvs _ st hf
    rw [requiredDeclared_iff] at hc ⊢
    rw [a1, a2, a3]
    exact hc

theorem requiredNames_subset (fn : String) (kvs : List (String × String)) (n : String)
    (h : n ∈ requiredNames fn kvs) : n = fn := by
  simp only [requiredNames, List.mem_map] at h
  obtain ⟨_, _, h⟩ := h
  exact h.symm

/-- What a field adds keeps the invariant: the names added are keys of the assignments
added, and the schemas assigned have their required names declared. -/
theorem fieldEffect_declared (env : Env) (fv : StructField × Slot Value)
    (e : List String × List (String × Schema))
    (ih : ∀ q node, fv.2.Interface fv.1 = .ok q → extractSchema env q = .ok (some node) →
      node.RequiredDeclared)
    (h : fieldEffect env fv = .ok e) :
    (∀ n ∈ e.1, n ∈ e.2.map Prod.fst) ∧ ∀ kv ∈ e.2, kv.2.RequiredDeclared := by
  unfold fieldEffect at h
  split_ifs at h with hflat hdoc
  · cases hq : fv.2.Interface fv.1 with
    | error err => simp [hq] at h
    | ok q =>
      simp only [hq] at h
      cases hx : extractSchema env q with
      | error err => simp [hx] at h
      | ok sr =>
        cases sr with
        | none => simp [hx] at h
        | some node =>
          simp only [hx, Except.ok.injEq] at h
          subst h
          have hd := (requiredDeclared_iff node).1 (ih q node hq hx)
          exact ⟨fun n hn => (mapGet_isSome_iff _ _).1 (hd.1 n hn), hd.2.2⟩
  · cases hw : wireName fv.1 with
    | none => simp [hw] at h; subst h; simp
    | some fn => simp [hw] at h; subst h; simp
  · cases hw : wireName fv.1 with
    | none => simp [hw] at h; subst h; simp
    | some fn =>
      simp only [hw] at h
      cases hq : fv.2.Interface fv.1 with
      | error err => simp [hq] at h
      | ok q =>
        simp only [hq] at h
        cases hx : extractSchema env q with
        | error err => simp [hx] at h
        | ok sr =>
          cases sr with
          | none => simp [hx] at h; subst h; simp
          | some child =>
            simp only [hx] at h
            cases hp : parseDocTag fv.1.doc with
            | error err => simp [hp] at h
            | ok kvs =>
              simp only [hp] at h
              cases ha : applyDocTag env fn kvs child with
              | error err => simp [ha] at h
              | ok s =>
                simp only [ha, Except.ok.injEq] at h
                subst h
                refine ⟨fun n hn => ?_, fun kv hkv => ?_⟩
                · simp [requiredNames_subset fn kvs n hn]
                · simp only [List.mem_singleton] at hkv
                  subst hkv
                  exact applyDocTag_requiredDeclared env fn kvs child s ha (ih q child hq hx)

theorem fieldsEffect_declared (env : Env) (fields : List (StructField × Slot Value)) :
    ∀ (e : List String × List (String × Schema)),
      (∀ fv ∈ fields, ∀ q node, fv.2.Interface fv.1 = .ok q →
        extractSchema env q = .ok (some node) → node.RequiredDeclared) →
      fieldsEffect env fields = .ok e →
      (∀ n ∈ e.1, n ∈ e.2.map Prod.fst) ∧ ∀ kv ∈ e.2, kv.2.RequiredDeclared := by
  induction fields with
  | nil =>
    intro e _ h
    simp only [fieldsEffect, Except.ok.injEq] at h
    subst h
    simp
  | cons fv rest ih =>
    intro e hrec h
    simp only [fieldsEffect] at h
    cases h1 : fieldEffect env fv with
    | error err => simp [h1] at h
    | ok e1 =>
      simp only [h1] at h
      cases h2 : fieldsEffect env rest with
      | error err => simp [h2] at h
      | ok e2 =>
        simp only [h2, Except.ok.injEq] at h
        subst h
        obtain ⟨a1, a2⟩ := fieldEffect_declared env fv e1
          (hrec fv (List.mem_cons_self _ _)) h1
        obtain ⟨b1, b2⟩ := ih e2 (fun fv' hfv' => hrec fv' (List.mem_cons_of_mem _ hfv')) h2
        refine ⟨fun n hn => ?_, fun kv hkv => ?_⟩
        · simp only [List.map_append, List.mem_append] at hn ⊢
          rcases hn with hn | hn
          · exact Or.inl (a1 n hn)
          · exact Or.inr (b1 n hn)
        · rcases List.mem_append.1 hkv with hkv | hkv
          · exact a2 kv hkv
          · exact b2 kv hkv

theorem addEffect_declared (e : List String × List (String × Schema))
    (h1 : ∀ n ∈ e.1, n ∈ e.2.map Prod.fst) (h2 : ∀ kv ∈ e.2, kv.2.RequiredDeclared) :
    (addEffect NewObjectSchema e).RequiredDeclared := by
  rw [requiredDeclared_iff]
  refine ⟨fun n hn => ?_, fun i hi => ?_, fun kv hkv => ?_⟩
  · simp only [addEffect, Schema.attrs, NewObjectSchema, Schema.leaf, List.nil_append] at hn
    exact mapGet_mergeProperties_isSome _ _ n (h1 n hn)
  · simp [addEffect, Schema.Items, NewObjectSchema, Schema.leaf] at hi
  · simp only [addEffect, Schema.Properties] at hkv
    rcases mem_mergeProperties _ _ kv hkv with hkv | hkv
    · simp [NewObjectSchema, Schema.leaf] at hkv
    · exact h2 kv hkv

theorem extractSchema_declared_aux (env : Env) :
    ∀ (k : Nat) (p : Option Value) (node : Schema), sizeOpt p < k →
      extractSchema env p = .ok (some node) → node.RequiredDeclared := by
  intro k
  induction k with
  | zero => intro p node hk; omega
  | succ k ih =>
    intro p node hk h
    rw [extractSchema_eq] at h
    cases p with
    | none => cases h
    | some x =>
      unfold extractSchemaStep at h
      simp only at h
      split at h
      · cases h; exact requiredDeclared_leaf _ rfl
      split at h
      · cases h; exact requiredDeclared_leaf _ rfl
      split at h
      · cases h; exact requiredDeclared_leaf _ rfl
      split at h
      · cases h; exact requiredDeclared_leaf _ rfl
      split at h
      · cases h; exact requiredDeclared_leaf _ rfl
      split at h
      · cases h; exact requiredDeclared_leaf _ rfl
      split at h
      · rename_i vh hvh
        split at h
        · cases h
        · rename_i v hv
          split at h
          · cases h
          · rename_i first rest hel
            have hsz := extractOpenAPIType_size x _ vh v hvh hv
            have hlt := sizeOpt_lt_of_elems v first (by simp [hel])
            have hk' : sizeOpt first < k := by
              have : sizeOpt (some x) = x.size := rfl
              omega
            cases hf : extractSchema env first with
            | error e => simp [hf, bind, Except.bind] at h
            | ok items =>
              simp only [hf, bind, Except.bind] at h
              cases h
              rw [requiredDeclared_iff]
              refine ⟨by simp [Schema.attrs], fun i hi => ?_, by simp [Schema.Properties]⟩
              simp only [Schema.Items] at hi
              subst hi
              exact ih first i hk' hf
      split at h
      · rename_i vh hvh
        split at h
        · split_ifs at h
          cases h
          exact requiredDeclared_leaf _ rfl
        · rename_i v hv
          have hsz := extractOpenAPIType_size x _ vh v hvh hv
          rw [foldlM_extractSchemaField] at h
          cases he : fieldsEffect env v.fields with
          | error e => simp [he, bind, Except.bind] at h
          | ok e =>
            simp only [he, bind, Except.bind] at h
            cases h
            obtain ⟨a1, a2⟩ := fieldsEffect_declared env v.fields e (fun fv hfv q nd hq hx =>
              ih q nd (by
                have := sizeOpt_lt_of_fields v fv hfv q hq
                have : sizeOpt (some x) = x.size := rfl
                omega) hx) he
            exact addEffect_declared e a1 a2
      · cases h

/-- C20. Whenever `extractSchema` returns a node, every name of the node's required list is a
key of the node's properties, and the same holds for every node nested in it under
`Properties` or `Items`; names that come from flattened embedded structs included. -/
theorem extractSchema_required_declared (env : Env) (p : Option Value) (node : Schema)
    (h : extractSchema env p = .ok (some node)) : node.RequiredDeclared :=
  extractSchema_declared_aux env (sizeOpt p + 1) p node (Nat.lt_succ_self _) h

theorem extractSchema_required_declared_witness :
    extractSchema sampleEnv (some sampleEmbedded) = .ok (some sampleEmbeddedSchema) ∧
    sampleEmbeddedSchema.RequiredDeclared :=
  ⟨by rfl, extractSchema_required_declared sampleEnv (some sampleEmbedded)
    sampleEmbeddedSchema (by rfl)⟩


/-! ## Theorems: the required list -/

theorem extractSchema_struct_split (env : Env) (ty : String)
    (pre post : List (StructField × Slot Value)) (fv : StructField × Slot Value)
    (node : Schema)
    (hok : extractSchema env (some (.struct ty (pre ++ fv :: post))) = .ok (some node)) :
    ∃ (e2 : List String × List (String × Schema)) (nodePre nodePost : Schema),
      fieldEffect env fv = .ok e2 ∧
      extractSchema env (some (.struct ty pre)) = .ok (some nodePre) ∧
      extractSchema env (some (.struct ty post)) = .ok (some nodePost) ∧
      node.attrs.Required = nodePre.attrs.Required ++ e2.1 ++ nodePost.attrs.Required := by
  rw [extractSchema_struct_effect, fieldsEffect_append] at hok
  have hcons : fieldsEffect env (fv :: post) =
      match fieldEffect env fv with
      | .error e => .error e
      | .ok e1 =>
        match fieldsEffect env post with
        | .error e => .error e
        | .ok e2 => .ok (e1.1 ++ e2.1, e1.2 ++ e2.2) := rfl
  rw [hcons] at hok
  cases h1 : fieldsEffect env pre with
  | error e => simp [h1] at hok
  | ok e1 =>
    cases h2 : fieldEffect env fv with
    | error e => simp [h1, h2] at hok
    | ok e2 =>
      cases h3 : fieldsEffect env post with
      | error e => simp [h1, h2, h3] at hok
      | ok e3 =>
        simp only [h1, h2, h3, Except.ok.injEq, Option.some.injEq] at hok
        subst hok
        refine ⟨e2, addEffect NewObjectSchema e1, addEffect NewObjectSchema e3, rfl, ?_, ?_, ?_⟩
        · rw [extractSchema_struct_effect, h1]
        · rw [extractSchema_struct_effect, h3]
        · simp [addEffect, Schema.attrs, NewObjectSchema, Schema.leaf]

theorem requiredNames_eq_replicate (fn : String) (kvs : List (String × String)) :
    requiredNames fn kvs
      = List.replicate (kvs.countP fun kv => kv.1 = DocTagFieldRequired) fn := by
  simp only [requiredNames, List.countP_eq_length_filter]
  induction kvs.filter fun kv => decide (kv.1 = DocTagFieldRequired) with
  | nil => rfl
  | cons a rest ih => simp [List.replicate_succ, ih]

/-- C18, as the code has it. The required list of the node of a struct is the concatenation,
in the order of the fields, of what each field appends, without removal of duplicates:
(1) a non-embedded, wire-named, annotated field whose value is not a nil interface appends
its wire name once for every `required` directive of its annotation; (2) an embedded field
of struct kind appends the whole required list of the node of its value; (3) a non-embedded
field without annotation, without wire name or with a nil interface value appends nothing;
(4) the node of a struct without fields has an empty required list. -/
theorem extractSchema_required_list :
    (∀ (env : Env) (ty : String) (pre post : List (StructField × Slot Value))
        (f : StructField) (v : Slot Value) (n : String) (kvs : List (String × String))
        (node : Schema),
      ¬ (v.Kind = .Struct ∧ f.Anonymous = true) → wireName f = some n → f.doc ≠ "" →
      v ≠ .iface none → parseDocTag f.doc = .ok kvs →
      extractSchema env (some (.struct ty (pre ++ (f, v) :: post))) = .ok (some node) →
      ∃ nodePre nodePost : Schema,
        extractSchema env (some (.struct ty pre)) = .ok (some nodePre) ∧
        extractSchema env (some (.struct ty post)) = .ok (some nodePost) ∧
        node.attrs.Required = nodePre.attrs.Required
          ++ List.replicate (kvs.countP fun kv => kv.1 = DocTagFieldRequired) n
          ++ nodePost.attrs.Required) ∧
    (∀ (env : Env) (ty : String) (pre post : List (StructField × Slot Value))
        (f : StructField) (v : Slot Value) (node : Schema),
      v.Kind = .Struct → f.Anonymous = true →
      extractSchema env (some (.struct ty (pre ++ (f, v) :: post))) = .ok (some node) →
      ∃ (q : Option Value) (nodeE nodePre nodePost : Schema),
        v.Interface f = .ok q ∧ extractSchema env q = .ok (some nodeE) ∧
        extractSchema env (some (.struct ty pre)) = .ok (some nodePre) ∧
        extractSchema env (some (.struct ty post)) = .ok (some nodePost) ∧
        node.attrs.Required = nodePre.attrs.Required ++ nodeE.attrs.Required
          ++ nodePost.attrs.Required) ∧
    (∀ (env : Env) (ty : String) (pre post : List (StructField × Slot Value))
        (f : StructField) (v : Slot Value) (node : Schema),
      ¬ (v.Kind = .Struct ∧ f.Anonymous = true) →
      (wireName f = none ∨ f.doc = "" ∨ v = .iface none) →
      extractSchema env (some (.struct ty (pre ++ (f, v) :: post))) = .ok (some node) →
      ∃ nodePre nodePost : Schema,
        extractSchema env (some (.struct ty pre)) = .ok (some nodePre) ∧
        extractSchema env (some (.struct ty post)) = .ok (some nodePost) ∧
        node.attrs.Required = nodePre.attrs.Required ++ nodePost.attrs.Required) ∧
    (∀ (env : Env) (ty : String),
      extractSchema env (some (.struct ty [])) = .ok (some NewObjectSchema) ∧
      NewObjectSchema.attrs.Required = []) := by
  refine ⟨?_, ?_, ?_, ?_⟩
  · intro env ty pre post f v n kvs node hflat hname hdoc hval hparse hok
    obtain ⟨e2, nodePre, nodePost, he2, hpre, hpost, hreq⟩ :=
      extractSchema_struct_split env ty pre post (f, v) node hok
    obtain ⟨x, child, kvs', s, _, _, hp, _, rfl⟩ :=
      fieldEffect_direct env f v n e2 hflat hname hdoc hval he2
    rw [hparse] at hp
    cases hp
    exact ⟨nodePre, nodePost, hpre, hpost, by rw [hreq, requiredNames_eq_replicate]⟩
  · intro env ty pre post f v node hkind hanon hok
    obtain ⟨e2, nodePre, nodePost, he2, hpre, hpost, hreq⟩ :=
      extractSchema_struct_split env ty pre post (f, v) node hok
    have hflat : v.Kind = .Struct ∧ f.Anonymous = true := ⟨hkind, hanon⟩
    simp only [fieldEffect, hflat, and_self, if_true] at he2
    cases hq : v.Interface f with
    | error e => simp [hq] at he2
    | ok q =>
      simp only [hq] at he2
      cases hx : extractSchema env q with
      | error e => simp [hx] at he2
      | ok sr =>
        cases sr with
        | none => simp [hx] at he2
        | some nodeE =>
          simp only [hx, Except.ok.injEq] at he2
          subst he2
          exact ⟨q, nodeE, nodePre, nodePost, rfl, hx, hpre, hpost, hreq⟩
  · intro env ty pre post f v node hflat hskip hok
    obtain ⟨e2, nodePre, nodePost, he2, hpre, hpost, hreq⟩ :=
      extractSchema_struct_split env ty pre post (f, v) node hok
    refine ⟨nodePre, nodePost, hpre, hpost, ?_⟩
    have he : e2.1 = [] := by
      simp only [fieldEffect, hflat, if_false] at he2
      cases hw : wireName f with
      | none => simp [hw] at he2; rw [← he2]
      | some fn =>
        simp only [hw] at he2
        split_ifs at he2 with hlen
        · cases he2; rfl
        · rcases hskip with h | h | h
          · rw [hw] at h; cases h
          · exact absurd (by rw [h]; rfl) hlen
          · subst h
            simp only [Slot.Interface] at he2
            split_ifs at he2 with hpkg
            have hn : extractSchema env none = .ok none := rfl
            simp only [hn, Except.ok.injEq] at he2
            rw [← he2]
    rw [hreq, he, List.append_nil]
  · intro env ty
    exact ⟨rfl, rfl⟩

theorem extractSchema_required_list_witness :
    ∃ nodePre nodePost : Schema,
      extractSchema emptyEnv (some (.struct "T" [])) = .ok (some nodePre) ∧
      extractSchema emptyEnv (some (.struct "T" [])) = .ok (some nodePost) ∧
      sampleTwiceSchema.attrs.Required = nodePre.attrs.Required
        ++ List.replicate ([(DocTagFieldRequired, ""), (DocTagFieldRequired, ""),
            (DocTagFieldDescription, "x")].countP fun kv => kv.1 = DocTagFieldRequired) "str"
        ++ nodePost.attrs.Required :=
  extractSchema_required_list.1 emptyEnv "T" [] [] sampleTwiceField.1 sampleTwiceField.2 "str"
    [(DocTagFieldRequired, ""), (DocTagFieldRequired, ""), (DocTagFieldDescription, "x")]
    sampleTwiceSchema (by simp [sampleTwiceField, Slot.Kind]) (by decide) (by decide)
    (by simp [sampleTwiceField]) (by rfl) (by rfl)

/-- C18, counterexample. A field annotated `required required desc(x)`: inference succeeds
and the required list of the struct's node holds the wire name twice. -/
theorem extractSchema_required_twice :
    extractSchema emptyEnv (some (.struct "T" [sampleTwiceField]))
      = .ok (some sampleTwiceSchema) ∧
    sampleTwiceSchema.attrs.Required = ["str", "str"] ∧
    ¬ sampleTwiceSchema.attrs.Required.Nodup := by
  refine ⟨rfl, rfl, by decide⟩


/-! ## Theorems: negative bounds -/

theorem parseDecimal_decimalNumeral (ds : List Nat) (hne : ds ≠ []) (h : ∀ d ∈ ds, d < 10) :
    parseDecimal (ds.map digitChar) = some (Nat.ofDigits 10 ds.reverse) := by
  cases ds with
  | nil => exact absurd rfl hne
  | cons d rest =>
    have := foldlM_decimalNumeral (d :: rest) h 0
    simpa [parseDecimal] using this

theorem ParseInt_neg_decimalNumeral (ds : List Nat) (hne : ds ≠ []) (h : ∀ d ∈ ds, d < 10)
    (hle : Nat.ofDigits 10 ds.reverse ≤ 2 ^ 63) :
    ParseInt ("-" ++ decimalNumeral ds) = some (-((Nat.ofDigits 10 ds.reverse : Nat) : Int)) := by
  have hdata : ("-" ++ decimalNumeral ds).data = '-' :: ds.map digitChar := by
    simp [decimalNumeral, String.data_append]
  have hdec := parseDecimal_decimalNumeral ds hne h
  unfold ParseInt
  split
  · rename_i ds' heq
    rw [hdata] at heq
    simp only [List.cons.injEq] at heq
    exact absurd heq.1 (by decide)
  · rename_i ds' heq
    rw [hdata] at heq
    simp only [List.cons.injEq, true_and] at heq
    subst heq
    rw [hdec]
    show (if _ ≤ 2 ^ 63 then _ else _) = _
    rw [if_pos hle]
  · rename_i h1 h2
    exact absurd hdata (h2 _)

theorem uint64_neg (m : Nat) (hpos : 0 < m) (hle : m ≤ 2 ^ 63) :
    uint64 (-(m : Int)) = 2 ^ 64 - m := by
  unfold uint64
  omega

/-- A directive with an integer key and an argument that parses applies to every pair of
schemas. -/
theorem applyDocTagField_int_ok (env : Env) (fn key arg : String) (z : Int)
    (hkey : key ∈ [DocTagFieldMinItems, DocTagFieldMaxItems, DocTagFieldStringMinLength,
      DocTagFieldStringMaxLength])
    (hz : ParseInt arg = some z) (st : Schema × Schema) :
    ∃ st', applyDocTagField env fn st (key, arg) = .ok st' := by
  simp only [DocTagFieldMaxItems, DocTagFieldMinItems, DocTagFieldStringMaxLength,
    DocTagFieldStringMinLength, List.mem_cons, List.mem_singleton, List.not_mem_nil,
    or_false] at hkey
  rcases hkey with hk | hk | hk | hk <;> subst hk <;>
    simp [applyDocTagField, DocTagFieldMaxItems, DocTagFieldMinItems,
      DocTagFieldNullable, DocTagFieldRequired, DocTagFieldFormat, DocTagFieldPattern,
      DocTagFieldDescription, DocTagFieldEnum, DocTagFieldStringMaxLength, DocTagFieldMaximum,
      DocTagFieldStringMinLength, DocTagFieldMinimum, Atoi, hz]

/-- A directive list with one more directive that applies, applies when the list without
it does. -/
theorem applyDocTag_insert_ok (env : Env) (fn : String) (kv : String × String)
    (kvs1 kvs2 : List (String × String)) (child s0 : Schema)
    (hstep : ∀ st, ∃ st', applyDocTagField env fn st kv = .ok st')
    (hothers : applyDocTag env fn (kvs1 ++ kvs2) child = .ok s0) :
    ∃ s, applyDocTag env fn (kvs1 ++ kv :: kvs2) child = .ok s := by
  unfold applyDocTag at hothers ⊢
  simp only [List.foldlM_append, List.foldlM_cons, bind, Except.bind] at hothers ⊢
  cases h1 : kvs1.foldlM (applyDocTagField env fn) (NewObjectSchema, child) with
  | error e => simp [h1, Except.map] at hothers
  | ok st1 =>
    simp only [h1] at hothers ⊢
    obtain ⟨st2, h2⟩ := hstep st1
    simp only [h2]
    cases h3 : kvs2.foldlM (applyDocTagField env fn) st1 with
    | error e => simp [h3, Except.map] at hothers
    | ok st3 =>
      obtain ⟨r, hr⟩ := foldlM_applyDocTagField_ok env fn kvs2 st1 st2 ⟨st3, h3⟩
      exact ⟨r.2, by simp [hr, Except.map]⟩

/-- What an annotated, wire-named, non-flattened field adds when its value infers to a node
and its directives apply. -/
theorem fieldEffect_of_direct (env : Env) (f : StructField) (v : Slot Value) (n : String)
    (x : Value) (child : Schema) (kvs : List (String × String)) (s : Schema)
    (hflat : ¬ (v.Kind = .Struct ∧ f.Anonymous = true)) (hname : wireName f = some n)
    (hdoc : f.doc ≠ "") (hx : v.Interface f = .ok (some x))
    (hchild : extractSchema env (some x) = .ok (some child))
    (hparse : parseDocTag f.doc = .ok kvs) (happly : applyDocTag env n kvs child = .ok s) :
    fieldEffect env (f, v) = .ok (requiredNames n kvs, [(n, s)]) := by
  have hlen := length_ne_zero_of_ne_empty f.doc hdoc
  simp only [fieldEffect, hflat, if_false, hname, hlen, hx, hchild, hparse, happly]

/-- Inference of a struct succeeds when it succeeds on the fields before and after an
annotated field that infers and whose directives apply; the field's sub-schema is stored
under its wire name. -/
theorem extractSchema_field_ok (env : Env) (ty : String)
    (pre post : List (StructField × Slot Value)) (f : StructField) (v : Slot Value)
    (n : String) (x : Value) (child : Schema) (kvs : List (String × String))
    (s nodePre nodePost : Schema)
    (hflat : ¬ (v.Kind = .Struct ∧ f.Anonymous = true)) (hname : wireName f = some n)
    (hdoc : f.doc ≠ "") (hx : v.Interface f = .ok (some x))
    (hchild : extractSchema env (some x) = .ok (some child))
    (hparse : parseDocTag f.doc = .ok kvs) (happly : applyDocTag env n kvs child = .ok s)
    (hpre : extractSchema env (some (.struct ty pre)) = .ok (some nodePre))
    (hpost : extractSchema env (some (.struct ty post)) = .ok (some nodePost))
    (hfresh : mapGet nodePost.Properties n = none) :
    ∃ node, extractSchema env (some (.struct ty (pre ++ (f, v) :: post))) = .ok (some node) ∧
      mapGet node.Properties n = some s := by
  have he2 := fieldEffect_of_direct env f v n x child kvs s hflat hname hdoc hx hchild hparse
    happly
  have hok : ∃ node,
      extractSchema env (some (.struct ty (pre ++ (f, v) :: post))) = .ok (some node) := by
    rw [extractSchema_struct_effect] at hpre hpost ⊢
    rw [fieldsEffect_append]
    have hcons : fieldsEffect env ((f, v) :: post) =
        match fieldEffect env (f, v) with
        | .error e => .error e
        | .ok e1 =>
          match fieldsEffect env post with
          | .error e => .error e
          | .ok e2 => .ok (e1.1 ++ e2.1, e1.2 ++ e2.2) := rfl
    rw [hcons, he2]
    cases h1 : fieldsEffect env pre with
    | error e => simp [h1] at hpre
    | ok e1 =>
      cases h3 : fieldsEffect env post with
      | error e => simp [h3] at hpost
      | ok e3 => exact ⟨_, rfl⟩
  obtain ⟨node, hnode⟩ := hok
  have hval : v ≠ .iface none := by
    intro hv
    subst hv
    simp only [Slot.Interface] at hx
    split_ifs at hx
    cases hx
  obtain ⟨x', child', kvs', s', _, nodePost', hx', hchild', hp', happly', _, hpost', _, hget⟩ :=
    extractSchema_field env ty pre post f v n node hflat hname hdoc hval hnode
  rw [hx] at hx'
  cases hx'
  rw [hchild] at hchild'
  cases hchild'
  rw [hparse] at hp'
  cases hp'
  rw [happly] at happly'
  cases happly'
  rw [hpost] at hpost'
  cases hpost'
  exact ⟨node, hnode, hget hfresh⟩

/-- C21, as the code has it. Negative bounds wrap instead of failing. Take a struct whose
fields before and after a field infer, and a wire-named field that is not a flattened
embedded struct, whose value is obtained by `val.Interface()` (the field is exported) and
infers to a node `child`, and whose directive list, of any length, has as the last
directive of its key one of `minItems`, `maxItems`, `minLength`, `maxLength` with the
argument `-m`, for a numeral `m` with `0 < m ≤ 2^63`, the other directives being ones that
apply to `child`. Then inference of the struct succeeds, and (when no later field declares
the wire name again) the node stored under the wire name is `child` with all directives
applied, with the unsigned bound `2^64 - m` in the field that the directive names. -/
theorem extractSchema_negative_bound (env : Env) (ty : String)
    (pre post : List (StructField × Slot Value)) (f : StructField) (v : Slot Value)
    (n key : String) (ds : List Nat) (kvs1 kvs2 : List (String × String)) (x : Value)
    (child s0 nodePre nodePost : Schema)
    (hflat : ¬ (v.Kind = .Struct ∧ f.Anonymous = true)) (hname : wireName f = some n)
    (hx : v.Interface f = .ok (some x))
    (hchild : extractSchema env (some x) = .ok (some child))
    (hparse : parseDocTag f.doc = .ok (kvs1 ++ (key, "-" ++ decimalNumeral ds) :: kvs2))
    (hkey : key ∈ [DocTagFieldMinItems, DocTagFieldMaxItems, DocTagFieldStringMinLength,
      DocTagFieldStringMaxLength])
    (hlast : ∀ kv ∈ kvs2, kv.1 ≠ key)
    (hothers : applyDocTag env n (kvs1 ++ kvs2) child = .ok s0)
    (hne : ds ≠ []) (hdig : ∀ d ∈ ds, d < 10) (hpos : 0 < Nat.ofDigits 10 ds.reverse)
    (hle : Nat.ofDigits 10 ds.reverse ≤ 2 ^ 63)
    (hpre : extractSchema env (some (.struct ty pre)) = .ok (some nodePre))
    (hpost : extractSchema env (some (.struct ty post)) = .ok (some nodePost))
    (hfresh : mapGet nodePost.Properties n = none) :
    ∃ node s,
      extractSchema env (some (.struct ty (pre ++ (f, v) :: post))) = .ok (some node) ∧
      applyDocTag env n (kvs1 ++ (key, "-" ++ decimalNumeral ds) :: kvs2) child = .ok s ∧
      mapGet node.Properties n = some s ∧
      (key = DocTagFieldMinItems →
        s.attrs.MinItems = 2 ^ 64 - Nat.ofDigits 10 ds.reverse) ∧
      (key = DocTagFieldMaxItems →
        s.attrs.MaxItems = some (2 ^ 64 - Nat.ofDigits 10 ds.reverse)) ∧
      (key = DocTagFieldStringMinLength →
        s.attrs.MinLength = 2 ^ 64 - Nat.ofDigits 10 ds.reverse) ∧
      (key = DocTagFieldStringMaxLength →
        s.attrs.MaxLength = some (2 ^ 64 - Nat.ofDigits 10 ds.reverse)) := by
  have hdoc : f.doc ≠ "" := by
    intro h0
    rw [h0, parseDocTag_empty] at hparse
    cases kvs1 <;> simp at hparse
  have hp := ParseInt_neg_decimalNumeral ds hne hdig hle
  have hu := uint64_neg _ hpos hle
  obtain ⟨s, happly⟩ := applyDocTag_insert_ok env n (key, "-" ++ decimalNumeral ds) kvs1 kvs2
    child s0 (applyDocTagField_int_ok env n key _ _ hkey hp) hothers
  obtain ⟨node, hnode, hget⟩ := extractSchema_field_ok env ty pre post f v n x child _ s
    nodePre nodePost hflat hname hdoc hx hchild hparse happly hpre hpost hfresh
  obtain ⟨b1, b2, b3, b4, _, _⟩ :=
    applyDocTag_bound env n key _ kvs1 kvs2 child s hlast happly
  refine ⟨node, s, hnode, happly, hget, ?_, ?_, ?_, ?_⟩
  · intro hk; rw [b1 hk _ hp, hu]
  · intro hk; rw [b2 hk _ hp, hu]
  · intro hk; rw [b3 hk _ hp, hu]
  · intro hk; rw [b4 hk _ hp, hu]

theorem extractSchema_negative_bound_witness :
    ∃ node s, extractSchema emptyEnv (some (.struct "T" ([] ++ sampleNegativeField :: [])))
        = .ok (some node) ∧
      mapGet node.Properties "tags" = some s ∧
      s.attrs.MinItems = 2 ^ 64 - Nat.ofDigits 10 [1].reverse ∧
      2 ^ 64 - Nat.ofDigits 10 [1].reverse = 18446744073709551615 :=
  (extractSchema_negative_bound emptyEnv "T" [] [] sampleNegativeField.1
    sampleNegativeField.2 "tags" DocTagFieldMinItems [1] [(DocTagFieldDescription, "tags")] []
    (.slice "[]string" [some (str "a")]) sampleNegativeChild
    (sampleNegativeChild.modify fun a => { a with Description := "tags" })
    NewObjectSchema NewObjectSchema
    (by simp [sampleNegativeField]) (by decide) (by rfl) (by rfl) (by rfl) (by simp)
    (by simp) (by rfl) (by simp) (by decide) (by decide) (by decide) (by rfl) (by rfl)
    (by rfl)).elim
    fun node h => h.elim fun s hs => ⟨node, s, hs.1, hs.2.2.1, hs.2.2.2.1 rfl, by decide⟩

/-- C21, counterexample. Two wire-named fields annotated `minItems(-1)`. The first is
unexported: its value infers to a node, and inference of the struct panics in
`val.Interface()`. The second is an embedded struct: its value infers to a node, the struct
is flattened, its tags are not read, and no bound is stored: there is nothing under its
wire name. -/
theorem extractSchema_negative_bound_fails :
    wireName sampleUnexportedNegativeField.1 = some "tags" ∧
    parseDocTag sampleUnexportedNegativeField.1.doc = .ok [(DocTagFieldMinItems, "-1")] ∧
    extractSchema emptyEnv (some (.slice "[]string" [some (str "a")]))
      = .ok (some sampleNegativeChild) ∧
    extractSchema emptyEnv (some (.struct "T" [sampleUnexportedNegativeField]))
      = .error .reflect ∧
    wireName sampleEmbeddedNegativeField.1 = some "embed" ∧
    parseDocTag sampleEmbeddedNegativeField.1.doc = .ok [(DocTagFieldMinItems, "-1")] ∧
    extractSchema emptyEnv (some (.struct "ginx.JSONEmbed" [])) = .ok (some NewObjectSchema) ∧
    extractSchema emptyEnv (some (.struct "T" [sampleEmbeddedNegativeField]))
      = .ok (some NewObjectSchema) ∧
    mapGet NewObjectSchema.Properties "embed" = none := by
  refine ⟨by decide, by rfl, by rfl, by rfl, by decide, by rfl, by rfl, by rfl, by rfl⟩


/-! ## Theorems: nil prototypes -/

/-- A field whose `Interface()` is nil adds nothing, whatever its tags are. -/
theorem fieldEffect_nil_interface (env : Env) (f : StructField) (v : Slot Value)
    (hnil : v.Interface f = .ok none) : fieldEffect env (f, v) = .ok ([], []) := by
  have hv : v = .iface none := by
    cases v with
    | conc x =>
      simp only [Slot.Interface] at hnil
      split_ifs at hnil
      simp at hnil
    | iface dyn =>
      simp only [Slot.Interface] at hnil
      split_ifs at hnil
      cases hnil
      rfl
  have hkind : ¬ (v.Kind = .Struct ∧ f.Anonymous = true) := by
    subst hv
    simp [Slot.Kind]
  have hn : extractSchema env none = .ok none := rfl
  simp only [fieldEffect, hkind, if_false]
  cases wireName f with
  | none => rfl
  | some fn =>
    simp only
    split_ifs
    · rfl
    · simp only [hnil, hn]

theorem fieldsEffect_nil_interface (env : Env) (pre post : List (StructField × Slot Value))
    (f : StructField) (v : Slot Value) (hnil : v.Interface f = .ok none) :
    fieldsEffect env (pre ++ (f, v) :: post) = fieldsEffect env (pre ++ post) := by
  have hcons : fieldsEffect env ((f, v) :: post) = fieldsEffect env post := by
    simp only [fieldsEffect, fieldEffect_nil_interface env f v hnil]
    cases fieldsEffect env post <;> simp
  rw [fieldsEffect_append, fieldsEffect_append, hcons]

/-- A wire-named, annotated, non-flattened field that is unexported makes `Interface()`
panic. -/
theorem fieldEffect_unexported (env : Env) (f : StructField) (v : Slot Value) (n : String)
    (hflat : ¬ (v.Kind = .Struct ∧ f.Anonymous = true)) (hname : wireName f = some n)
    (hdoc : f.doc ≠ "") (hpkg : f.PkgPath ≠ "") :
    ∃ e, fieldEffect env (f, v) = .error e := by
  have hlen := length_ne_zero_of_ne_empty f.doc hdoc
  have hi : v.Interface f = .error .reflect := by
    cases v <;> simp [Slot.Interface, hpkg]
  exact ⟨.reflect, by simp only [fieldEffect, hflat, if_false, hname, hlen, hi]⟩

/-- C22, as the code has it. A nil prototype yields no node and no failure:
`extractSchema(nil)` returns the absent result, and nil is the only prototype with that
result. In a struct, given directly or behind a pointer, an exported field whose value is a
nil interface is omitted whatever its tags are: the annotation is not parsed, and inference
of the struct is inference of the struct without the field. For an unexported field that is
wire-named and annotated, `val.Interface()` panics and so does inference of the struct,
whatever the value of the field. A slice whose first element is a nil interface, given
directly or behind a pointer, yields the array node without items, and a slice whose first
element is not a nil interface (a nil pointer, for one) never does. -/
theorem extractSchema_nil :
    (∀ env : Env, extractSchema env none = .ok none) ∧
    (∀ (env : Env) (x : Value), extractSchema env (some x) ≠ .ok none) ∧
    (∀ (env : Env) (ty : String) (pre post : List (StructField × Slot Value))
        (f : StructField),
      f.PkgPath = "" →
      extractSchema env (some (.struct ty (pre ++ (f, .iface none) :: post)))
        = extractSchema env (some (.struct ty (pre ++ post))) ∧
      extractSchema env (some (.ptr (.struct ty (pre ++ (f, .iface none) :: post))))
        = extractSchema env (some (.ptr (.struct ty (pre ++ post))))) ∧
    (∀ (env : Env) (ty : String) (fields : List (StructField × Slot Value))
        (f : StructField) (v : Slot Value) (n : String),
      (f, v) ∈ fields → ¬ (v.Kind = .Struct ∧ f.Anonymous = true) → wireName f = some n →
      f.doc ≠ "" → f.PkgPath ≠ "" →
      ∃ e, extractSchema env (some (.struct ty fields)) = .error e) ∧
    (∀ (env : Env) (ty : String) (rest : List (Option Value)),
      extractSchema env (some (.slice ty (none :: rest)))
        = .ok (some (.mk { type := .array } none [])) ∧
      extractSchema env (some (.ptr (.slice ty (none :: rest))))
        = .ok (some (.mk { type := .array } none []))) ∧
    (∀ (env : Env) (ty : String) (x : Value) (rest : List (Option Value)),
      extractSchema env (some (.slice ty (some x :: rest)))
        ≠ .ok (some (.mk { type := .array } none []))) := by
  refine ⟨fun _ => rfl, extractSchema_some_ne_none, ?_, ?_, ?_, ?_⟩
  · intro env ty pre post f hpkg
    have hnil : (Slot.iface none).Interface f = .ok none := by simp [Slot.Interface, hpkg]
    rw [extractSchema_struct_effect, extractSchema_struct_effect,
      extractSchema_ptr_struct_effect, extractSchema_ptr_struct_effect,
      fieldsEffect_nil_interface env pre post f _ hnil]
    exact ⟨rfl, rfl⟩
  · intro env ty fields f v n hmem hflat hname hdoc hpkg
    obtain ⟨e, he⟩ := fieldsEffect_error_of_mem env fields (f, v) hmem
      (fieldEffect_unexported env f v n hflat hname hdoc hpkg)
    exact ⟨e, by rw [extractSchema_struct_effect, he]⟩
  · intro env ty rest
    rw [extractSchema_slice_cons, extractSchema_ptr_slice_cons]
    exact ⟨rfl, rfl⟩
  · intro env ty x rest h
    rw [extractSchema_slice_cons] at h
    cases hx : extractSchema env (some x) with
    | error e => simp [hx, Except.map] at h
    | ok items =>
      cases items with
      | none => exact extractSchema_some_ne_none env x hx
      | some i =>
        simp only [hx, Except.map, Except.ok.injEq, Option.some.injEq, Schema.mk.injEq] at h
        cases h.2.1

theorem extractSchema_nil_witness :
    parseDocTag sampleNilField.1.doc = .error .invalidDocTag ∧
    extractSchema emptyEnv (some (.struct "T" ([sampleDescField] ++
        (sampleNilField.1, .iface none) :: [])))
      = extractSchema emptyEnv (some (.struct "T" ([sampleDescField] ++ []))) ∧
    extractSchema emptyEnv (some (.struct "T" ([sampleDescField] ++ [])))
      = .ok (some sampleDescSchema) ∧
    (∃ e, extractSchema emptyEnv (some (.struct "T" [sampleUnexportedField])) = .error e) :=
  ⟨by rfl,
    (extractSchema_nil.2.2.1 emptyEnv "T" [sampleDescField] [] sampleNilField.1 (by rfl)).1,
    by rfl,
    extractSchema_nil.2.2.2.1 emptyEnv "T" [sampleUnexportedField] sampleUnexportedField.1
      sampleUnexportedField.2 "any" (by simp) (by simp [sampleUnexportedField, Slot.Kind])
      (by decide) (by decide) (by decide)⟩

/-- C22, counterexample. An unexported field `any interface{}` with a json name and the
annotation `required` holds nil: inference of the struct panics in `val.Interface()`, while
inference of the struct without the field returns the empty object node. -/
theorem extractSchema_nil_unexported :
    sampleUnexportedField.2 = .iface none ∧
    wireName sampleUnexportedField.1 = some "any" ∧
    sampleUnexportedField.1.Anonymous = false ∧
    extractSchema emptyEnv (some (.struct "T" ([] ++ sampleUnexportedField :: [])))
      = .error .reflect ∧
    extractSchema emptyEnv (some (.struct "T" ([] ++ []))) = .ok (some NewObjectSchema) := by
  refine ⟨rfl, by decide, rfl, rfl, rfl⟩

end Ginx
